import Mathlib

/-!
# A verification development for the key-value server

Shallow embedding of the wire-protocol codec (`RESPParser`), the expiring store
(`Storage`), the command dispatcher (`CommandHandler`), the snapshot loader
(`RDBParser`) and the start-up and serving loop of the server (`RedisServer`).

Conventions of the embedding.

* A `std::string` is a list of bytes, a byte is a natural number (`Bytes`).
* A clock reading is an explicit integer argument: `now` for the monotonic clock in
  milliseconds, `nowMs` for the wall clock in milliseconds since the epoch. The
  conversion of a count of milliseconds to the `int64_t` nanoseconds of the clock wraps
  around (`Storage.toNanoseconds`). A time point is an unbounded integer and the sum of a
  reading and a duration is exact, which is what the code computes as long as the sum,
  counted in nanoseconds, stays within `int64_t`.
* An unordered map is the list of its entries in iteration order; `Storage.WF` says that
  no key occurs twice.
* A loop of the loader takes a budget `fuel` of iterations; reading a variable that a
  failed `read` left uninitialised ends the run with `Fault.indeterminate`.
* What the sockets do is given from outside: the traffic with the primary as a list of
  `RedisServer.Exchange`, the reports of `select` as a list of `RedisServer.Event`.
* A C++ exception is an `Except.error` carrying the exception kind.
* Fixed-width unsigned arithmetic is arithmetic on `Nat` reduced modulo `2 ^ w`; signed
  64-bit arithmetic is arithmetic on `Int` reduced by `toInt64`.
-/

set_option autoImplicit false

namespace Redis

/-! ## Byte strings -/

/-- A byte string, the contents of a `std::string`. -/
abbrev Bytes := List Nat

/-- The bytes of a string literal. -/
def bytes (s : String) : Bytes := s.toList.map Char.toNat

/-- Line feed, the delimiter of `std::getline`. -/
def LF : Nat := 10

/-- Carriage return. -/
def CR : Nat := 13

/-! ## The C++ library functions used by the codec -/

/-- The exceptions of `std::stoi` and `std::stoll`. -/
inductive ConvError where
  | invalid_argument
  | out_of_range
  deriving DecidableEq, Repr

deriving instance DecidableEq for Except

/-- The predicate `isspace` of the C locale. -/
def isSpace (c : Nat) : Bool := c == 32 || (9 ≤ c && c ≤ 13)

/-- The predicate `isdigit`. -/
def isDigit (c : Nat) : Bool := 48 ≤ c && c ≤ 57

/-- The value of a run of decimal digits. -/
def digitsValue (ds : Bytes) : Nat := ds.foldl (fun acc d => 10 * acc + (d - 48)) 0

/-- The longest prefix of decimal digits as a number, `none` when there is no digit. -/
def parseUnsigned (s : Bytes) : Option Nat :=
  match s.takeWhile isDigit with
  | [] => none
  | d :: ds => some (digitsValue (d :: ds))

/-- The conversion of `strtol` in base 10 on unbounded integers: leading white space,
an optional sign, then digits; `none` when no conversion can be performed. -/
def strtol (s : Bytes) : Option Int :=
  match s.dropWhile isSpace with
  | [] => none
  | c :: rest =>
    if c = 45 then
      match parseUnsigned rest with
      | some n => some (-(n : Int))
      | none => none
    else
      match parseUnsigned (if c = 43 then rest else c :: rest) with
      | some n => some (n : Int)
      | none => none

/-- The function `std::stoi`: the value must fit a 32-bit `int`. -/
def stoi (s : Bytes) : Except ConvError Int :=
  match strtol s with
  | none => .error .invalid_argument
  | some v => if -2 ^ 31 ≤ v ∧ v < 2 ^ 31 then .ok v else .error .out_of_range

/-- The function `std::stoll`: the value must fit a 64-bit `long long`. -/
def stoll (s : Bytes) : Except ConvError Int :=
  match strtol s with
  | none => .error .invalid_argument
  | some v => if -2 ^ 63 ≤ v ∧ v < 2 ^ 63 then .ok v else .error .out_of_range

/-- Decimal digits of `n`, most significant first, with `fuel` bounding the recursion. -/
def decimalFuel : Nat → Nat → Bytes
  | 0, _ => []
  | fuel + 1, n => if n < 10 then [48 + n] else decimalFuel fuel (n / 10) ++ [48 + n % 10]

/-- The function `std::to_string` on an unsigned value. -/
def to_string (n : Nat) : Bytes := decimalFuel (n + 1) n

/-- The function `std::getline` on the unread rest of a string stream: `none` when
nothing is left to extract, otherwise the line without its delimiter and the rest
of the stream after the delimiter. -/
def getline : Bytes → Option (Bytes × Bytes)
  | [] => none
  | c :: s => some ((c :: s).takeWhile (fun b => b != LF), ((c :: s).dropWhile (fun b => b != LF)).drop 1)

/-- The step `if (line.back() == CR) line.pop_back()` on a line. -/
def popCR (line : Bytes) : Bytes :=
  if line.getLast? = some CR then line.dropLast else line

/-! ## RESPParser -/

namespace RESPParser

/-- The loop of `parseArray` over the declared elements; `n` counts the iterations left,
`iss` is the unread rest of the input and `result` the elements pushed so far. -/
def parseElements : Nat → Bytes → List Bytes → Except ConvError (List Bytes)
  | 0, _, result => .ok result
  | n + 1, iss, result =>
    match getline iss with
    | none => .ok result
    | some (line, iss) =>
      if line = [] ∨ line.head? ≠ some 36 then .ok result
      else
        match stoll ((popCR line).drop 1) with
        | .error e => .error e
        | .ok lengthParsed =>
          if lengthParsed < 0 then .ok result
          else
            match getline iss with
            | none => .ok result
            | some (line, iss) =>
              let line := popCR line
              let line := if line.length ≠ lengthParsed.toNat then line.take lengthParsed.toNat else line
              parseElements n iss (result ++ [line])

/-- The function `RESPParser::parseArray`; an error is an exception leaving the function. -/
def parseArray (data : Bytes) : Except ConvError (List Bytes) :=
  match getline data with
  | none => .ok []
  | some (line, iss) =>
    if line = [] ∨ line.head? ≠ some 42 then .ok []
    else
      match stoi ((popCR line).drop 1) with
      | .error e => .error e
      | .ok numElements => parseElements numElements.toNat iss []

/-- The search `data.find(CR LF)` started at index `i`: the index of the first
occurrence, `none` for `npos`. -/
def findCRLF : Nat → Bytes → Option Nat
  | _, [] => none
  | i, c :: s => if c = CR ∧ s.head? = some LF then some i else findCRLF (i + 1) s

/-- The function `RESPParser::parseSimpleString`. -/
def parseSimpleString (data : Bytes) : Bytes :=
  if data = [] ∨ data.head? ≠ some 43 then []
  else
    match findCRLF 0 data with
    | none => []
    | some stop => (data.drop 1).take (stop - 1)

/-- The function `RESPParser::encodeSimpleString`. -/
def encodeSimpleString (str : Bytes) : Bytes := [43] ++ str ++ [CR, LF]

/-- The function `RESPParser::encodeBulkString`. -/
def encodeBulkString (str : Bytes) : Bytes :=
  [36] ++ to_string str.length ++ [CR, LF] ++ str ++ [CR, LF]

/-- The function `RESPParser::encodeArray`. -/
def encodeArray (items : List Bytes) : Bytes :=
  items.foldl (fun result item => result ++ encodeBulkString item)
    ([42] ++ to_string items.length ++ [CR, LF])

/-- The function `RESPParser::encodeError`. -/
def encodeError (error : Bytes) : Bytes := [45] ++ error ++ [CR, LF]

/-- The function `RESPParser::encodeNull`. -/
def encodeNull : Bytes := bytes "$-1\r\n"

end RESPParser

/-! ## Fixed-width integers -/

/-- Conversion of an integer to `uint64_t`. -/
def toUInt64 (x : Int) : Nat := (x % 2 ^ 64).toNat

/-- Conversion of an integer to `int64_t`. -/
def toInt64 (x : Int) : Int := if x % 2 ^ 64 < 2 ^ 63 then x % 2 ^ 64 else x % 2 ^ 64 - 2 ^ 64

/-! ## Storage -/

/-- The struct `ValueWithExpiry`; a time point is given in milliseconds, as the first
millisecond reading of the clock that is not before it, and the default constructed
`expiryTime` of an entry without expiry is the epoch. -/
structure ValueWithExpiry where
  value : Bytes
  expiryTime : Int
  hasExpiry : Bool
  deriving DecidableEq, Repr

/-- The member `data_` of `Storage`: the entries of the unordered map, in its
(unspecified) iteration order. -/
abbrev Store := List (Bytes × ValueWithExpiry)

namespace Storage

/-- An unordered map holds every key at most once. -/
def WF (data_ : Store) : Prop := (data_.map Prod.fst).Nodup

instance (data_ : Store) : Decidable (WF data_) := by unfold WF; infer_instance

/-- The lookup `data_.find(key)`: the entry of `key`, `none` for `data_.end()`. -/
def find (key : Bytes) : Store → Option ValueWithExpiry
  | [] => none
  | (k, e) :: data_ => if k = key then some e else find key data_

/-- The call `data_.erase(it)` for the iterator found for `key`. -/
def erase (key : Bytes) : Store → Store
  | [] => []
  | (k, e) :: data_ => if k = key then data_ else (k, e) :: erase key data_

/-- The assignment `data_[key] = entry`. -/
def assign (key : Bytes) (entry : ValueWithExpiry) : Store → Store
  | [] => [(key, entry)]
  | (k, e) :: data_ => if k = key then (k, entry) :: data_ else (k, e) :: assign key entry data_

/-- The function `Storage::set`. -/
def set (data_ : Store) (key value : Bytes) : Store :=
  assign key ⟨value, 0, false⟩ data_

/-- The conversion of `std::chrono::milliseconds(expiryMs)` to the duration type of
`std::chrono::steady_clock`, a count of nanoseconds held in `int64_t`: the count is
multiplied by 1000000 in `int64_t`. A product out of range is a signed overflow; the
model takes the result of the two's complement multiplication, which wraps around. -/
def toNanoseconds (expiryMs : Int) : Int := toInt64 (expiryMs * 1000000)

/-- The time point `now + std::chrono::milliseconds(expiryMs)`: the reading `now` plus
the converted duration, given as the first millisecond reading of the clock that is not
before it. A reading `t` satisfies `t ≥ expiryPoint now expiryMs` exactly when
`t * 1000000 ≥ now * 1000000 + toNanoseconds expiryMs`. -/
def expiryPoint (now expiryMs : Int) : Int := now + -(-(toNanoseconds expiryMs) / 1000000)

/-- The function `Storage::setWithExpiry`, called when the monotonic clock reads `now`. -/
def setWithExpiry (data_ : Store) (now : Int) (key value : Bytes) (expiryMs : Int) : Store :=
  assign key ⟨value, expiryPoint now expiryMs, true⟩ data_

/-- The function `Storage::get`, called when the monotonic clock reads `now`:
the returned value and the map afterwards. -/
def get (data_ : Store) (now : Int) (key : Bytes) : Option Bytes × Store :=
  match find key data_ with
  | none => (none, data_)
  | some e =>
    if e.hasExpiry = true ∧ now ≥ e.expiryTime then (none, erase key data_)
    else (some e.value, data_)

/-- The function `Storage::getAllKeys`, called when the monotonic clock reads `now`:
the returned keys and the map afterwards. -/
def getAllKeys (now : Int) : Store → List Bytes × Store
  | [] => ([], [])
  | (k, e) :: data_ =>
    if e.hasExpiry = true ∧ now ≥ e.expiryTime then getAllKeys now data_
    else (k :: (getAllKeys now data_).1, (k, e) :: (getAllKeys now data_).2)

/-- A call of the public interface of `Storage`. -/
inductive Call where
  | set (key value : Bytes)
  | setWithExpiry (key value : Bytes) (expiryMs : Int)
  | get (key : Bytes)
  | getAllKeys
  deriving DecidableEq, Repr

/-- What a call returns. -/
inductive Ret where
  | unit
  | value (v : Option Bytes)
  | keys (ks : List Bytes)
  deriving DecidableEq, Repr

/-- One call executed when the monotonic clock reads `now`. -/
def step (data_ : Store) (now : Int) : Call → Ret × Store
  | .set key value => (.unit, set data_ key value)
  | .setWithExpiry key value expiryMs => (.unit, setWithExpiry data_ now key value expiryMs)
  | .get key => (.value (get data_ now key).1, (get data_ now key).2)
  | .getAllKeys => (.keys (getAllKeys now data_).1, (getAllKeys now data_).2)

/-- A sequence of timed calls executed in order: the results and the final map. -/
def run (data_ : Store) : List (Int × Call) → List Ret × Store
  | [] => ([], data_)
  | (now, c) :: rest =>
    ((step data_ now c).1 :: (run (step data_ now c).2 rest).1, (run (step data_ now c).2 rest).2)

/-- Whether a call writes `key`. -/
def Call.writes (key : Bytes) : Call → Bool
  | .set k _ => k == key
  | .setWithExpiry k _ _ => k == key
  | _ => false

/-- The most recent write to `key` in a sequence of timed calls, with its time. -/
def lastWrite (key : Bytes) (calls : List (Int × Call)) : Option (Int × Call) :=
  (calls.reverse.find? (fun tc => tc.2.writes key))

end Storage

/-! ## CommandHandler -/

/-- The accessors of `Config` that the dispatcher reads. -/
structure Config where
  getDir : Bytes
  getDbFilename : Bytes
  isReplica : Bool
  deriving DecidableEq, Repr

/-- The function `toupper` of the C locale. -/
def toupper (c : Nat) : Nat := if 97 ≤ c ∧ c ≤ 122 then c - 32 else c

/-- The function `tolower` of the C locale. -/
def tolower (c : Nat) : Nat := if 65 ≤ c ∧ c ≤ 90 then c + 32 else c

namespace CommandHandler

open RESPParser

/-- The function `CommandHandler::handlePing`. -/
def handlePing : Bytes := encodeSimpleString (bytes "PONG")

/-- The function `CommandHandler::handleEcho`. -/
def handleEcho (args : List Bytes) : Bytes :=
  match args with
  | [] => encodeError (bytes "ERR wrong number of arguments for 'echo' command")
  | a0 :: _ => encodeBulkString a0

/-- The function `CommandHandler::handleSet`: the reply and the map afterwards. -/
def handleSet (storage_ : Store) (now : Int) (args : List Bytes) : Bytes × Store :=
  match args with
  | key :: value :: rest =>
    match rest with
    | option :: a3 :: _ =>
      if option.map toupper = bytes "PX" then
        match stoi a3 with
        | .ok expiryMs =>
          (encodeSimpleString (bytes "OK"), Storage.setWithExpiry storage_ now key value expiryMs)
        | .error _ => (encodeError (bytes "ERR invalid expire time in 'set' command"), storage_)
      else (encodeSimpleString (bytes "OK"), Storage.set storage_ key value)
    | _ => (encodeSimpleString (bytes "OK"), Storage.set storage_ key value)
  | _ => (encodeError (bytes "ERR wrong number of arguments for 'set' command"), storage_)

/-- The function `CommandHandler::handleGet`: the reply and the map afterwards. -/
def handleGet (storage_ : Store) (now : Int) (args : List Bytes) : Bytes × Store :=
  match args with
  | [] => (encodeError (bytes "ERR wrong number of arguments for 'get' command"), storage_)
  | a0 :: _ =>
    match Storage.get storage_ now a0 with
    | (some value, s) => (encodeBulkString value, s)
    | (none, s) => (encodeNull, s)

/-- The function `CommandHandler::handleConfig`. -/
def handleConfig (config_ : Config) (args : List Bytes) : Bytes :=
  match args with
  | a0 :: a1 :: _ =>
    if a0.map toupper = bytes "GET" then
      let param := a1.map tolower
      if param = bytes "dir" then encodeArray [param, config_.getDir]
      else if param = bytes "dbfilename" then encodeArray [param, config_.getDbFilename]
      else encodeArray []
    else encodeError (bytes "ERR Unknown CONFIG subcommand")
  | _ => encodeError (bytes "ERR wrong number of arguments for 'config' command")

/-- The function `CommandHandler::handleKeys`: the reply and the map afterwards. -/
def handleKeys (storage_ : Store) (now : Int) (args : List Bytes) : Bytes × Store :=
  match args with
  | [] => (encodeError (bytes "ERR wrong number of arguments for 'keys' command"), storage_)
  | a0 :: _ =>
    if a0 ≠ bytes "*" then (encodeError (bytes "ERR pattern not supported"), storage_)
    else (encodeArray (Storage.getAllKeys now storage_).1, (Storage.getAllKeys now storage_).2)

/-- The replication id that `handleInfo` and `handlePsync` spell out. -/
def replId : Bytes := bytes "8371b4fb1155b71f4a04d3e1bc3e18c4a990aeeb"

/-- The function `CommandHandler::handleInfo`. -/
def handleInfo (config_ : Config) (args : List Bytes) : Bytes :=
  match args with
  | a0 :: _ =>
    if a0.map tolower = bytes "replication" then
      let role := if config_.isReplica then bytes "slave" else bytes "master"
      let info := bytes "role:" ++ role ++ [CR, LF]
      let info :=
        if !config_.isReplica then
          info ++ (bytes "master_replid:" ++ replId ++ [CR, LF]) ++ bytes "master_repl_offset:0"
        else info
      encodeBulkString info
    else encodeError (bytes "ERR wrong section for 'info' command")
  | [] => encodeError (bytes "ERR wrong section for 'info' command")

/-- The function `CommandHandler::handleReplconf`. -/
def handleReplconf (_args : List Bytes) : Bytes := encodeSimpleString (bytes "OK")

/-- The function `CommandHandler::handlePsync`. -/
def handlePsync (args : List Bytes) : Bytes :=
  if args.length ≠ 2 then
    encodeError (bytes "ERR wrong number of arguments for 'psync' command")
  else encodeSimpleString (bytes "FULLRESYNC " ++ replId ++ bytes " " ++ bytes "0")

/-- The function `CommandHandler::handleCommand`, called when the monotonic clock reads
`now`: the reply and the map afterwards. -/
def handleCommand (config_ : Config) (storage_ : Store) (now : Int) (command : List Bytes) :
    Bytes × Store :=
  match command with
  | [] => (encodeError (bytes "ERR empty command"), storage_)
  | c0 :: args =>
    let cmd := c0.map toupper
    if cmd = bytes "PING" then (handlePing, storage_)
    else if cmd = bytes "ECHO" then (handleEcho args, storage_)
    else if cmd = bytes "SET" then handleSet storage_ now args
    else if cmd = bytes "GET" then handleGet storage_ now args
    else if cmd = bytes "CONFIG" then (handleConfig config_ args, storage_)
    else if cmd = bytes "KEYS" then handleKeys storage_ now args
    else if cmd = bytes "INFO" then (handleInfo config_ args, storage_)
    else if cmd = bytes "REPLCONF" then (handleReplconf args, storage_)
    else if cmd = bytes "PSYNC" then (handlePsync args, storage_)
    else (encodeError (bytes "ERR unknown command '" ++ c0 ++ bytes "'"), storage_)

end CommandHandler

/-! ## RDBParser -/

/-- The member `file_`: the contents of the opened file, the read position and the
state bits of the stream. -/
structure IfStream where
  data : Bytes
  pos : Nat
  eofbit : Bool
  failbit : Bool
  deriving DecidableEq, Repr

namespace IfStream

/-- The test `good()`. -/
def good (f : IfStream) : Bool := !f.eofbit && !f.failbit

/-- The call `read(buf, n)`: the bytes stored into the buffer and the stream afterwards.
A stream that is not good extracts nothing; a short read sets `eofbit` and `failbit`. -/
def read (f : IfStream) (n : Nat) : Bytes × IfStream :=
  if f.good then
    let got := (f.data.drop f.pos).take n
    if got.length < n then
      (got, { f with pos := f.pos + got.length, eofbit := true, failbit := true })
    else (got, { f with pos := f.pos + n })
  else ([], { f with failbit := true })

/-- The call `peek()`: the next byte, `none` for `EOF`, and the stream afterwards. -/
def peek (f : IfStream) : Option Nat × IfStream :=
  if f.good then
    match f.data.drop f.pos with
    | [] => (none, { f with eofbit := true })
    | c :: _ => (some c, f)
  else (none, { f with failbit := true })

/-- The call `seekg(off, std::ios::cur)`: clears `eofbit`, then moves the read position
unless the stream has failed. -/
def seekg (f : IfStream) (off : Int) : IfStream :=
  if f.failbit then { f with eofbit := false }
  else if (f.pos : Int) + off < 0 then { f with eofbit := false, failbit := true }
  else { f with eofbit := false, pos := ((f.pos : Int) + off).toNat }

end IfStream

/-- Why a run of the loader has no result in the model. -/
inductive Fault where
  /-- A variable was used that a failed `read` had left uninitialised. -/
  | indeterminate
  /-- The loop budget of the model ran out. -/
  | fuel
  deriving DecidableEq, Repr

/-- The value of a little-endian byte sequence. -/
def leValue : Bytes → Nat
  | [] => 0
  | b :: bs => b + 256 * leValue bs

namespace RDBParser

/-- A `read` of `n` bytes into an uninitialised variable: its bytes when all were read. -/
def readExact (file_ : IfStream) (n : Nat) : Except Fault (Bytes × IfStream) :=
  if (file_.read n).1.length = n then .ok (file_.read n) else .error .indeterminate

/-- The function `RDBParser::readByte`. -/
def readByte (file_ : IfStream) : Except Fault (Nat × IfStream) :=
  match file_.read 1 with
  | ([b], f) => .ok (b, f)
  | _ => .error .indeterminate

/-- The function `RDBParser::readUInt32LE`. -/
def readUInt32LE (file_ : IfStream) : Except Fault (Nat × IfStream) :=
  match readExact file_ 4 with
  | .ok (bs, f) => .ok (leValue bs, f)
  | .error e => .error e

/-- The function `RDBParser::readUInt64LE`. -/
def readUInt64LE (file_ : IfStream) : Except Fault (Nat × IfStream) :=
  match readExact file_ 8 with
  | .ok (bs, f) => .ok (leValue bs, f)
  | .error e => .error e

/-- The loop of `readLength` for the 32-bit big-endian size: `n` bytes are still to read. -/
def readSizeBE : Nat → Nat → IfStream → Except Fault (Nat × IfStream)
  | 0, size, file_ => .ok (size, file_)
  | n + 1, size, file_ =>
    match readByte file_ with
    | .ok (b, f) => readSizeBE n (((size <<< 8) % 2 ^ 32) ||| b) f
    | .error e => .error e

/-- The function `RDBParser::readLength`. -/
def readLength (file_ : IfStream) : Except Fault (Nat × IfStream) :=
  match readByte file_ with
  | .error e => .error e
  | .ok (firstByte, f) =>
    let type := (firstByte &&& 0xC0) >>> 6
    if type = 0 then .ok (firstByte &&& 0x3F, f)
    else if type = 1 then
      match readByte f with
      | .ok (secondByte, f) => .ok (((firstByte &&& 0x3F) <<< 8) ||| secondByte, f)
      | .error e => .error e
    else if type = 2 then readSizeBE 4 0 f
    else
      let format := firstByte &&& 0x3F
      if format = 0 then readByte f
      else if format = 1 then
        match readExact f 2 with
        | .ok (bs, f) => .ok (leValue bs, f)
        | .error e => .error e
      else if format = 2 then
        match readExact f 4 with
        | .ok (bs, f) => .ok (leValue bs, f)
        | .error e => .error e
      else .ok (0, f)

/-- The end of `readString`, the regular string encoding: a length, then a string of that
many zero bytes overwritten by what the read extracts. -/
def readRegular (file_ : IfStream) : Except Fault (Bytes × IfStream) :=
  match readLength file_ with
  | .error e => .error e
  | .ok (length, f) =>
    let got := (f.read length).1
    .ok (got ++ List.replicate (length - got.length) 0, (f.read length).2)

/-- The function `RDBParser::readString`. -/
def readString (file_ : IfStream) : Except Fault (Bytes × IfStream) :=
  match readByte file_ with
  | .error e => .error e
  | .ok (firstByte, f) =>
    let f := f.seekg (-1)
    if firstByte &&& 0xC0 = 0xC0 then
      match readByte f with
      | .error e => .error e
      | .ok (_, f) =>
        let format := firstByte &&& 0x3F
        if format = 0 then
          match readByte f with
          | .ok (value, f) => .ok (to_string value, f)
          | .error e => .error e
        else if format = 1 then
          match readExact f 2 with
          | .ok (bs, f) => .ok (to_string (leValue bs), f)
          | .error e => .error e
        else if format = 2 then
          match readExact f 4 with
          | .ok (bs, f) => .ok (to_string (leValue bs), f)
          | .error e => .error e
        else readRegular f
    else readRegular f

/-- The function `RDBParser::skipBytes`. -/
def skipBytes (file_ : IfStream) (count : Nat) : Bool × IfStream :=
  ((file_.seekg count).good, file_.seekg count)

/-- The function `RDBParser::isEOF`. -/
def isEOF (file_ : IfStream) : Bool × IfStream :=
  if file_.eofbit then (true, file_)
  else
    match file_.peek with
    | (none, f) => (true, f)
    | (some _, f) => (false, f)

/-- The function `RDBParser::readHeader`. -/
def readHeader (file_ : IfStream) : Bool × IfStream :=
  if (file_.read 9).2.failbit = true ∨ (file_.read 9).1.take 5 ≠ bytes "REDIS" then
    (false, (file_.read 9).2)
  else (true, (file_.read 9).2)

/-- The function `RDBParser::skipMetadata`; `fuel` bounds the iterations of its loop. -/
def skipMetadata : Nat → IfStream → Except Fault (Bool × IfStream)
  | 0, _ => .error .fuel
  | fuel + 1, file_ =>
    match isEOF file_ with
    | (true, f) => .ok (true, f)
    | (false, f) =>
      match readByte f with
      | .error e => .error e
      | .ok (type, f) =>
        if type = 0xFA then
          match readString f with
          | .error e => .error e
          | .ok (_, f) =>
            match readString f with
            | .error e => .error e
            | .ok (_, f) => skipMetadata fuel f
        else if type = 0xFE ∨ type = 0xFF then .ok (true, f.seekg (-1))
        else .ok (false, f)

/-- The expiry prefix of a key-value pair whose first byte is `marker`:
`hasExpiry`, `expiryTime` (a `uint64_t`) and the value type byte. -/
def readExpiry (marker : Nat) (file_ : IfStream) :
    Except Fault ((Bool × Nat × Nat) × IfStream) :=
  if marker = 0xFD then
    match readUInt32LE file_ with
    | .error e => .error e
    | .ok (seconds, f) =>
      match readByte f with
      | .error e => .error e
      | .ok (marker, f) => .ok ((true, (seconds * 1000) % 2 ^ 32, marker), f)
  else if marker = 0xFC then
    match readUInt64LE file_ with
    | .error e => .error e
    | .ok (millis, f) =>
      match readByte f with
      | .error e => .error e
      | .ok (marker, f) => .ok ((true, millis, marker), f)
  else .ok ((false, 0, marker), file_)

/-- The end of the body of the key-value loop: what happens to a record read from the
file, with the wall clock at `nowMs` and the monotonic clock at `now`. -/
def store (storage : Store) (nowMs now : Int) (hasExpiry : Bool) (expiryTime : Nat)
    (key value : Bytes) : Store :=
  if hasExpiry then
    if expiryTime > toUInt64 nowMs then
      Storage.setWithExpiry storage now key value
        (toInt64 ((expiryTime : Int) - (toUInt64 nowMs : Int)))
    else storage
  else Storage.set storage key value

/-- The inner loop of `readDatabase` over the key-value pairs of one database; `fuel`
bounds its iterations. The result is `some b` when the loop executes `return b`, `none`
when it ends, with the stream and the store afterwards. -/
def readKeyValues (nowMs now : Int) :
    Nat → IfStream → Store → Except Fault (Option Bool × IfStream × Store)
  | 0, _, _ => .error .fuel
  | fuel + 1, file_, storage =>
    match isEOF file_ with
    | (true, f) => .ok (none, f, storage)
    | (false, f) =>
      match readByte f with
      | .error e => .error e
      | .ok (marker, f) =>
        if marker = 0xFE ∨ marker = 0xFF then .ok (none, f.seekg (-1), storage)
        else
          match readExpiry marker f with
          | .error e => .error e
          | .ok ((hasExpiry, expiryTime, marker), f) =>
            if marker ≠ 0x00 then .ok (some false, f, storage)
            else
              match readString f with
              | .error e => .error e
              | .ok (key, f) =>
                match readString f with
                | .error e => .error e
                | .ok (value, f) =>
                  readKeyValues nowMs now fuel f
                    (store storage nowMs now hasExpiry expiryTime key value)

/-- The function `RDBParser::readDatabase`; `fuel` bounds the iterations of its loops.
The result is the returned flag with the stream and the store afterwards. -/
def readDatabase (nowMs now : Int) :
    Nat → IfStream → Store → Except Fault (Bool × IfStream × Store)
  | 0, _, _ => .error .fuel
  | fuel + 1, file_, storage =>
    match isEOF file_ with
    | (true, f) => .ok (true, f, storage)
    | (false, f) =>
      match readByte f with
      | .error e => .error e
      | .ok (type, f) =>
        if type = 0xFE then
          match readByte f with
          | .error e => .error e
          | .ok (nextByte, f) =>
            let sizes : Except Fault IfStream :=
              if nextByte = 0xFB then
                match readLength f with
                | .error e => .error e
                | .ok (_, f) =>
                  match readLength f with
                  | .error e => .error e
                  | .ok (_, f) => .ok f
              else .ok (f.seekg (-1))
            match sizes with
            | .error e => .error e
            | .ok f =>
              match readKeyValues nowMs now fuel f storage with
              | .error e => .error e
              | .ok (some b, f, storage) => .ok (b, f, storage)
              | .ok (none, f, storage) => readDatabase nowMs now fuel f storage
        else if type = 0xFF then .ok (true, (skipBytes f 8).2, storage)
        else .ok (false, f, storage)

/-- What `filepath` names in the file system. -/
inductive FileEntry where
  /-- No such file: `std::filesystem::exists` is false. -/
  | missing
  /-- The file exists and opening it fails. -/
  | unreadable
  /-- The file opens and has these contents. -/
  | contents (data : Bytes)
  deriving DecidableEq, Repr

/-- The function `RDBParser::parseFile`, with the wall clock at `nowMs` and the monotonic
clock at `now` while it runs: the returned flag and the store afterwards. -/
def parseFile (fuel : Nat) (filepath : FileEntry) (storage : Store) (nowMs now : Int) :
    Except Fault (Bool × Store) :=
  match filepath with
  | .missing => .ok (true, storage)
  | .unreadable => .ok (false, storage)
  | .contents data =>
    match readHeader ⟨data, 0, false, false⟩ with
    | (false, _) => .ok (false, storage)
    | (true, f) =>
      match skipMetadata fuel f with
      | .error e => .error e
      | .ok (false, _) => .ok (false, storage)
      | .ok (true, f) =>
        match readDatabase nowMs now fuel f storage with
        | .error e => .error e
        | .ok (b, _, storage) => .ok (b, storage)

end RDBParser

/-! ## RedisServer -/

/-- The function `std::to_string` on a signed value. -/
def to_string_int (n : Int) : Bytes :=
  if n < 0 then 45 :: to_string n.natAbs else to_string n.toNat

namespace RedisServer

/-- What `recv` on the socket of the primary does. -/
inductive Recv where
  /-- The call never returns: the primary stays silent. -/
  | never
  /-- The call returns zero or a negative count. -/
  | failed
  /-- The call returns these bytes. -/
  | data (bs : Bytes)
  deriving DecidableEq, Repr

/-- What the network does with one message to the primary: whether `send` succeeds and
what the following `recv` does. -/
structure Exchange where
  sendOk : Bool
  recv : Recv
  deriving DecidableEq, Repr

/-- A `send` followed by a `recv` into the 256-byte buffer: `none` when `recv` never
returns, `some none` when one of the two calls fails, `some (some bs)` for the bytes read. -/
def sendRecv (x : Exchange) : Option (Option Bytes) :=
  if x.sendOk then
    match x.recv with
    | .never => none
    | .failed => some none
    | .data bs => if bs = [] then some none else some (some (bs.take 256))
  else some none

/-- The function `RedisServer::loadRDBFile`, where `file` is what the path
`dir/dbfilename` names. -/
def loadRDBFile (fuel : Nat) (file : RDBParser.FileEntry) (storage_ : Store)
    (nowMs now : Int) : Except Fault (Bool × Store) :=
  match RDBParser.parseFile fuel file storage_ nowMs now with
  | .error e => .error e
  | .ok (false, storage_) => .ok (false, storage_)
  | .ok (true, storage_) => .ok (true, storage_)

/-- The function `RedisServer::connectToMaster` for the port `getPort`; `connected`
says whether creating the socket, resolving the host and `connect` succeed, `link` is
what the network does with the messages in order (a missing item is a silent primary).
The result is the returned flag, `none` when the function never returns, and the
messages that were sent. -/
def connectToMaster (getPort : Int) (connected : Bool) (link : List Exchange) :
    Option Bool × List Bytes :=
  let x (i : Nat) : Exchange := link.getD i ⟨true, .never⟩
  let sent (i : Nat) (msgs : List Bytes) : List Bytes :=
    if (x i).sendOk then msgs else msgs.dropLast
  let pingCommand := RESPParser.encodeArray [bytes "PING"]
  let replconfPort := RESPParser.encodeArray
    [bytes "REPLCONF", bytes "listening-port", to_string_int getPort]
  let replconfCapa := RESPParser.encodeArray [bytes "REPLCONF", bytes "capa", bytes "psync2"]
  let psyncCommand := RESPParser.encodeArray [bytes "PSYNC", bytes "?", bytes "-1"]
  if connected then
    match sendRecv (x 0) with
    | none => (none, sent 0 [pingCommand])
    | some none => (some false, sent 0 [pingCommand])
    | some (some pongResponse) =>
      if RESPParser.parseSimpleString pongResponse ≠ bytes "PONG" then
        (some false, [pingCommand])
      else
        match sendRecv (x 1) with
        | none => (none, sent 1 [pingCommand, replconfPort])
        | some none => (some false, sent 1 [pingCommand, replconfPort])
        | some (some okResponse1) =>
          if RESPParser.parseSimpleString okResponse1 ≠ bytes "OK" then
            (some false, [pingCommand, replconfPort])
          else
            match sendRecv (x 2) with
            | none => (none, sent 2 [pingCommand, replconfPort, replconfCapa])
            | some none => (some false, sent 2 [pingCommand, replconfPort, replconfCapa])
            | some (some okResponse2) =>
              if RESPParser.parseSimpleString okResponse2 ≠ bytes "OK" then
                (some false, [pingCommand, replconfPort, replconfCapa])
              else
                match sendRecv (x 3) with
                | none => (none, sent 3 [pingCommand, replconfPort, replconfCapa, psyncCommand])
                | some none =>
                  (some false, sent 3 [pingCommand, replconfPort, replconfCapa, psyncCommand])
                | some (some _) =>
                  (some true, [pingCommand, replconfPort, replconfCapa, psyncCommand])
  else (some false, [])

/-- The members of the server that the serving loop changes, and the replies sent to
the clients so far. -/
structure State where
  storage_ : Store
  clientFds_ : List Nat
  replies : List (Nat × Bytes)
  deriving DecidableEq, Repr

/-- What `select` reports in the serving loop. -/
inductive Event where
  /-- The call `select` fails. -/
  | selectError
  /-- The listening socket is readable and `accept` returns this socket, `none` for an
  invalid one. -/
  | connection (clientFd : Option Nat)
  /-- The socket of a client is readable when the monotonic clock reads `now` and `recv`
  returns these bytes, none of them for a count of zero or below. -/
  | readable (clientFd : Nat) (now : Int) (received : Bytes)
  deriving DecidableEq, Repr

/-- The function `RedisServer::handleNewConnection`. -/
def handleNewConnection (s : State) (clientFd : Option Nat) : State :=
  match clientFd with
  | none => s
  | some fd => if fd ∈ s.clientFds_ then s else { s with clientFds_ := fd :: s.clientFds_ }

/-- The function `RedisServer::closeClient`. -/
def closeClient (s : State) (clientFd : Nat) : State :=
  { s with clientFds_ := s.clientFds_.filter (fun fd => fd ≠ clientFd) }

/-- The function `RedisServer::handleClientData` on what `recv` puts into the 1024-byte
buffer; an error is an exception leaving the function. -/
def handleClientData (config_ : Config) (s : State) (clientFd : Nat) (now : Int)
    (received : Bytes) : Except ConvError State :=
  if received = [] then .ok (closeClient s clientFd)
  else
    match RESPParser.parseArray (received.take 1024) with
    | .error e => .error e
    | .ok command =>
      if command ≠ [] then
        .ok { s with
          storage_ := (CommandHandler.handleCommand config_ s.storage_ now command).2
          replies := s.replies ++
            [(clientFd, (CommandHandler.handleCommand config_ s.storage_ now command).1)] }
      else .ok s

/-- The serving loop of `run` over what `select` reports, one report after the other:
the state when the reports end or `select` fails, an error for an exception that
leaves the loop. -/
def serve (config_ : Config) : State → List Event → Except ConvError State
  | s, [] => .ok s
  | s, .selectError :: _ => .ok s
  | s, .connection clientFd :: events => serve config_ (handleNewConnection s clientFd) events
  | s, .readable clientFd now received :: events =>
    if clientFd ∈ s.clientFds_ then
      match handleClientData config_ s clientFd now received with
      | .error e => .error e
      | .ok s => serve config_ s events
    else serve config_ s events

/-- What a run of the server is given from outside: whether `createServerSocket`
succeeds, the outcome of the connection to the primary, the traffic with it, and the
reports of `select`. -/
structure World where
  createServerSocket : Bool
  connected : Bool
  link : List Exchange
  events : List Event
  deriving DecidableEq, Repr

/-- How a run of the server goes. -/
structure Run where
  /-- The messages sent to the primary. -/
  toMaster : List Bytes
  /-- Whether the serving loop was entered. -/
  serving : Bool
  /-- The state at the end, an error for an exception that leaves `run`. -/
  final : Except ConvError State

/-- The function `RedisServer::run` on a server fresh from its constructor, whose
store is empty. -/
def run (config_ : Config) (getPort : Int) (w : World) : Run :=
  let fresh : State := ⟨[], [], []⟩
  if w.createServerSocket then
    if config_.isReplica then
      match connectToMaster getPort w.connected w.link with
      | (some true, sent) => ⟨sent, true, serve config_ fresh w.events⟩
      | (_, sent) => ⟨sent, false, .ok fresh⟩
    else ⟨[], true, serve config_ fresh w.events⟩
  else ⟨[], false, .ok fresh⟩

end RedisServer

/-! ## Auxiliary definitions of the statements and proofs -/

/-- The bulk encodings of a list of items, one after the other. -/
def RESPParser.encodeItems : List Bytes → Bytes
  | [] => []
  | item :: items => RESPParser.encodeBulkString item ++ RESPParser.encodeItems items

/-- The lines of a run of request elements as they stand in the input, each element
given by its header line, the length that the header declares, and its payload line;
every line is ended by LF. -/
def RESPParser.elementLines : List (Bytes × Nat × Bytes) → Bytes
  | [] => []
  | e :: es => e.1 ++ LF :: (e.2.2 ++ LF :: RESPParser.elementLines es)

/-- The element expected for a declared length `L` and a payload line: the first
`min L P` bytes of the line without one trailing CR, `P` being the number of bytes of
the line without that CR. -/
def RESPParser.declaredElement (e : Bytes × Nat × Bytes) : Bytes :=
  (popCR e.2.2).take (min e.2.1 (popCR e.2.2).length)

/-- An entry is expired at `now`: the condition under which `get` and `getAllKeys`
erase it. -/
def Storage.expired (now : Int) (e : ValueWithExpiry) : Prop :=
  e.hasExpiry = true ∧ now ≥ e.expiryTime

instance (now : Int) (e : ValueWithExpiry) : Decidable (Storage.expired now e) := by
  unfold Storage.expired; infer_instance

/-- The entry that a write executed at `now` assigns, `none` for a read. -/
def Storage.written (now : Int) : Storage.Call → Option ValueWithExpiry
  | .set _ value => some ⟨value, 0, false⟩
  | .setWithExpiry _ value expiryMs => some ⟨value, Storage.expiryPoint now expiryMs, true⟩
  | _ => none

/-- The entry of `key` that a sequence of calls started on `data_` leaves when no read
has erased it: the one of the most recent write, else the initial one. -/
def Storage.expected (data_ : Store) (calls : List (Int × Storage.Call)) (key : Bytes) :
    Option ValueWithExpiry :=
  match Storage.lastWrite key calls with
  | some (t0, c) => Storage.written t0 c
  | none => Storage.find key data_

/-- A string record of a snapshot without expiry: value type 0, then key and value behind
their one-byte lengths. -/
def encodeRecord (key value : Bytes) : Bytes :=
  0x00 :: key.length :: (key ++ value.length :: value)

/-- String records one after the other. -/
def encodeRecords : List (Bytes × Bytes) → Bytes
  | [] => []
  | r :: records => encodeRecord r.1 r.2 ++ encodeRecords records

/-- The store after `Storage::set` of each record in order. -/
def setAll (storage : Store) (records : List (Bytes × Bytes)) : Store :=
  records.foldl (fun s r => Storage.set s r.1 r.2) storage

/-- The network of a primary that takes every message and answers with these replies,
one for each `recv`; the empty reply is a `recv` that returns no byte. -/
def RedisServer.primary (replies : List Bytes) : List RedisServer.Exchange :=
  replies.map (fun r => ⟨true, .data r⟩)

/-- The eager sweep at `t`: the map without every entry whose expiry is at or
before `t`. -/
def Storage.sweep (t : Int) (data_ : Store) : Store :=
  data_.filter (fun p => !(p.2.hasExpiry && decide (p.2.expiryTime ≤ t)))

/-- Two results of a call are the same, lists of keys being compared as sets. -/
def Storage.Ret.same : Storage.Ret → Storage.Ret → Prop
  | .unit, .unit => True
  | .value a, .value b => a = b
  | .keys a, .keys b => ∀ k, k ∈ a ↔ k ∈ b
  | _, _ => False

/-- What a read at `t` sees of the entry of a key: nothing when it is expired. -/
def Storage.liveAt (t : Int) : Option ValueWithExpiry → Option ValueWithExpiry
  | some e => if Storage.expired t e then none else some e
  | none => none

/-- Two maps that no read at `t` or later tells apart: every key has the same entry in
both as far as it is not expired at `t`. -/
def Storage.Sim (t : Int) (a b : Store) : Prop :=
  Storage.WF a ∧ Storage.WF b ∧ ∀ k, Storage.liveAt t (Storage.find k a) = Storage.liveAt t (Storage.find k b)

/-- The bytes that a stream in good state has not read yet, zero for a stream that is
not in good state: the measure that every pass of a loop of the loader decreases. -/
def RDBParser.budget (f : IfStream) : Nat :=
  if f.eofbit = false ∧ f.failbit = false then f.data.length - f.pos else 0

/-- From a stream in good state with bytes left to a stream on the same file that is
further on. -/
def RDBParser.Adv (f f' : IfStream) : Prop :=
  f.eofbit = false ∧ f.failbit = false ∧ f.pos < f.data.length ∧ f'.data = f.data ∧
    f.pos < f'.pos

/-- From a stream in good state to a stream in good state on the same file that is
further on, within the file. -/
def RDBParser.AdvG (f f' : IfStream) : Prop :=
  f.eofbit = false ∧ f.failbit = false ∧ f'.data = f.data ∧ f'.eofbit = false ∧
    f'.failbit = false ∧ f.pos < f'.pos ∧ f'.pos ≤ f.data.length

/-- The crafted dump of the snapshot round trip: header, database opcode, value type 0,
key and value with one-byte lengths, end-of-file opcode and checksum. -/
def dump (header key value checksum : Bytes) : Bytes :=
  header ++ [0xFE, 0x00] ++ [key.length] ++ key ++ [value.length] ++ value ++ [0xFF] ++ checksum

/-! ## Lemmas on the library functions -/

theorem digitsValue_concat (ds : Bytes) (d : Nat) :
    digitsValue (ds ++ [d]) = 10 * digitsValue ds + (d - 48) := by
  simp [digitsValue, List.foldl_append]

theorem decimalFuel_spec (fuel : Nat) : ∀ n, n < fuel →
    decimalFuel fuel n ≠ [] ∧ (∀ d ∈ decimalFuel fuel n, isDigit d = true) ∧
      digitsValue (decimalFuel fuel n) = n := by
  induction fuel with
  | zero => intro n h; omega
  | succ fuel ih =>
    intro n h
    unfold decimalFuel
    by_cases h10 : n < 10
    · simp only [h10, if_true]
      refine ⟨by simp, ?_, ?_⟩
      · intro d hd
        simp only [List.mem_singleton] at hd
        subst hd
        simp [isDigit]; omega
      · simp [digitsValue]
    · simp only [h10, if_false]
      have hlt : n / 10 < fuel := by omega
      obtain ⟨_, h2, h3⟩ := ih (n / 10) hlt
      refine ⟨by simp, ?_, ?_⟩
      · intro d hd
        rcases List.mem_append.mp hd with hd | hd
        · exact h2 d hd
        · simp only [List.mem_singleton] at hd
          subst hd
          simp [isDigit]; omega
      · rw [digitsValue_concat, h3]; omega

theorem to_string_ne_nil (n : Nat) : to_string n ≠ [] :=
  (decimalFuel_spec (n + 1) n (Nat.lt_succ_self n)).1

theorem to_string_isDigit (n : Nat) : ∀ d ∈ to_string n, isDigit d = true :=
  (decimalFuel_spec (n + 1) n (Nat.lt_succ_self n)).2.1

theorem digitsValue_to_string (n : Nat) : digitsValue (to_string n) = n :=
  (decimalFuel_spec (n + 1) n (Nat.lt_succ_self n)).2.2

theorem parseUnsigned_digits (ds : Bytes) (hne : ds ≠ []) (h : ∀ d ∈ ds, isDigit d = true) :
    parseUnsigned ds = some (digitsValue ds) := by
  unfold parseUnsigned
  have ht : ds.takeWhile isDigit = ds := by
    rw [List.takeWhile_eq_self_iff]; exact h
  rw [ht]
  cases ds with
  | nil => exact absurd rfl hne
  | cons d ds => rfl

theorem strtol_to_string (n : Nat) : strtol (to_string n) = some (n : Int) := by
  have hne := to_string_ne_nil n
  have hd := to_string_isDigit n
  have hv := digitsValue_to_string n
  have hp := parseUnsigned_digits (to_string n) hne hd
  unfold strtol
  cases hs : to_string n with
  | nil => exact absurd hs hne
  | cons c rest =>
    rw [hs] at hd hp hv
    have hc : isDigit c = true := hd c (by simp)
    have hc2 : 48 ≤ c ∧ c ≤ 57 := by simpa [isDigit] using hc
    have hsp : isSpace c = false := by
      simp [isSpace]; omega
    have hdw : (c :: rest).dropWhile isSpace = c :: rest := by
      simp [List.dropWhile, hsp]
    rw [hdw]
    have h45 : c ≠ 45 := by omega
    have h43 : c ≠ 43 := by omega
    simp only [h45, h43, if_false, hp, hv]

theorem stoi_to_string (n : Nat) (h : n < 2 ^ 31) : stoi (to_string n) = .ok (n : Int) := by
  unfold stoi
  rw [strtol_to_string]
  have : (-2 ^ 31 ≤ (n : Int) ∧ (n : Int) < 2 ^ 31) := by constructor <;> omega
  simp only [this, and_self, if_true]

theorem stoi_to_string_big (n : Nat) (h : 2 ^ 31 ≤ n) :
    stoi (to_string n) = .error .out_of_range := by
  unfold stoi
  rw [strtol_to_string]
  have : ¬ (-2 ^ 31 ≤ (n : Int) ∧ (n : Int) < 2 ^ 31) := by omega
  simp only [this, if_false]

theorem stoll_to_string (n : Nat) (h : n < 2 ^ 63) : stoll (to_string n) = .ok (n : Int) := by
  unfold stoll
  rw [strtol_to_string]
  have : (-2 ^ 63 ≤ (n : Int) ∧ (n : Int) < 2 ^ 63) := by constructor <;> omega
  simp only [this, and_self, if_true]

theorem getline_line (l rest : Bytes) (h : ∀ b ∈ l, b ≠ LF) :
    getline (l ++ LF :: rest) = some (l, rest) := by
  have hp : ∀ b ∈ l, (fun b => b != LF) b = true := by
    intro b hb; simpa using h b hb
  have h1 : (l ++ LF :: rest).takeWhile (fun b => b != LF) = l := by
    rw [List.takeWhile_append_of_pos hp]; simp
  have h2 : ((l ++ LF :: rest).dropWhile (fun b => b != LF)).drop 1 = rest := by
    rw [List.dropWhile_append_of_pos hp]; simp
  cases hl : l ++ LF :: rest with
  | nil => simp at hl
  | cons c s =>
    rw [hl] at h1 h2
    simp only [getline, h1, h2]

theorem popCR_concat (l : Bytes) : popCR (l ++ [CR]) = l := by
  simp [popCR]

theorem digit_ne_LF (d : Nat) (h : isDigit d = true) : d ≠ LF := by
  have : 48 ≤ d ∧ d ≤ 57 := by simpa [isDigit] using h
  simp only [LF]; omega

theorem digit_ne_CR (d : Nat) (h : isDigit d = true) : d ≠ CR := by
  have : 48 ≤ d ∧ d ≤ 57 := by simpa [isDigit] using h
  simp only [CR]; omega

/-! ## The codec: round trip -/

namespace RESPParser

theorem foldl_encode (items : List Bytes) (init : Bytes) :
    items.foldl (fun result item => result ++ encodeBulkString item) init =
      init ++ encodeItems items := by
  induction items generalizing init with
  | nil => simp [encodeItems]
  | cons item items ih => simp [encodeItems, ih, List.append_assoc]

theorem encodeArray_eq (items : List Bytes) :
    encodeArray items = (42 :: to_string items.length ++ [CR]) ++ LF :: encodeItems items := by
  simp [encodeArray, foldl_encode]

theorem encodeItems_cons (item : Bytes) (items : List Bytes) :
    encodeItems (item :: items) =
      (36 :: to_string item.length ++ [CR]) ++ LF :: ((item ++ [CR]) ++ LF :: encodeItems items) := by
  simp [encodeItems, encodeBulkString]

theorem header_no_LF (c : Nat) (hc : c ≠ LF) (n : Nat) :
    ∀ b ∈ c :: to_string n ++ [CR], b ≠ LF := by
  intro b hb
  rcases List.mem_cons.mp hb with hb | hb
  · rw [hb]; exact hc
  · rcases List.mem_append.mp hb with hb | hb
    · exact digit_ne_LF b (to_string_isDigit n b hb)
    · rw [List.mem_singleton.mp hb]; decide

theorem parseElements_encodeItems (items : List Bytes)
    (hsz : ∀ s ∈ items, s.length < 2 ^ 63) (hlf : ∀ s ∈ items, LF ∉ s) (acc : List Bytes) :
    parseElements items.length (encodeItems items) acc = .ok (acc ++ items) := by
  induction items generalizing acc with
  | nil => simp [parseElements]
  | cons item items ih =>
    have hsz1 : item.length < 2 ^ 63 := hsz item (by simp)
    have hlf1 : ∀ b ∈ item ++ [CR], b ≠ LF := by
      intro b hb
      rcases List.mem_append.mp hb with hb | hb
      · intro h; exact hlf item (by simp) (h ▸ hb)
      · simp only [List.mem_singleton] at hb; rw [hb]; decide
    have ih2 := ih (fun s hs => hsz s (by simp [hs])) (fun s hs => hlf s (by simp [hs]))
      (acc ++ [item])
    rw [List.length_cons, encodeItems_cons]
    unfold parseElements
    rw [getline_line _ _ (header_no_LF 36 (by decide) item.length)]
    simp only [List.cons_append, List.head?_cons, ne_eq, not_true_eq_false, or_false,
      reduceCtorEq, if_false]
    rw [show (36 :: (to_string item.length ++ [CR])) = (36 :: to_string item.length) ++ [CR] by simp,
      popCR_concat, List.drop_one, List.tail_cons, stoll_to_string _ hsz1]
    simp only [Int.natCast_nonneg, not_lt.mpr, if_false, Int.toNat_ofNat]
    rw [getline_line _ _ hlf1]
    simp only [popCR_concat, ne_eq, not_true_eq_false, if_false]
    rw [ih2]
    simp

theorem parseArray_header (n : Nat) (rest : Bytes) :
    parseArray ((42 :: to_string n ++ [CR]) ++ LF :: rest) =
      match stoi (to_string n) with
      | .error e => .error e
      | .ok numElements => parseElements numElements.toNat rest [] := by
  unfold parseArray
  rw [getline_line _ _ (header_no_LF 42 (by decide) n)]
  simp only [List.cons_append, List.head?_cons, ne_eq, not_true_eq_false, or_false,
    reduceCtorEq, if_false]
  rw [show (42 :: (to_string n ++ [CR])) = (42 :: to_string n) ++ [CR] by simp,
    popCR_concat, List.drop_one, List.tail_cons]

/-- C1 (amended): for every list `items` of fewer than 2^31 byte strings, none of which
contains a CR or LF byte (a byte string being shorter than 2^63 bytes),
`parseArray (encodeArray items)` returns exactly `items`. -/
theorem parseArray_encodeArray (items : List Bytes) (hn : items.length < 2 ^ 31)
    (hsz : ∀ s ∈ items, s.length < 2 ^ 63) (h : ∀ s ∈ items, CR ∉ s ∧ LF ∉ s) :
    parseArray (encodeArray items) = .ok items := by
  rw [encodeArray_eq, parseArray_header, stoi_to_string _ hn]
  simp only [Int.toNat_ofNat]
  rw [parseElements_encodeItems items hsz (fun s hs => (h s hs).2)]
  simp

/-- The round trip of C1 on the request made of the key `k` and the empty string. -/
theorem parseArray_encodeArray_witness :
    [bytes "k", []].length < 2 ^ 31 ∧ parseArray (encodeArray [bytes "k", []]) = .ok [bytes "k", []] :=
  ⟨by decide, parseArray_encodeArray [bytes "k", []] (by decide) (by decide) (by decide)⟩

/-- C1 as stated fails on a list of 2^31 empty strings: the count does not fit the `int`
that `std::stoi` returns, which throws `std::out_of_range`. -/
theorem parseArray_encodeArray_overflow :
    parseArray (encodeArray (List.replicate 2147483648 [])) = .error .out_of_range ∧
      parseArray (encodeArray (List.replicate 2147483648 [])) ≠
        .ok (List.replicate 2147483648 []) := by
  have h : parseArray (encodeArray (List.replicate 2147483648 [])) = .error .out_of_range := by
    rw [encodeArray_eq, parseArray_header, List.length_replicate,
      stoi_to_string_big _ (by norm_num)]
  exact ⟨h, by rw [h]; exact fun hc => by cases hc⟩

/-- C2 (code at the failing inputs): on a header or an element header without a decimal
integer `parseArray` does not return a list, `std::stoi` or `std::stoll` throws
`std::invalid_argument` and nothing catches it. -/
theorem parseArray_throws :
    parseArray (bytes "*\r\n") = .error .invalid_argument ∧
    parseArray (bytes "*abc\r\n") = .error .invalid_argument ∧
    parseArray (bytes "*2\r\n$1\r\na\r\n$\r\n") = .error .invalid_argument ∧
    parseArray (bytes "*2\r\n$1\r\na\r\n$x\r\n") = .error .invalid_argument := by
  decide

end RESPParser

/-! ## The store -/

namespace Storage

/-- A count of milliseconds between -9223372036854 and 9223372036854 is converted to
nanoseconds without wrapping. -/
theorem toNanoseconds_eq (ms : Int) (h1 : -9223372036854 ≤ ms) (h2 : ms ≤ 9223372036854) :
    toNanoseconds ms = ms * 1000000 := by
  unfold toNanoseconds toInt64
  norm_num only
  split_ifs <;> omega

/-- A count of milliseconds from -9223372036854 on is converted to no more nanoseconds
than it stands for. -/
theorem toNanoseconds_le (ms : Int) (h1 : -9223372036854 ≤ ms) :
    toNanoseconds ms ≤ ms * 1000000 := by
  unfold toNanoseconds toInt64
  norm_num only
  split_ifs <;> omega

/-- The meaning of `expiryPoint`: a reading `t` in milliseconds is at or after it exactly
when `t`, in nanoseconds, is at or after the reading `now` plus the converted duration. -/
theorem expiryPoint_spec (now ms t : Int) :
    t ≥ expiryPoint now ms ↔ t * 1000000 ≥ now * 1000000 + toNanoseconds ms := by
  unfold expiryPoint
  generalize toNanoseconds ms = d
  omega

theorem expiryPoint_eq (now ms : Int) (h1 : -9223372036854 ≤ ms) (h2 : ms ≤ 9223372036854) :
    expiryPoint now ms = now + ms := by
  unfold expiryPoint
  rw [toNanoseconds_eq ms h1 h2]
  omega

theorem expiryPoint_le (now ms : Int) (h1 : -9223372036854 ≤ ms) :
    expiryPoint now ms ≤ now + ms := by
  have h := toNanoseconds_le ms h1
  unfold expiryPoint
  generalize toNanoseconds ms = d at h
  omega

theorem find_assign_same (key : Bytes) (entry : ValueWithExpiry) (d : Store) :
    find key (assign key entry d) = some entry := by
  induction d with
  | nil => simp [assign, find]
  | cons p d ih =>
    obtain ⟨k, e⟩ := p
    by_cases h : k = key <;> simp [assign, find, h, ih]

theorem find_assign_ne (key k : Bytes) (entry : ValueWithExpiry) (d : Store) (h : k ≠ key) :
    find k (assign key entry d) = find k d := by
  induction d with
  | nil => simp [assign, find, Ne.symm h]
  | cons p d ih =>
    obtain ⟨k1, e⟩ := p
    by_cases h1 : k1 = key
    · subst h1
      have h2 : ¬ k1 = k := fun h2 => h h2.symm
      simp [assign, find, h2]
    · by_cases h2 : k1 = k
      · subst h2
        simp [assign, find, h1]
      · simp [assign, find, h1, h2, ih]

theorem find_erase_ne (key k : Bytes) (d : Store) (h : k ≠ key) :
    find k (erase key d) = find k d := by
  induction d with
  | nil => simp [erase, find]
  | cons p d ih =>
    obtain ⟨k1, e⟩ := p
    by_cases h1 : k1 = key
    · subst h1
      have h2 : ¬ k1 = k := fun h2 => h h2.symm
      simp [erase, find, h2]
    · by_cases h2 : k1 = k
      · subst h2
        simp [erase, find, h1]
      · simp [erase, find, h1, h2, ih]

theorem find_eq_none_iff (k : Bytes) (d : Store) : find k d = none ↔ k ∉ d.map Prod.fst := by
  induction d with
  | nil => simp [find]
  | cons p d ih =>
    obtain ⟨k1, e⟩ := p
    by_cases h1 : k1 = k
    · simp [find, h1]
    · simp [find, h1, ih, Ne.symm h1]

theorem find_erase_same (key : Bytes) (d : Store) (hwf : WF d) : find key (erase key d) = none := by
  induction d with
  | nil => simp [erase, find]
  | cons p d ih =>
    obtain ⟨k1, e⟩ := p
    have hnd : k1 ∉ d.map Prod.fst ∧ WF d := by simpa [WF] using hwf
    by_cases h1 : k1 = key
    · simp only [erase, h1, if_true]
      rw [find_eq_none_iff]; exact h1 ▸ hnd.1
    · simp [erase, find, h1, ih hnd.2]

theorem erase_sublist (key : Bytes) (d : Store) : (erase key d).Sublist d := by
  induction d with
  | nil => simp [erase]
  | cons p d ih =>
    obtain ⟨k1, e⟩ := p
    by_cases h1 : k1 = key
    · simp [erase, h1]
    · simp [erase, h1, ih]

theorem WF_of_sublist (d1 d : Store) (h : d1.Sublist d) (hwf : WF d) : WF d1 :=
  List.Nodup.sublist (List.Sublist.map Prod.fst h) hwf

theorem WF_erase (key : Bytes) (d : Store) (hwf : WF d) : WF (erase key d) :=
  WF_of_sublist _ _ (erase_sublist key d) hwf

theorem length_erase (key : Bytes) (e : ValueWithExpiry) (d : Store) (h : find key d = some e) :
    (erase key d).length + 1 = d.length := by
  induction d with
  | nil => simp [find] at h
  | cons p d ih =>
    obtain ⟨k1, e1⟩ := p
    by_cases h1 : k1 = key
    · simp [erase, h1]
    · simp only [find, h1, if_false] at h
      simp [erase, h1, ih h]

theorem keys_assign (key k : Bytes) (entry : ValueWithExpiry) (d : Store) :
    k ∈ (assign key entry d).map Prod.fst ↔ k = key ∨ k ∈ d.map Prod.fst := by
  induction d with
  | nil => simp [assign]
  | cons p d ih =>
    obtain ⟨k1, e⟩ := p
    by_cases h1 : k1 = key
    · simp [assign, h1]
    · simp only [assign, h1, if_false, List.map_cons, List.mem_cons, ih]
      tauto

theorem WF_assign (key : Bytes) (entry : ValueWithExpiry) (d : Store) (hwf : WF d) :
    WF (assign key entry d) := by
  induction d with
  | nil => simp [assign, WF]
  | cons p d ih =>
    obtain ⟨k1, e⟩ := p
    have hnd : k1 ∉ d.map Prod.fst ∧ WF d := by simpa [WF] using hwf
    by_cases h1 : k1 = key
    · simpa [assign, h1, WF] using hwf
    · have h2 : k1 ∉ (assign key entry d).map Prod.fst := by
        rw [keys_assign]; intro h; rcases h with h | h
        · exact h1 h
        · exact hnd.1 h
      have h3 := ih hnd.2
      simp only [assign, h1, if_false, WF, List.map_cons, List.nodup_cons]
      exact ⟨h2, h3⟩

theorem getAllKeys_snd (now : Int) (d : Store) :
    (getAllKeys now d).2 = d.filter (fun p => decide (¬ expired now p.2)) := by
  induction d with
  | nil => simp [getAllKeys]
  | cons p d ih =>
    obtain ⟨k1, e⟩ := p
    by_cases h : e.hasExpiry = true ∧ now ≥ e.expiryTime
    · have h2 : expired now e := h
      simp [getAllKeys, h, ih, List.filter_cons, h2]
    · have h2 : ¬ expired now e := h
      simp only [getAllKeys, h, if_false, ih, List.filter_cons, h2, not_false_eq_true,
        decide_True, if_true]

theorem getAllKeys_fst (now : Int) (d : Store) :
    (getAllKeys now d).1 = (getAllKeys now d).2.map Prod.fst := by
  induction d with
  | nil => simp [getAllKeys]
  | cons p d ih =>
    obtain ⟨k1, e⟩ := p
    by_cases h : e.hasExpiry = true ∧ now ≥ e.expiryTime
    · simp [getAllKeys, h, ih]
    · simp only [getAllKeys, h, if_false, List.map_cons, ih]

theorem WF_getAllKeys (now : Int) (d : Store) (hwf : WF d) : WF (getAllKeys now d).2 := by
  rw [getAllKeys_snd]
  exact WF_of_sublist _ _ (List.filter_sublist d) hwf

theorem find_getAllKeys (now : Int) (k : Bytes) (d : Store) (hwf : WF d) :
    find k (getAllKeys now d).2 =
      match find k d with
      | some e => if expired now e then none else some e
      | none => none := by
  induction d with
  | nil => simp [getAllKeys, find]
  | cons p d ih =>
    obtain ⟨k1, e⟩ := p
    have hnd : k1 ∉ d.map Prod.fst ∧ WF d := by simpa [WF] using hwf
    have ih2 := ih hnd.2
    by_cases h : e.hasExpiry = true ∧ now ≥ e.expiryTime
    · have h2 : expired now e := h
      by_cases h1 : k1 = k
      · have h3 : find k (getAllKeys now d).2 = none := by
          rw [find_eq_none_iff]
          intro hmem
          have hsub : (getAllKeys now d).2.Sublist d := by
            rw [getAllKeys_snd]; exact List.filter_sublist d
          exact hnd.1 (h1 ▸ (List.Sublist.map Prod.fst hsub).subset hmem)
        simp [getAllKeys, h, find, h1, h2, h3]
      · simp [getAllKeys, h, find, h1, ih2]
    · have h2 : ¬ expired now e := h
      by_cases h1 : k1 = k
      · simp [getAllKeys, h, find, h1, h2]
      · simp [getAllKeys, h, find, h1, ih2]

theorem mem_getAllKeys (now : Int) (k : Bytes) (d : Store) (hwf : WF d) :
    k ∈ (getAllKeys now d).1 ↔ ∃ e, find k d = some e ∧ ¬ expired now e := by
  rw [getAllKeys_fst]
  have h1 := find_eq_none_iff k (getAllKeys now d).2
  have h2 := find_getAllKeys now k d hwf
  constructor
  · intro hmem
    have h3 : find k (getAllKeys now d).2 ≠ none := fun h => (h1.mp h) hmem
    rw [h2] at h3
    cases hf : find k d with
    | none => simp [hf] at h3
    | some e =>
      refine ⟨e, rfl, ?_⟩
      intro hexp
      simp [hf, hexp] at h3
  · rintro ⟨e, hf, hexp⟩
    by_contra hmem
    have h3 := h1.mpr hmem
    rw [h2, hf] at h3
    simp [hexp] at h3

theorem expired_mono (t1 t2 : Int) (e : ValueWithExpiry) (h : t1 ≤ t2) (hexp : expired t1 e) :
    expired t2 e :=
  ⟨hexp.1, le_trans hexp.2 h⟩

theorem WF_nil : WF [] := by simp [WF]

theorem WF_get (d : Store) (now : Int) (key : Bytes) (hwf : WF d) : WF (get d now key).2 := by
  unfold get
  cases find key d with
  | none => exact hwf
  | some e =>
    by_cases h : e.hasExpiry = true ∧ now ≥ e.expiryTime
    · simp only [h, and_self, if_true]; exact WF_erase key d hwf
    · simp only [h, if_false]; exact hwf

theorem WF_step (d : Store) (now : Int) (c : Call) (hwf : WF d) : WF (step d now c).2 := by
  cases c with
  | set key value => exact WF_assign _ _ _ hwf
  | setWithExpiry key value expiryMs => exact WF_assign _ _ _ hwf
  | get key => exact WF_get d now key hwf
  | getAllKeys => exact WF_getAllKeys now d hwf

theorem WF_run (calls : List (Int × Call)) : ∀ d : Store, WF d → WF (run d calls).2 := by
  induction calls with
  | nil => intro d h; exact h
  | cons tc rest ih =>
    intro d h
    obtain ⟨t, c⟩ := tc
    exact ih _ (WF_step d t c h)

theorem lastWrite_cons (k : Bytes) (t : Int) (c : Call) (rest : List (Int × Call)) :
    lastWrite k ((t, c) :: rest) =
      match lastWrite k rest with
      | some w => some w
      | none => if c.writes k = true then some (t, c) else none := by
  unfold lastWrite
  rw [List.reverse_cons, List.find?_append]
  cases List.find? (fun tc => tc.2.writes k) rest.reverse with
  | some w => simp
  | none =>
    by_cases h : c.writes k = true <;> simp [List.find?, h]

/-- The entry of `k` after one call, in terms of the entry before. -/
theorem find_step (d : Store) (hwf : WF d) (k : Bytes) (t : Int) (c : Call)
    (e : ValueWithExpiry) (h : find k (step d t c).2 = some e) :
    (if c.writes k = true then written t c else find k d) = some e := by
  cases c with
  | set key value =>
    by_cases hk : key = k
    · subst hk
      simpa [Call.writes, written, step, set, find_assign_same] using h
    · have hk2 : k ≠ key := fun h => hk h.symm
      simpa [Call.writes, written, step, set, find_assign_ne _ _ _ _ hk2, hk] using h
  | setWithExpiry key value expiryMs =>
    by_cases hk : key = k
    · subst hk
      simpa [Call.writes, written, step, setWithExpiry, find_assign_same] using h
    · have hk2 : k ≠ key := fun h => hk h.symm
      simpa [Call.writes, written, step, setWithExpiry, find_assign_ne _ _ _ _ hk2, hk] using h
  | get key =>
    simp only [Call.writes, Bool.false_eq_true, if_false]
    simp only [step, get] at h
    cases hf : find key d with
    | none => simpa [hf] using h
    | some e1 =>
      rw [hf] at h
      by_cases hx : e1.hasExpiry = true ∧ t ≥ e1.expiryTime
      · simp only [hx, and_self, if_true] at h
        by_cases hk : k = key
        · subst hk
          rw [find_erase_same k d hwf] at h
          cases h
        · rwa [find_erase_ne _ _ _ hk] at h
      · simpa [hx] using h
  | getAllKeys =>
    simp only [Call.writes, Bool.false_eq_true, if_false]
    simp only [step] at h
    rw [find_getAllKeys t k d hwf] at h
    cases hf : find k d with
    | none => simp [hf] at h
    | some e1 =>
      rw [hf] at h
      by_cases hx : expired t e1
      · simp [hx] at h
      · simpa [hx] using h

/-- An entry that is not expired survives one call. -/
theorem find_step_live (d : Store) (hwf : WF d) (k : Bytes) (t : Int) (c : Call)
    (e : ValueWithExpiry) (hlive : ¬ expired t e)
    (h : (if c.writes k = true then written t c else find k d) = some e) :
    find k (step d t c).2 = some e := by
  cases c with
  | set key value =>
    by_cases hk : key = k
    · subst hk
      simpa [Call.writes, written, step, set, find_assign_same] using h
    · have hk2 : k ≠ key := fun h => hk h.symm
      simpa [Call.writes, written, step, set, find_assign_ne _ _ _ _ hk2, hk] using h
  | setWithExpiry key value expiryMs =>
    by_cases hk : key = k
    · subst hk
      simpa [Call.writes, written, step, setWithExpiry, find_assign_same] using h
    · have hk2 : k ≠ key := fun h => hk h.symm
      simpa [Call.writes, written, step, setWithExpiry, find_assign_ne _ _ _ _ hk2, hk] using h
  | get key =>
    simp only [Call.writes, Bool.false_eq_true, if_false] at h
    simp only [step, get]
    cases hf : find key d with
    | none => simpa [hf] using h
    | some e1 =>
      by_cases hx : e1.hasExpiry = true ∧ t ≥ e1.expiryTime
      · simp only [hx, and_self, if_true]
        by_cases hk : k = key
        · subst hk
          rw [hf] at h
          cases h
          exact absurd hx hlive
        · rwa [find_erase_ne _ _ _ hk]
      · simpa [hx] using h
  | getAllKeys =>
    simp only [Call.writes, Bool.false_eq_true, if_false] at h
    simp only [step]
    rw [find_getAllKeys t k d hwf, h]
    simp [hlive]

theorem expected_cons_of_some (d : Store) (k : Bytes) (t : Int) (c : Call)
    (rest : List (Int × Call)) (w : Int × Call) (h : lastWrite k rest = some w) :
    expected d ((t, c) :: rest) k = written w.1 w.2 := by
  simp [expected, lastWrite_cons, h]

theorem expected_cons_of_none (d : Store) (k : Bytes) (t : Int) (c : Call)
    (rest : List (Int × Call)) (h : lastWrite k rest = none) :
    expected d ((t, c) :: rest) k = if c.writes k = true then written t c else find k d := by
  by_cases hw : c.writes k = true <;> simp [expected, lastWrite_cons, h, hw]

/-- Whatever entry a key has after a sequence of calls is the expected one. -/
theorem find_run (k : Bytes) (e : ValueWithExpiry) (calls : List (Int × Call)) :
    ∀ d : Store, WF d → find k (run d calls).2 = some e → expected d calls k = some e := by
  induction calls with
  | nil => intro d _ h; simpa [expected, lastWrite, run] using h
  | cons tc rest ih =>
    intro d hwf h
    obtain ⟨t, c⟩ := tc
    have h1 := ih (step d t c).2 (WF_step d t c hwf) h
    cases hl : lastWrite k rest with
    | some w =>
      rw [expected_cons_of_some d k t c rest w hl]
      simpa [expected, hl] using h1
    | none =>
      rw [expected_cons_of_none d k t c rest hl]
      have h2 : find k (step d t c).2 = some e := by simpa [expected, hl] using h1
      exact find_step d hwf k t c e h2

/-- The expected entry is there after a sequence of calls when it is not expired at a
time that none of the calls exceeds. -/
theorem find_run_live (k : Bytes) (e : ValueWithExpiry) (t : Int) (hlive : ¬ expired t e)
    (calls : List (Int × Call)) :
    ∀ d : Store, WF d → (∀ tc ∈ calls, tc.1 ≤ t) → expected d calls k = some e →
      find k (run d calls).2 = some e := by
  induction calls with
  | nil => intro d _ _ h; simpa [expected, lastWrite, run] using h
  | cons tc rest ih =>
    intro d hwf ht h
    obtain ⟨t1, c⟩ := tc
    have ht1 : t1 ≤ t := ht (t1, c) (by simp)
    have hlive1 : ¬ expired t1 e := fun hx => hlive (expired_mono t1 t e ht1 hx)
    apply ih (step d t1 c).2 (WF_step d t1 c hwf) (fun tc htc => ht tc (by simp [htc]))
    cases hl : lastWrite k rest with
    | some w =>
      rw [expected_cons_of_some d k t1 c rest w hl] at h
      simpa [expected, hl] using h
    | none =>
      rw [expected_cons_of_none d k t1 c rest hl] at h
      have h2 := find_step_live d hwf k t1 c e hlive1 h
      simpa [expected, hl] using h2

theorem get_fst (d : Store) (now : Int) (key : Bytes) :
    (get d now key).1 =
      match find key d with
      | some e => if expired now e then none else some e.value
      | none => none := by
  unfold get
  cases find key d with
  | none => rfl
  | some e =>
    by_cases h : e.hasExpiry = true ∧ now ≥ e.expiryTime
    · have h2 : expired now e := h
      simp [h, h2]
    · have h2 : ¬ expired now e := h
      simp [h, h2]

/-- C3 as stated fails for a ttl below -9223372036854 ms, whose count of nanoseconds
leaves `int64_t`: a `setWithExpiry` at time 0 with a ttl of -10000000000000 ms is the most
recent write to `k` and `0 + ttl ≤ 0`, but the converted duration wraps around to
8446744073709551616 ns, the entry expires at the reading 8446744073710 ms, and both
`get k` and `getAllKeys` at time 0 return `k`. -/
theorem no_expired_read_wraps :
    ([(0, Call.setWithExpiry (bytes "k") (bytes "v") (-10000000000000))].map Prod.fst
        ++ [(0 : Int)]).Sorted (fun a b => a ≤ b) ∧
      lastWrite (bytes "k") [(0, .setWithExpiry (bytes "k") (bytes "v") (-10000000000000))]
        = some (0, .setWithExpiry (bytes "k") (bytes "v") (-10000000000000)) ∧
      (0 : Int) + (-10000000000000) ≤ 0 ∧
      toNanoseconds (-10000000000000) = 8446744073709551616 ∧
      (run [] [(0, .setWithExpiry (bytes "k") (bytes "v") (-10000000000000))]).2
        = [(bytes "k", ⟨bytes "v", 8446744073710, true⟩)] ∧
      (step (run [] [(0, .setWithExpiry (bytes "k") (bytes "v") (-10000000000000))]).2
        0 (.get (bytes "k"))).1 = .value (some (bytes "v")) ∧
      (step (run [] [(0, .setWithExpiry (bytes "k") (bytes "v") (-10000000000000))]).2
        0 .getAllKeys).1 = .keys [bytes "k"] := by
  decide

/-- C3, amended: in every sequence of `set` / `setWithExpiry` / `get` / `getAllKeys` calls
run at non-decreasing clock times from the empty store, a read at time `t` of a key `k`
whose most recent write was a `setWithExpiry` at `t0` with a ttl of at least
-9223372036854 ms and with `t0 + ttl ≤ t` returns no value: `get k` is empty and the
result of `getAllKeys` does not contain `k`. -/
theorem no_expired_read (calls : List (Int × Call)) (k v : Bytes) (t0 ttl t : Int)
    (_hmono : (calls.map Prod.fst ++ [t]).Sorted (fun a b => a ≤ b))
    (hlast : lastWrite k calls = some (t0, .setWithExpiry k v ttl))
    (hlo : -9223372036854 ≤ ttl) (hexp : t0 + ttl ≤ t) :
    (step (run [] calls).2 t (.get k)).1 = .value none ∧
      ∀ ks, (step (run [] calls).2 t .getAllKeys).1 = .keys ks → k ∉ ks := by
  have hwf : WF (run [] calls).2 := WF_run calls [] WF_nil
  have hfind : ∀ e, find k (run [] calls).2 = some e →
      e = ⟨v, expiryPoint t0 ttl, true⟩ := by
    intro e he
    have h1 := find_run k e calls [] WF_nil he
    simp only [expected, hlast, written, Option.some.injEq] at h1
    exact h1.symm
  have hx : expired t ⟨v, expiryPoint t0 ttl, true⟩ :=
    ⟨rfl, le_trans (expiryPoint_le t0 ttl hlo) hexp⟩
  constructor
  · simp only [step, get_fst]
    cases hf : find k (run [] calls).2 with
    | none => rfl
    | some e =>
      rw [hfind e hf]
      simp [hx]
  · intro ks hks hmem
    simp only [step, Ret.keys.injEq] at hks
    rw [← hks, mem_getAllKeys t k _ hwf] at hmem
    obtain ⟨e, he, hlive⟩ := hmem
    rw [hfind e he] at hlive
    exact hlive hx

/-- The trace of the amended C3 at work: written at 0 with a ttl of 50, read at 50. -/
theorem no_expired_read_witness :
    lastWrite (bytes "k") [(0, .setWithExpiry (bytes "k") (bytes "v") 50), (20, .get (bytes "k"))]
        = some (0, .setWithExpiry (bytes "k") (bytes "v") 50) ∧
      (-9223372036854 : Int) ≤ 50 ∧
      (step (run [] [(0, .setWithExpiry (bytes "k") (bytes "v") 50), (20, .get (bytes "k"))]).2
        50 (.get (bytes "k"))).1 = .value none :=
  ⟨by decide, by decide,
    (no_expired_read [(0, .setWithExpiry (bytes "k") (bytes "v") 50), (20, .get (bytes "k"))]
      (bytes "k") (bytes "v") 0 50 50 (by decide) (by decide) (by decide) (by decide)).1⟩

/-- C4: `get key` at clock time `now`. An absent key gives empty and the same map; a key
whose entry has an expiry at or before `now` gives empty and a map without exactly that
entry, every other key keeping its entry; otherwise the stored value and the same map. -/
theorem get_spec (d : Store) (hwf : WF d) (now : Int) (key : Bytes) :
    (find key d = none → get d now key = (none, d)) ∧
    (∀ e, find key d = some e → e.hasExpiry = true → e.expiryTime ≤ now →
      (get d now key).1 = none ∧
      (∀ k, find k (get d now key).2 = if k = key then none else find k d) ∧
      (get d now key).2.length + 1 = d.length) ∧
    (∀ e, find key d = some e → (e.hasExpiry = false ∨ e.expiryTime > now) →
      get d now key = (some e.value, d)) := by
  refine ⟨?_, ?_, ?_⟩
  · intro h; simp [get, h]
  · intro e h hx ht
    have hc : e.hasExpiry = true ∧ now ≥ e.expiryTime := ⟨hx, ht⟩
    simp only [get, h, hc, and_self, if_true]
    refine ⟨trivial, ?_, length_erase key e d h⟩
    intro k
    by_cases hk : k = key
    · subst hk; simp [find_erase_same k d hwf]
    · simp [hk, find_erase_ne _ _ _ hk]
  · intro e h hx
    have hc : ¬ (e.hasExpiry = true ∧ now ≥ e.expiryTime) := by
      rintro ⟨h1, h2⟩
      rcases hx with hx | hx
      · rw [h1] at hx; cases hx
      · exact absurd h2 (not_le.mpr hx)
    simp [get, h, hc]

/-- A read of C4 that evicts: the entry of `k` expires at 15 and is read at 15. -/
theorem get_spec_witness :
    WF [(bytes "k", ⟨bytes "v", 15, true⟩), (bytes "j", ⟨bytes "w", 0, false⟩)] ∧
      (get [(bytes "k", ⟨bytes "v", 15, true⟩), (bytes "j", ⟨bytes "w", 0, false⟩)] 15
        (bytes "k")).1 = none :=
  ⟨by decide,
    ((get_spec [(bytes "k", ⟨bytes "v", 15, true⟩), (bytes "j", ⟨bytes "w", 0, false⟩)]
      (by decide) 15 (bytes "k")).2.1 ⟨bytes "v", 15, true⟩ (by decide) (by decide)
      (by decide)).1⟩

/-- C6 as stated fails for a ttl above 9223372036854 ms, whose count of nanoseconds
leaves `int64_t`: for the ttl 10000000000000 ms written at time 0 the converted duration
wraps around to -8446744073709551616 ns, the entry expires at the reading
-8446744073709 ms, and the immediate `get k` at time 0, with `0 ≤ 0 < 0 + ttl`, is
empty. -/
theorem setWithExpiry_get_wraps :
    (0 : Int) < 10000000000000 ∧ (0 : Int) ≤ 0 ∧ (0 : Int) < 0 + 10000000000000 ∧
      toNanoseconds 10000000000000 = -8446744073709551616 ∧
      setWithExpiry [] 0 (bytes "k") (bytes "v") 10000000000000
        = [(bytes "k", ⟨bytes "v", -8446744073709, true⟩)] ∧
      (get (run (setWithExpiry [] 0 (bytes "k") (bytes "v") 10000000000000) []).2 0
        (bytes "k")).1 = none := by
  decide

/-- C6, amended: after `setWithExpiry k v ttl` run at `t0` with
`0 < ttl ≤ 9223372036854` and `t0 + ttl ≤ 9223372036854`, so that neither the ttl nor
the time point `t0 + ttl` leaves the `int64_t` nanoseconds of the clock, and then any
calls that do not write `k`, run at times from `t0` to `t`, `get k` at time `t` returns
`v` when `t < t0 + ttl` and is empty when `t ≥ t0 + ttl`. -/
theorem setWithExpiry_get (d : Store) (hwf : WF d) (k v : Bytes) (ttl t0 t : Int)
    (httl : 0 < ttl) (hhi : ttl ≤ 9223372036854) (_hsum : t0 + ttl ≤ 9223372036854)
    (mid : List (Int × Call)) (hnw : ∀ tc ∈ mid, tc.2.writes k = false)
    (htime : ∀ tc ∈ mid, t0 ≤ tc.1 ∧ tc.1 ≤ t) (_ht : t0 ≤ t) :
    (t < t0 + ttl → (get (run (setWithExpiry d t0 k v ttl) mid).2 t k).1 = some v) ∧
    (t0 + ttl ≤ t → (get (run (setWithExpiry d t0 k v ttl) mid).2 t k).1 = none) := by
  have hwf1 : WF (setWithExpiry d t0 k v ttl) := WF_assign _ _ _ hwf
  have hlast : lastWrite k mid = none := by
    unfold lastWrite
    rw [List.find?_eq_none]
    intro tc htc
    simp [hnw tc (List.mem_reverse.mp htc)]
  have hp : expiryPoint t0 ttl = t0 + ttl := expiryPoint_eq t0 ttl (by omega) hhi
  have hexp : expected (setWithExpiry d t0 k v ttl) mid k = some ⟨v, t0 + ttl, true⟩ := by
    simp [expected, hlast, setWithExpiry, find_assign_same, hp]
  constructor
  · intro hlt
    have hlive : ¬ expired t ⟨v, t0 + ttl, true⟩ := fun hx => absurd hx.2 (not_le.mpr hlt)
    have hf := find_run_live k _ t hlive mid _ hwf1 (fun tc htc => (htime tc htc).2) hexp
    rw [get_fst, hf]
    simp [hlive]
  · intro hge
    have hx : expired t ⟨v, t0 + ttl, true⟩ := ⟨rfl, hge⟩
    rw [get_fst]
    cases hf : find k (run (setWithExpiry d t0 k v ttl) mid).2 with
    | none => rfl
    | some e =>
      have h1 := find_run k e mid _ hwf1 hf
      rw [hexp] at h1
      cases h1
      simp [hx]

/-- The example of C6: a ttl of 50 written at 100, other calls in between, read at 149. -/
theorem setWithExpiry_get_witness :
    (0 : Int) < 50 ∧ (50 : Int) ≤ 9223372036854 ∧ (100 : Int) + 50 ≤ 9223372036854 ∧
      (get (run (setWithExpiry [] 100 (bytes "k") (bytes "v") 50)
        [(120, .getAllKeys), (130, .set (bytes "j") (bytes "w"))]).2 149 (bytes "k")).1
        = some (bytes "v") :=
  ⟨by decide, by decide, by decide,
    (setWithExpiry_get [] (by decide) (bytes "k") (bytes "v") 50 100 149 (by decide)
      (by decide) (by decide) [(120, .getAllKeys), (130, .set (bytes "j") (bytes "w"))]
      (by decide) (by decide) (by decide)).1 (by decide)⟩

/-- C7: after `set k v1` and then `set k v2` the entry of `k` holds `v2` with no expiry and
`get k` returns `v2` at every clock time; the same when the first write was
`setWithExpiry k v1 ttl` at any time with any ttl. -/
theorem set_set_get (d : Store) (k v1 v2 : Bytes) (now : Int) :
    (find k (set (set d k v1) k v2) = some ⟨v2, 0, false⟩ ∧
      (∀ t, (get (set (set d k v1) k v2) t k).1 = some v2)) ∧
    (∀ ttl, find k (set (setWithExpiry d now k v1 ttl) k v2) = some ⟨v2, 0, false⟩ ∧
      (∀ t, (get (set (setWithExpiry d now k v1 ttl) k v2) t k).1 = some v2)) := by
  refine ⟨⟨find_assign_same _ _ _, ?_⟩, fun ttl => ⟨find_assign_same _ _ _, ?_⟩⟩
  · intro t
    simp [get, set, find_assign_same]
  · intro t
    simp [get, set, find_assign_same]

/-- C8: `getAllKeys` at clock time `now` returns exactly the keys whose entry has no
expiry or an expiry after `now`, each once, and leaves in the map exactly the entries of
those keys, unchanged. -/
theorem getAllKeys_spec (d : Store) (hwf : WF d) (now : Int) :
    (∀ k, k ∈ (getAllKeys now d).1 ↔
      ∃ e, find k d = some e ∧ (e.hasExpiry = false ∨ e.expiryTime > now)) ∧
    (getAllKeys now d).1.Nodup ∧
    (∀ k, find k (getAllKeys now d).2 =
      match find k d with
      | some e => if e.hasExpiry = true ∧ e.expiryTime ≤ now then none else some e
      | none => none) ∧
    (getAllKeys now d).2.Sublist d := by
  have hiff : ∀ e : ValueWithExpiry,
      ¬ expired now e ↔ (e.hasExpiry = false ∨ e.expiryTime > now) := by
    intro e
    unfold expired
    cases e.hasExpiry <;> simp
  refine ⟨?_, ?_, ?_, ?_⟩
  · intro k
    rw [mem_getAllKeys now k d hwf]
    constructor
    · rintro ⟨e, h1, h2⟩; exact ⟨e, h1, (hiff e).mp h2⟩
    · rintro ⟨e, h1, h2⟩; exact ⟨e, h1, (hiff e).mpr h2⟩
  · rw [getAllKeys_fst]; exact WF_getAllKeys now d hwf
  · intro k
    rw [find_getAllKeys now k d hwf]
    rfl
  · rw [getAllKeys_snd]; exact List.filter_sublist d

/-- A sweep of C8: of three entries the one that expired at 15 is dropped at 20. -/
theorem getAllKeys_spec_witness :
    WF [(bytes "a", ⟨bytes "1", 15, true⟩), (bytes "b", ⟨bytes "2", 0, false⟩),
        (bytes "c", ⟨bytes "3", 21, true⟩)] ∧
      (getAllKeys 20 [(bytes "a", ⟨bytes "1", 15, true⟩), (bytes "b", ⟨bytes "2", 0, false⟩),
        (bytes "c", ⟨bytes "3", 21, true⟩)]).1.Nodup :=
  ⟨by decide,
    (getAllKeys_spec [(bytes "a", ⟨bytes "1", 15, true⟩), (bytes "b", ⟨bytes "2", 0, false⟩),
        (bytes "c", ⟨bytes "3", 21, true⟩)] (by decide) 20).2.1⟩

end Storage

/-! ## The dispatcher -/

namespace CommandHandler

open RESPParser

theorem handleCommand_SET (config_ : Config) (d : Store) (now : Int) (args : List Bytes) :
    handleCommand config_ d now (bytes "SET" :: args) = handleSet d now args := by
  have e : (bytes "SET").map toupper = bytes "SET" := by decide
  have n1 : bytes "SET" ≠ bytes "PING" := by decide
  have n2 : bytes "SET" ≠ bytes "ECHO" := by decide
  simp only [handleCommand, e, n1, n2, if_false, if_true]

theorem handleCommand_GET (config_ : Config) (d : Store) (now : Int) (args : List Bytes) :
    handleCommand config_ d now (bytes "GET" :: args) = handleGet d now args := by
  have e : (bytes "GET").map toupper = bytes "GET" := by decide
  have n1 : bytes "GET" ≠ bytes "PING" := by decide
  have n2 : bytes "GET" ≠ bytes "ECHO" := by decide
  have n3 : bytes "GET" ≠ bytes "SET" := by decide
  simp only [handleCommand, e, n1, n2, n3, if_false, if_true]

theorem handleGet_reply (d : Store) (now : Int) (k : Bytes) :
    (handleGet d now [k]).1 =
      match (Storage.get d now k).1 with
      | some value => encodeBulkString value
      | none => encodeNull := by
  unfold handleGet
  rcases hg : Storage.get d now k with ⟨r, s⟩
  cases r <;> simp only [hg]

/-- C5: dispatching `[SET, k, v]` replies `+OK` and a following `[GET, k]`, at any later
time, replies the bulk string of `v`; `[GET, k]` for a key that is absent, or whose
expiry time has been reached, replies the null reply. -/
theorem set_get_reply (config_ : Config) (d : Store) (k v : Bytes) (now later : Int)
    (_hlater : now ≤ later) :
    (handleCommand config_ d now [bytes "SET", k, v]).1 = bytes "+OK\r\n" ∧
    (handleCommand config_ (handleCommand config_ d now [bytes "SET", k, v]).2 later
        [bytes "GET", k]).1 = bytes "$" ++ to_string v.length ++ bytes "\r\n" ++ v ++ bytes "\r\n" ∧
    (Storage.find k d = none →
      (handleCommand config_ d now [bytes "GET", k]).1 = bytes "$-1\r\n") ∧
    (∀ e, Storage.find k d = some e → e.hasExpiry = true → e.expiryTime ≤ now →
      (handleCommand config_ d now [bytes "GET", k]).1 = bytes "$-1\r\n") := by
  refine ⟨?_, ?_, ?_, ?_⟩
  · rw [handleCommand_SET]; rfl
  · rw [handleCommand_SET, handleCommand_GET, handleGet_reply]
    simp only [handleSet, Storage.get, Storage.set, Storage.find_assign_same]
    simp [encodeBulkString, bytes, CR, LF]
  · intro h
    rw [handleCommand_GET, handleGet_reply, Storage.get_fst, h]
    rfl
  · intro e h hx ht
    have hexp : Storage.expired now e := ⟨hx, ht⟩
    rw [handleCommand_GET, handleGet_reply, Storage.get_fst, h]
    simp only [hexp, if_true]
    rfl

/-- The exchange of C5 on the key `k` and the value `v`, written at 5 and read at 9. -/
theorem set_get_reply_witness :
    (5 : Int) ≤ 9 ∧
      (handleCommand ⟨[], [], false⟩
        (handleCommand ⟨[], [], false⟩ [] 5 [bytes "SET", bytes "k", bytes "v"]).2 9
        [bytes "GET", bytes "k"]).1 = bytes "$1\r\nv\r\n" :=
  ⟨by decide, (set_get_reply ⟨[], [], false⟩ [] (bytes "k") (bytes "v") 5 9 (by decide)).2.1⟩

end CommandHandler

/-! ## The snapshot loader -/

namespace RDBParser

theorem drop_succ_of_cons (data : Bytes) (pos b : Nat) (rest : Bytes)
    (h : data.drop pos = b :: rest) : data.drop (pos + 1) = rest := by
  rw [← List.drop_drop, h]; rfl

theorem drop_add_of_append (data : Bytes) (pos : Nat) (bs rest : Bytes)
    (h : data.drop pos = bs ++ rest) : data.drop (pos + bs.length) = rest := by
  rw [← List.drop_drop, h]; simp

theorem read_ok (data : Bytes) (pos : Nat) (bs rest : Bytes) (h : data.drop pos = bs ++ rest) :
    IfStream.read ⟨data, pos, false, false⟩ bs.length =
      (bs, ⟨data, pos + bs.length, false, false⟩) := by
  simp [IfStream.read, IfStream.good, h]

theorem readByte_ok (data : Bytes) (pos b : Nat) (rest : Bytes) (h : data.drop pos = b :: rest) :
    readByte ⟨data, pos, false, false⟩ = .ok (b, ⟨data, pos + 1, false, false⟩) := by
  have h1 := read_ok data pos [b] rest (by simpa using h)
  simp only [List.length_singleton] at h1
  simp only [readByte, h1]

theorem isEOF_false (data : Bytes) (pos b : Nat) (rest : Bytes) (h : data.drop pos = b :: rest) :
    isEOF ⟨data, pos, false, false⟩ = (false, ⟨data, pos, false, false⟩) := by
  simp [isEOF, IfStream.peek, IfStream.good, h]

theorem seekg_back (data : Bytes) (pos : Nat) :
    IfStream.seekg ⟨data, pos + 1, false, false⟩ (-1) = ⟨data, pos, false, false⟩ := by
  simp [IfStream.seekg]

theorem short_length_bits : ∀ n, n < 64 →
    n &&& 0xC0 ≠ 0xC0 ∧ (n &&& 0xC0) >>> 6 = 0 ∧ n &&& 0x3F = n := by
  decide

/-- A string with a one-byte length below 64 in front is read back by `readString`. -/
theorem readString_short (data : Bytes) (pos : Nat) (bs rest : Bytes) (hlen : bs.length < 64)
    (h : data.drop pos = bs.length :: (bs ++ rest)) :
    readString ⟨data, pos, false, false⟩ = .ok (bs, ⟨data, pos + 1 + bs.length, false, false⟩) := by
  obtain ⟨b1, b2, b3⟩ := short_length_bits bs.length hlen
  have h2 := drop_succ_of_cons data pos _ _ h
  simp only [readString, readByte_ok data pos _ _ h, seekg_back, b1, if_false, readRegular,
    readLength, b2, if_true, b3, read_ok data (pos + 1) bs rest h2]
  simp

theorem readHeader_ok (header rest : Bytes) (hh : header.length = 9)
    (hm : header.take 5 = bytes "REDIS") :
    readHeader ⟨header ++ rest, 0, false, false⟩ = (true, ⟨header ++ rest, 9, false, false⟩) := by
  have h1 := read_ok (header ++ rest) 0 header rest (by simp)
  rw [hh] at h1
  simp only [readHeader, h1, hm]
  simp

theorem skipMetadata_FE (fuel : Nat) (data : Bytes) (pos : Nat) (rest : Bytes)
    (h : data.drop pos = 0xFE :: rest) :
    skipMetadata (fuel + 1) ⟨data, pos, false, false⟩ = .ok (true, ⟨data, pos, false, false⟩) := by
  simp only [skipMetadata, isEOF_false data pos _ _ h, readByte_ok data pos _ _ h, seekg_back]
  simp

theorem readKeyValues_end (nowMs now : Int) (fuel : Nat) (data : Bytes) (pos : Nat)
    (rest : Bytes) (storage : Store) (h : data.drop pos = 0xFF :: rest) :
    readKeyValues nowMs now (fuel + 1) ⟨data, pos, false, false⟩ storage =
      .ok (none, ⟨data, pos, false, false⟩, storage) := by
  simp only [readKeyValues, isEOF_false data pos _ _ h, readByte_ok data pos _ _ h, seekg_back]
  simp

/-- One pass of the key-value loop over a string record without expiry, key and value
with one-byte lengths: the record is stored with `Storage::set`. -/
theorem readKeyValues_plain (nowMs now : Int) (fuel : Nat) (data : Bytes) (pos : Nat)
    (key value rest : Bytes) (storage : Store) (hk : key.length < 64) (hv : value.length < 64)
    (h : data.drop pos = 0x00 :: key.length :: (key ++ value.length :: (value ++ rest))) :
    readKeyValues nowMs now (fuel + 1) ⟨data, pos, false, false⟩ storage =
      readKeyValues nowMs now fuel
        ⟨data, pos + 1 + 1 + key.length + 1 + value.length, false, false⟩
        (Storage.set storage key value) := by
  have h1 := drop_succ_of_cons data pos _ _ h
  have h2 := drop_add_of_append data (pos + 1 + 1) key _ (drop_succ_of_cons data (pos + 1) _ _ h1)
  have m1 : ¬ ((0 : Nat) = 0xFE ∨ (0 : Nat) = 0xFF) := by decide
  have m2 : ¬ ((0 : Nat) = 0xFD) := by decide
  have m3 : ¬ ((0 : Nat) = 0xFC) := by decide
  simp only [readKeyValues, isEOF_false data pos _ _ h, readByte_ok data pos _ _ h, readExpiry,
    m1, m2, m3, if_false, ne_eq, not_true_eq_false,
    readString_short data (pos + 1) key _ hk h1,
    readString_short data (pos + 1 + 1 + key.length) value rest hv h2, store]
  rfl

theorem readDatabase_FF (nowMs now : Int) (fuel : Nat) (data : Bytes) (pos : Nat)
    (rest : Bytes) (storage : Store) (h : data.drop pos = 0xFF :: rest) :
    ∃ f, readDatabase nowMs now (fuel + 1) ⟨data, pos, false, false⟩ storage =
      .ok (true, f, storage) := by
  simp only [readDatabase, isEOF_false data pos _ _ h, readByte_ok data pos _ _ h]
  simp

theorem readDatabase_FE (nowMs now : Int) (fuel : Nat) (data : Bytes) (pos b : Nat)
    (rest : Bytes) (storage : Store) (hb : b ≠ 0xFB) (h : data.drop pos = 0xFE :: b :: rest) :
    readDatabase nowMs now (fuel + 1) ⟨data, pos, false, false⟩ storage =
      match readKeyValues nowMs now fuel ⟨data, pos + 1, false, false⟩ storage with
      | .error e => .error e
      | .ok (some r, f, storage) => .ok (r, f, storage)
      | .ok (none, f, storage) => readDatabase nowMs now fuel f storage := by
  have h1 := drop_succ_of_cons data pos _ _ h
  simp only [readDatabase, isEOF_false data pos _ _ h, readByte_ok data pos _ _ h,
    readByte_ok data (pos + 1) _ _ h1, seekg_back, hb]
  simp

/-- C9: a file made of a 9-byte header starting with `REDIS`, the opcode 0xFE, the value
type 0x00, key and value shorter than 64 bytes behind their one-byte lengths, the opcode
0xFF and the checksum bytes is loaded with success (three rounds of loop budget are
enough) and afterwards `get key` returns `value`. -/
theorem parseFile_dump (header key value checksum : Bytes) (storage : Store)
    (nowMs now : Int) (fuel : Nat) (hfuel : 3 ≤ fuel) (hh : header.length = 9)
    (hm : header.take 5 = bytes "REDIS") (hk : key.length < 64) (hv : value.length < 64) :
    parseFile fuel (.contents (dump header key value checksum)) storage nowMs now =
        .ok (true, Storage.set storage key value) ∧
      ∀ t, (Storage.get (Storage.set storage key value) t key).1 = some value := by
  obtain ⟨n, rfl⟩ : ∃ n, fuel = n + 1 + 1 + 1 := ⟨fuel - 3, by omega⟩
  constructor
  · have hd : dump header key value checksum =
        header ++ (0xFE :: 0x00 :: key.length :: (key ++ value.length :: (value ++ 0xFF :: checksum))) := by
      simp [dump]
    have h9 : (dump header key value checksum).drop 9 =
        0xFE :: 0x00 :: key.length :: (key ++ value.length :: (value ++ 0xFF :: checksum)) := by
      rw [hd]; exact List.drop_left' hh
    have h10 := drop_succ_of_cons _ 9 _ _ h9
    have hend : (dump header key value checksum).drop
        (9 + 1 + 1 + 1 + key.length + 1 + value.length) = 0xFF :: checksum := by
      have a := drop_succ_of_cons _ (9 + 1) _ _ h10
      have b := drop_add_of_append _ (9 + 1 + 1 + 1) key _ (drop_succ_of_cons _ (9 + 1 + 1) _ _ a)
      exact drop_add_of_append _ (9 + 1 + 1 + 1 + key.length + 1) value _
        (drop_succ_of_cons _ (9 + 1 + 1 + 1 + key.length) _ _ b)
    obtain ⟨f, hf⟩ := readDatabase_FF nowMs now (n + 1) _ _ _ (Storage.set storage key value) hend
    have hhead := readHeader_ok header
      (0xFE :: 0x00 :: key.length :: (key ++ value.length :: (value ++ 0xFF :: checksum))) hh hm
    rw [← hd] at hhead
    simp only [parseFile, hhead, skipMetadata_FE _ _ 9 _ h9,
      readDatabase_FE nowMs now _ _ 9 0 _ storage (by decide) h9,
      readKeyValues_plain nowMs now _ _ (9 + 1) key value _ storage hk hv h10,
      readKeyValues_end nowMs now _ _ _ _ _ hend, hf]
  · intro t
    simp [Storage.get, Storage.set, Storage.find_assign_same]

/-- The dump of C9 with the key `k` and the value `v`. -/
theorem parseFile_dump_witness :
    parseFile 3 (.contents (dump (bytes "REDIS0011") (bytes "k") (bytes "v") [1, 2, 3, 4, 5, 6, 7, 8]))
        [] 1700000000000 0 = .ok (true, Storage.set [] (bytes "k") (bytes "v")) ∧
      (Storage.get (Storage.set [] (bytes "k") (bytes "v")) 7 (bytes "k")).1 = some (bytes "v") :=
  ⟨(parseFile_dump (bytes "REDIS0011") (bytes "k") (bytes "v") [1, 2, 3, 4, 5, 6, 7, 8] []
      1700000000000 0 3 (by decide) (by decide) (by decide) (by decide) (by decide)).1,
    (parseFile_dump (bytes "REDIS0011") (bytes "k") (bytes "v") [1, 2, 3, 4, 5, 6, 7, 8] []
      1700000000000 0 3 (by decide) (by decide) (by decide) (by decide) (by decide)).2 7⟩

/-- With a seconds expiry the record is never stored once the wall clock has passed
2^32 ms: the product by 1000 is taken on 32 bits. -/
theorem store_seconds_dropped (storage : Store) (nowMs now : Int) (seconds : Nat)
    (key value : Bytes) (h1 : 2 ^ 32 ≤ nowMs) (h2 : nowMs < 2 ^ 64) :
    store storage nowMs now true ((seconds * 1000) % 2 ^ 32) key value = storage := by
  have h3 : toUInt64 nowMs = nowMs.toNat := by
    unfold toUInt64
    rw [Int.emod_eq_of_lt (by omega) h2]
  have h4 : (seconds * 1000) % 2 ^ 32 < 2 ^ 32 := Nat.mod_lt _ (by norm_num)
  have h5 : ¬ ((seconds * 1000) % 2 ^ 32 > toUInt64 nowMs) := by
    rw [h3]; omega
  simp only [store, h5, if_true, if_false]

/-- C10 (code at the failing input): a record with the opcode 0xFD and the seconds value
2000000000, loaded when the wall clock reads 1700000000000 ms, is not inserted although
2000000000 * 1000 exceeds the clock: the expiry is computed as
`2000000000 * 1000 mod 2^32 = 2840207360`. -/
theorem parseFile_seconds_expiry :
    parseFile 3 (.contents (bytes "REDIS0011" ++
        [0xFE, 0xFD, 0x00, 0x94, 0x35, 0x77, 0x00, 1, 107, 1, 118, 0xFF, 0, 0, 0, 0, 0, 0, 0, 0]))
        [] 1700000000000 0 = .ok (true, []) ∧
      leValue [0x00, 0x94, 0x35, 0x77] = 2000000000 ∧
      (1700000000000 : Int) < 2000000000 * 1000 ∧
      readExpiry 0xFD ⟨[0x00, 0x94, 0x35, 0x77, 0x00], 0, false, false⟩ =
        .ok ((true, 2840207360, 0x00), ⟨[0x00, 0x94, 0x35, 0x77, 0x00], 5, false, false⟩) := by
  decide

/-! ### Records in sequence -/

theorem readKeyValues_records (nowMs now : Int) (fuel : Nat) (data : Bytes) (rest : Bytes) :
    ∀ (records : List (Bytes × Bytes)) (pos : Nat) (storage : Store),
      (∀ r ∈ records, r.1.length < 64 ∧ r.2.length < 64) →
      data.drop pos = encodeRecords records ++ rest →
      readKeyValues nowMs now (fuel + records.length) ⟨data, pos, false, false⟩ storage =
        readKeyValues nowMs now fuel
          ⟨data, pos + (encodeRecords records).length, false, false⟩ (setAll storage records) := by
  intro records
  induction records with
  | nil => intro pos storage _ _; simp [encodeRecords, setAll]
  | cons r records ih =>
    intro pos storage hshort h
    obtain ⟨key, value⟩ := r
    have hk : key.length < 64 := (hshort (key, value) (by simp)).1
    have hv : value.length < 64 := (hshort (key, value) (by simp)).2
    have h0 : data.drop pos =
        0x00 :: key.length :: (key ++ value.length :: (value ++ (encodeRecords records ++ rest))) := by
      rw [h]; simp [encodeRecords, encodeRecord]
    have hlen : pos + (encodeRecords ((key, value) :: records)).length =
        pos + 1 + 1 + key.length + 1 + value.length + (encodeRecords records).length := by
      simp [encodeRecords, encodeRecord]; omega
    have h1 := drop_succ_of_cons data pos _ _ h0
    have h2 := drop_add_of_append data (pos + 1 + 1) key _ (drop_succ_of_cons data (pos + 1) _ _ h1)
    have h3 := drop_add_of_append data (pos + 1 + 1 + key.length + 1) value _
      (drop_succ_of_cons data (pos + 1 + 1 + key.length) _ _ h2)
    rw [List.length_cons, ← Nat.add_assoc, readKeyValues_plain nowMs now _ data pos key value _
      storage hk hv h0, ih _ _ (fun r hr => hshort r (by simp [hr])) h3, hlen]
    rfl

theorem readUInt64LE_ok (data : Bytes) (pos : Nat) (bs rest : Bytes) (hbs : bs.length = 8)
    (h : data.drop pos = bs ++ rest) :
    readUInt64LE ⟨data, pos, false, false⟩ = .ok (leValue bs, ⟨data, pos + 8, false, false⟩) := by
  have h1 := read_ok data pos bs rest h
  rw [hbs] at h1
  simp only [readUInt64LE, readExact, h1, hbs, if_true]

/-- What the loader does with a record whose expiry `E` is below 2^63, at a wall clock
between 0 and 2^63. -/
theorem store_millis (storage : Store) (nowMs now : Int) (E : Nat) (key value : Bytes)
    (hE : E < 2 ^ 63) (hN0 : 0 ≤ nowMs) (hN1 : nowMs < 2 ^ 63) :
    store storage nowMs now true E key value =
      if (E : Int) ≤ nowMs then storage
      else Storage.setWithExpiry storage now key value ((E : Int) - nowMs) := by
  have h3 : toUInt64 nowMs = nowMs.toNat := by
    unfold toUInt64
    rw [Int.emod_eq_of_lt hN0 (by omega)]
  have h4 : ((nowMs.toNat : Nat) : Int) = nowMs := Int.toNat_of_nonneg hN0
  by_cases hle : (E : Int) ≤ nowMs
  · have h5 : ¬ (E > toUInt64 nowMs) := by rw [h3]; omega
    simp only [store, h5, hle, if_true, if_false]
  · have h5 : E > toUInt64 nowMs := by rw [h3]; omega
    have h6 : toInt64 ((E : Int) - (toUInt64 nowMs : Int)) = (E : Int) - nowMs := by
      rw [h3, h4]
      unfold toInt64
      have h7 : ((E : Int) - nowMs) % 2 ^ 64 = (E : Int) - nowMs :=
        Int.emod_eq_of_lt (by omega) (by omega)
      rw [h7]
      have h8 : (E : Int) - nowMs < 2 ^ 63 := by omega
      simp only [h8, if_true]
    simp only [store, h5, hle, if_true, if_false, h6]

/-- One pass of the key-value loop over a record that starts with the opcode 0xFC and
an 8-byte timestamp `E`, whatever the encodings of key and value: the loop goes on
behind the record, with the record stored only when `E` is after the wall clock. -/
theorem readKeyValues_millis (nowMs now : Int) (fuel : Nat) (data : Bytes) (pos : Nat)
    (bs rest key value : Bytes) (storage : Store) (f1 f2 : IfStream)
    (hbs : bs.length = 8) (hE : leValue bs < 2 ^ 63) (hN0 : 0 ≤ nowMs) (hN1 : nowMs < 2 ^ 63)
    (h : data.drop pos = 0xFC :: (bs ++ 0x00 :: rest))
    (hkey : readString ⟨data, pos + 1 + 8 + 1, false, false⟩ = .ok (key, f1))
    (hval : readString f1 = .ok (value, f2)) :
    readKeyValues nowMs now (fuel + 1) ⟨data, pos, false, false⟩ storage =
      readKeyValues nowMs now fuel f2
        (if (leValue bs : Int) ≤ nowMs then storage
         else Storage.setWithExpiry storage now key value ((leValue bs : Int) - nowMs)) := by
  have h1 := drop_succ_of_cons data pos _ _ h
  have h2 := drop_add_of_append data (pos + 1) bs _ h1
  rw [hbs] at h2
  have m1 : ¬ ((0xFC : Nat) = 0xFE ∨ (0xFC : Nat) = 0xFF) := by decide
  have m2 : ¬ ((0xFC : Nat) = 0xFD) := by decide
  simp only [readKeyValues, isEOF_false data pos _ _ h, readByte_ok data pos _ _ h, readExpiry,
    m1, m2, if_false, if_true, readUInt64LE_ok data (pos + 1) bs _ hbs h1,
    readByte_ok data (pos + 1 + 8) _ _ h2, ne_eq, not_true_eq_false, hkey, hval,
    store_millis storage nowMs now (leValue bs) key value hE hN0 hN1]

/-- C11: a file whose database section starts with a record behind the opcode 0xFC and
an 8-byte little-endian timestamp `E < 2^63`, followed by records without expiry, is
loaded with success when the wall clock reads `N` (between 0 and 2^63): for `E ≤ N` the
record is not inserted and the records behind it are, for `E > N` it is inserted by
`setWithExpiry` with ttl `E - N`. -/
theorem parseFile_millis (header bs key value checksum : Bytes)
    (records : List (Bytes × Bytes)) (storage : Store) (nowMs now : Int) (fuel : Nat)
    (hfuel : records.length + 3 ≤ fuel) (hh : header.length = 9)
    (hm : header.take 5 = bytes "REDIS") (hbs : bs.length = 8) (hE : leValue bs < 2 ^ 63)
    (hN0 : 0 ≤ nowMs) (hN1 : nowMs < 2 ^ 63) (hk : key.length < 64) (hv : value.length < 64)
    (hshort : ∀ r ∈ records, r.1.length < 64 ∧ r.2.length < 64) :
    parseFile fuel (.contents (header ++ 0xFE :: 0xFC ::
        (bs ++ encodeRecord key value ++ encodeRecords records ++ 0xFF :: checksum)))
      storage nowMs now =
      .ok (true, setAll
        (if (leValue bs : Int) ≤ nowMs then storage
         else Storage.setWithExpiry storage now key value ((leValue bs : Int) - nowMs))
        records) := by
  obtain ⟨n, rfl⟩ : ∃ n, fuel = n + 1 + records.length + 1 + 1 :=
    ⟨fuel - records.length - 3, by omega⟩
  have hd : header ++ 0xFE :: 0xFC ::
        (bs ++ encodeRecord key value ++ encodeRecords records ++ 0xFF :: checksum) =
      header ++ 0xFE :: 0xFC :: (bs ++ 0x00 :: key.length ::
        (key ++ value.length :: (value ++ (encodeRecords records ++ 0xFF :: checksum)))) := by
    simp [encodeRecord]
  rw [hd]
  generalize hdata : header ++ 0xFE :: 0xFC :: (bs ++ 0x00 :: key.length ::
        (key ++ value.length :: (value ++ (encodeRecords records ++ 0xFF :: checksum)))) = data
  have h9 : data.drop 9 = 0xFE :: 0xFC :: (bs ++ 0x00 :: key.length ::
        (key ++ value.length :: (value ++ (encodeRecords records ++ 0xFF :: checksum)))) := by
    rw [← hdata]; exact List.drop_left' hh
  have h10 := drop_succ_of_cons _ 9 _ _ h9
  have h11 := drop_succ_of_cons _ (9 + 1) _ _ h10
  have h19 := drop_add_of_append _ (9 + 1 + 1) bs _ h11
  rw [hbs] at h19
  have h20 := drop_succ_of_cons _ (9 + 1 + 1 + 8) _ _ h19
  have h21 := drop_add_of_append _ (9 + 1 + 1 + 8 + 1 + 1) key _
    (drop_succ_of_cons _ (9 + 1 + 1 + 8 + 1) _ _ h20)
  have h22 := drop_add_of_append _ (9 + 1 + 1 + 8 + 1 + 1 + key.length + 1) value _
    (drop_succ_of_cons _ (9 + 1 + 1 + 8 + 1 + 1 + key.length) _ _ h21)
  have hend := drop_add_of_append _ _ (encodeRecords records) _ h22
  have hkey := readString_short data (9 + 1 + 1 + 8 + 1) key _ hk h20
  have hval := readString_short data (9 + 1 + 1 + 8 + 1 + 1 + key.length) value _ hv h21
  obtain ⟨f, hf⟩ := readDatabase_FF nowMs now (n + 1 + records.length) data _ checksum
    (setAll
        (if (leValue bs : Int) ≤ nowMs then storage
         else Storage.setWithExpiry storage now key value ((leValue bs : Int) - nowMs))
        records) hend
  have hhead : readHeader ⟨data, 0, false, false⟩ = (true, ⟨data, 9, false, false⟩) := by
    rw [← hdata]; exact readHeader_ok header _ hh hm
  have hstep := readKeyValues_millis nowMs now (n + 1 + records.length) data (9 + 1) bs _ key
    value storage _ _ hbs hE hN0 hN1 h10 hkey hval
  simp only [parseFile, hhead, skipMetadata_FE _ _ 9 _ h9,
    readDatabase_FE nowMs now _ _ 9 0xFC _ storage (by decide) h9, hstep,
    readKeyValues_records nowMs now (n + 1) _ _ records _ _ hshort h22,
    readKeyValues_end nowMs now _ _ _ _ _ hend, hf]

/-- The load of C11 with an expiry of 1000 ms, long before the wall clock: the record
`k` is left out and the record `j` behind it is loaded. -/
theorem parseFile_millis_witness :
    leValue [0xE8, 3, 0, 0, 0, 0, 0, 0] < 2 ^ 63 ∧
      parseFile 4 (.contents (bytes "REDIS0011" ++ 0xFE :: 0xFC ::
        ([0xE8, 3, 0, 0, 0, 0, 0, 0] ++ encodeRecord (bytes "k") (bytes "v") ++
          encodeRecords [(bytes "j", bytes "w")] ++ 0xFF :: [1, 2, 3, 4, 5, 6, 7, 8])))
        [] 1700000000000 0 = .ok (true, [(bytes "j", ⟨bytes "w", 0, false⟩)]) :=
  ⟨by decide,
    (parseFile_millis (bytes "REDIS0011") [0xE8, 3, 0, 0, 0, 0, 0, 0] (bytes "k") (bytes "v")
      [1, 2, 3, 4, 5, 6, 7, 8] [(bytes "j", bytes "w")] [] 1700000000000 0 4 (by decide)
      (by decide) (by decide) (by decide) (by decide) (by decide) (by decide) (by decide)
      (by decide) (by decide)).trans (by decide)⟩

/-! ### Length and string encodings -/

set_option maxRecDepth 16384 in
theorem top_bits : ∀ b, b < 256 →
    (b &&& 0xC0) >>> 6 = b >>> 6 ∧ (b &&& 0xC0 = 0xC0 ↔ b >>> 6 = 3) ∧ b >>> 6 < 4 := by
  decide

theorem shift_or_byte (a b : Nat) (hb : b < 256) : (a <<< 8) ||| b = a * 256 + b := by
  rw [Nat.shiftLeft_eq, Nat.mul_comm]
  exact (Nat.mul_add_lt_is_or (show b < 2 ^ 8 by simpa using hb) a).symm

/-- C17: `readLength` on a stream whose next byte is `b`. Top two bits 00: the value is
`b & 0x3F`, one byte consumed. Top two bits 01: the value is `((b & 0x3F) << 8) | b2`,
that is `(b & 0x3F) * 256 + b2`, two bytes consumed. Top two bits 10: the value is the
big-endian number of the next four bytes, five bytes consumed. -/
theorem readLength_spec (data : Bytes) (pos b : Nat) (rest : Bytes) (hb : b < 256)
    (h : data.drop pos = b :: rest) :
    (b >>> 6 = 0 →
      readLength ⟨data, pos, false, false⟩ = .ok (b &&& 0x3F, ⟨data, pos + 1, false, false⟩)) ∧
    (b >>> 6 = 1 → ∀ b2 tl, b2 < 256 → rest = b2 :: tl →
      readLength ⟨data, pos, false, false⟩ =
          .ok (((b &&& 0x3F) <<< 8) ||| b2, ⟨data, pos + 2, false, false⟩) ∧
        ((b &&& 0x3F) <<< 8) ||| b2 = (b &&& 0x3F) * 256 + b2) ∧
    (b >>> 6 = 2 → ∀ b1 b2 b3 b4 tl, b1 < 256 → b2 < 256 → b3 < 256 → b4 < 256 →
      rest = b1 :: b2 :: b3 :: b4 :: tl →
      readLength ⟨data, pos, false, false⟩ =
        .ok (b1 * 2 ^ 24 + b2 * 2 ^ 16 + b3 * 2 ^ 8 + b4, ⟨data, pos + 5, false, false⟩)) := by
  obtain ⟨t1, _, _⟩ := top_bits b hb
  have hrd := readByte_ok data pos b rest h
  refine ⟨?_, ?_, ?_⟩
  · intro ht
    simp only [readLength, hrd, t1, ht, if_true]
  · intro ht b2 tl hb2 hrest
    subst hrest
    have h1 := drop_succ_of_cons data pos _ _ h
    have n0 : ¬ ((1 : Nat) = 0) := by decide
    refine ⟨?_, shift_or_byte _ b2 hb2⟩
    simp only [readLength, hrd, t1, ht, n0, if_false, if_true, readByte_ok data (pos + 1) b2 tl h1]
  · intro ht b1 b2 b3 b4 tl hb1 hb2 hb3 hb4 hrest
    subst hrest
    have h1 := drop_succ_of_cons data pos _ _ h
    have h2 := drop_succ_of_cons data (pos + 1) _ _ h1
    have h3 := drop_succ_of_cons data (pos + 1 + 1) _ _ h2
    have h4 := drop_succ_of_cons data (pos + 1 + 1 + 1) _ _ h3
    have n0 : ¬ ((2 : Nat) = 0) := by decide
    have n1 : ¬ ((2 : Nat) = 1) := by decide
    have e1 : ((0 <<< 8) % 2 ^ 32) ||| b1 = b1 := by simp
    have e2 : ((b1 <<< 8) % 2 ^ 32) ||| b2 = b1 * 256 + b2 := by
      rw [Nat.mod_eq_of_lt (by rw [Nat.shiftLeft_eq]; omega), shift_or_byte _ _ hb2]
    have e3 : (((b1 * 256 + b2) <<< 8) % 2 ^ 32) ||| b3 = (b1 * 256 + b2) * 256 + b3 := by
      rw [Nat.mod_eq_of_lt (by rw [Nat.shiftLeft_eq]; omega), shift_or_byte _ _ hb3]
    have e4 : ((((b1 * 256 + b2) * 256 + b3) <<< 8) % 2 ^ 32) ||| b4 =
        ((b1 * 256 + b2) * 256 + b3) * 256 + b4 := by
      rw [Nat.mod_eq_of_lt (by rw [Nat.shiftLeft_eq]; omega), shift_or_byte _ _ hb4]
    have e5 : ((b1 * 256 + b2) * 256 + b3) * 256 + b4 =
        b1 * 2 ^ 24 + b2 * 2 ^ 16 + b3 * 2 ^ 8 + b4 := by omega
    simp only [readLength, hrd, t1, ht, n0, n1, if_false, if_true, readSizeBE,
      readByte_ok data (pos + 1) b1 _ h1, readByte_ok data (pos + 1 + 1) b2 _ h2,
      readByte_ok data (pos + 1 + 1 + 1) b3 _ h3, readByte_ok data (pos + 1 + 1 + 1 + 1) b4 _ h4,
      e1, e2, e3, e4, e5]

/-- The three modes of C17 on the headers 0x2A, 0x41 0x02 and 0x80 0x00 0x01 0x02 0x03. -/
theorem readLength_spec_witness :
    readLength ⟨[0x2A], 0, false, false⟩ = .ok (42, ⟨[0x2A], 1, false, false⟩) ∧
    readLength ⟨[0x41, 0x02], 0, false, false⟩ = .ok (258, ⟨[0x41, 0x02], 2, false, false⟩) ∧
    readLength ⟨[0x80, 0, 1, 2, 3], 0, false, false⟩ =
      .ok (66051, ⟨[0x80, 0, 1, 2, 3], 5, false, false⟩) :=
  ⟨(readLength_spec [0x2A] 0 0x2A [] (by decide) (by decide)).1 (by decide),
    ((readLength_spec [0x41, 0x02] 0 0x41 [0x02] (by decide) (by decide)).2.1 (by decide)
      0x02 [] (by decide) rfl).1,
    (readLength_spec [0x80, 0, 1, 2, 3] 0 0x80 [0, 1, 2, 3] (by decide) (by decide)).2.2
      (by decide) 0 1 2 3 [] (by decide) (by decide) (by decide) (by decide) rfl⟩

theorem decimalFuel_head (fuel : Nat) : ∀ n, n ≠ 0 → n < fuel →
    (decimalFuel fuel n).head? ≠ some 48 := by
  induction fuel with
  | zero => intro n _ h; omega
  | succ fuel ih =>
    intro n hn h
    unfold decimalFuel
    by_cases h10 : n < 10
    · simp only [h10, if_true, List.head?_cons, ne_eq, Option.some.injEq]
      omega
    · simp only [h10, if_false]
      have hlt : n / 10 < fuel := by omega
      have hne : n / 10 ≠ 0 := by omega
      have h1 := ih (n / 10) hne hlt
      have h2 := (decimalFuel_spec fuel (n / 10) hlt).1
      cases hd : decimalFuel fuel (n / 10) with
      | nil => exact absurd hd h2
      | cons c cs =>
        rw [hd] at h1
        simpa using h1

/-- The text of `std::to_string`: digits only, of the right value, no leading zero. -/
theorem to_string_text (n : Nat) :
    to_string n ≠ [] ∧ (∀ d ∈ to_string n, isDigit d = true) ∧ digitsValue (to_string n) = n ∧
      (n ≠ 0 → (to_string n).head? ≠ some 48) :=
  ⟨to_string_ne_nil n, to_string_isDigit n, digitsValue_to_string n,
    fun hn => decimalFuel_head (n + 1) n hn (Nat.lt_succ_self n)⟩

theorem readExact_ok (data : Bytes) (pos : Nat) (bs rest : Bytes) (h : data.drop pos = bs ++ rest) :
    readExact ⟨data, pos, false, false⟩ bs.length =
      .ok (bs, ⟨data, pos + bs.length, false, false⟩) := by
  simp only [readExact, read_ok data pos bs rest h, if_true]

/-- C18: `readString` on a header byte 0xC0, 0xC1 or 0xC2 reads the next 1, 2 or 4
bytes as a little-endian unsigned number and returns its decimal text, 2, 3 or 5 bytes
consumed in all; the text is made of digits, has the value of the number and no leading
zero. The bytes C0 7B give `123` and C1 39 30 give `12345`. -/
theorem readString_integer (data : Bytes) (pos : Nat) (rest : Bytes) :
    (∀ b0, data.drop pos = 0xC0 :: b0 :: rest →
      readString ⟨data, pos, false, false⟩ =
        .ok (to_string b0, ⟨data, pos + 2, false, false⟩)) ∧
    (∀ b0 b1, data.drop pos = 0xC1 :: b0 :: b1 :: rest →
      readString ⟨data, pos, false, false⟩ =
        .ok (to_string (b0 + 256 * b1), ⟨data, pos + 3, false, false⟩)) ∧
    (∀ b0 b1 b2 b3, data.drop pos = 0xC2 :: b0 :: b1 :: b2 :: b3 :: rest →
      readString ⟨data, pos, false, false⟩ =
        .ok (to_string (b0 + 256 * b1 + 65536 * b2 + 16777216 * b3),
          ⟨data, pos + 5, false, false⟩)) ∧
    (∀ n, (∀ d ∈ to_string n, isDigit d = true) ∧ digitsValue (to_string n) = n ∧
      (n ≠ 0 → (to_string n).head? ≠ some 48)) ∧
    readString ⟨[0xC0, 0x7B], 0, false, false⟩ = .ok (bytes "123", ⟨[0xC0, 0x7B], 2, false, false⟩) ∧
    readString ⟨[0xC1, 0x39, 0x30], 0, false, false⟩ =
      .ok (bytes "12345", ⟨[0xC1, 0x39, 0x30], 3, false, false⟩) := by
  refine ⟨?_, ?_, ?_, fun n => (to_string_text n).2, by decide, by decide⟩
  · intro b0 h
    have h1 := drop_succ_of_cons data pos _ _ h
    have f1 : (0xC0 : Nat) &&& 0xC0 = 0xC0 := by decide
    have f2 : (0xC0 : Nat) &&& 0x3F = 0 := by decide
    simp only [readString, readByte_ok data pos _ _ h, seekg_back, f1, f2, if_true,
      readByte_ok data (pos + 1) _ _ h1]
  · intro b0 b1 h
    have h1 := drop_succ_of_cons data pos _ _ h
    have h2 := readExact_ok data (pos + 1) [b0, b1] rest h1
    have f1 : (0xC1 : Nat) &&& 0xC0 = 0xC0 := by decide
    have f2 : (0xC1 : Nat) &&& 0x3F = 1 := by decide
    have n0 : ¬ ((1 : Nat) = 0) := by decide
    have e : leValue [b0, b1] = b0 + 256 * b1 := by simp [leValue]
    simp only [List.length_cons, List.length_nil] at h2
    simp only [readString, readByte_ok data pos _ _ h, seekg_back, f1, f2, n0, if_true, if_false,
      h2, e]
  · intro b0 b1 b2 b3 h
    have h1 := drop_succ_of_cons data pos _ _ h
    have h2 := readExact_ok data (pos + 1) [b0, b1, b2, b3] rest h1
    have f1 : (0xC2 : Nat) &&& 0xC0 = 0xC0 := by decide
    have f2 : (0xC2 : Nat) &&& 0x3F = 2 := by decide
    have n0 : ¬ ((2 : Nat) = 0) := by decide
    have n1 : ¬ ((2 : Nat) = 1) := by decide
    have e : leValue [b0, b1, b2, b3] = b0 + 256 * b1 + 65536 * b2 + 16777216 * b3 := by
      simp [leValue]; omega
    simp only [List.length_cons, List.length_nil] at h2
    simp only [readString, readByte_ok data pos _ _ h, seekg_back, f1, f2, n0, n1, if_true,
      if_false, h2, e]

/-- The 32-bit case of C18 on the bytes C2 15 CD 5B 07, the number 123456789. -/
theorem readString_integer_witness :
    readString ⟨[0xC2, 0x15, 0xCD, 0x5B, 0x07, 9], 0, false, false⟩ =
      .ok (to_string (0x15 + 256 * 0xCD + 65536 * 0x5B + 16777216 * 0x07),
        ⟨[0xC2, 0x15, 0xCD, 0x5B, 0x07, 9], 5, false, false⟩) :=
  (readString_integer [0xC2, 0x15, 0xCD, 0x5B, 0x07, 9] 0 [9]).2.2.1 0x15 0xCD 0x5B 0x07
    (by decide)

/-- C19 (code at the failing input): on the header byte 0xC3 `readLength` returns 0 and
consumes that byte, while `readString` skips the byte and then reads a regular string
from the bytes behind it: on C3 01 41 it returns the one-byte string `A` and consumes
three bytes, on C3 alone it reads past the end of the file. -/
theorem readString_unknown_special :
    readLength ⟨[0xC3, 0x01, 0x41], 0, false, false⟩ =
      .ok (0, ⟨[0xC3, 0x01, 0x41], 1, false, false⟩) ∧
    readString ⟨[0xC3, 0x01, 0x41], 0, false, false⟩ =
      .ok (bytes "A", ⟨[0xC3, 0x01, 0x41], 3, false, false⟩) ∧
    readString ⟨[0xC3], 0, false, false⟩ = .error .indeterminate := by
  decide

end RDBParser

/-! ## The dispatcher: malformed requests -/

theorem strtol_to_string_int (n : Int) : strtol (to_string_int n) = some n := by
  unfold to_string_int
  by_cases hn : n < 0
  · have hp := parseUnsigned_digits (to_string n.natAbs) (to_string_ne_nil _) (to_string_isDigit _)
    have hsp : isSpace 45 = false := by decide
    simp only [hn, if_true, strtol, List.dropWhile, hsp, hp, digitsValue_to_string]
    congr 1
    omega
  · have h := strtol_to_string n.toNat
    simp only [hn, if_false, h]
    congr 1
    omega

namespace CommandHandler

open RESPParser

/-- The branch of `handleSet` with the option `PX`. -/
theorem handleCommand_SET_PX (config_ : Config) (d : Store) (now : Int)
    (k v option t : Bytes) (rest : List Bytes) (hpx : option.map toupper = bytes "PX") :
    handleCommand config_ d now (bytes "SET" :: k :: v :: option :: t :: rest) =
      match stoi t with
      | .ok expiryMs => (bytes "+OK\r\n", Storage.setWithExpiry d now k v expiryMs)
      | .error _ => (bytes "-ERR invalid expire time in 'set' command\r\n", d) := by
  rw [handleCommand_SET]
  simp only [handleSet, hpx, if_true]
  cases stoi t <;> rfl

/-- C13 (code at the failing inputs): with the option `PX` and the ttl text `10abc` or
`1.5`, `handleCommand` replies `+OK` and stores the key with a ttl of 10 and of 1:
`std::stoi` converts the leading digits and does not throw. For the texts `abc` and the
empty text the reply is the error and the store is unchanged. -/
theorem set_px_trailing_text (config_ : Config) (d : Store) (now : Int) (k v : Bytes) :
    handleCommand config_ d now [bytes "SET", k, v, bytes "PX", bytes "10abc"] =
      (bytes "+OK\r\n", Storage.setWithExpiry d now k v 10) ∧
    handleCommand config_ d now [bytes "SET", k, v, bytes "px", bytes "1.5"] =
      (bytes "+OK\r\n", Storage.setWithExpiry d now k v 1) ∧
    handleCommand config_ d now [bytes "SET", k, v, bytes "PX", bytes "abc"] =
      (bytes "-ERR invalid expire time in 'set' command\r\n", d) ∧
    handleCommand config_ d now [bytes "SET", k, v, bytes "PX", bytes ""] =
      (bytes "-ERR invalid expire time in 'set' command\r\n", d) := by
  have e1 : stoi (bytes "10abc") = .ok 10 := by decide
  have e2 : stoi (bytes "1.5") = .ok 1 := by decide
  have e3 : stoi (bytes "abc") = .error .invalid_argument := by decide
  have e4 : stoi (bytes "") = .error .invalid_argument := by decide
  refine ⟨?_, ?_, ?_, ?_⟩
  · rw [handleCommand_SET_PX _ _ _ _ _ _ _ _ (by decide), e1]
  · rw [handleCommand_SET_PX _ _ _ _ _ _ _ _ (by decide), e2]
  · rw [handleCommand_SET_PX _ _ _ _ _ _ _ _ (by decide), e3]
  · rw [handleCommand_SET_PX _ _ _ _ _ _ _ _ (by decide), e4]

/-- C14 as stated fails: `SET k v PX 0` on a store that holds `k` replies `+OK` and
replaces the entry of `k`. -/
theorem set_px_zero_accepted :
    handleCommand ⟨[], [], false⟩ [(bytes "k", ⟨bytes "old", 0, false⟩)] 5
        [bytes "SET", bytes "k", bytes "v", bytes "PX", bytes "0"] =
      (bytes "+OK\r\n", [(bytes "k", ⟨bytes "v", 5, true⟩)]) ∧
    (handleCommand ⟨[], [], false⟩ [(bytes "k", ⟨bytes "old", 0, false⟩)] 5
        [bytes "SET", bytes "k", bytes "v", bytes "PX", bytes "0"]).2 ≠
      [(bytes "k", ⟨bytes "old", 0, false⟩)] := by
  decide

/-- C14 (amended): for `SET k v PX t` where `t` is the decimal text of an integer `n ≤ 0`.
When `-2^31 ≤ n` the request is accepted: the reply is `+OK`, `setWithExpiry k v n` is
called, and the entry of `k` is expired from the start, every later `get k` is empty.
When `n < -2^31` the request is rejected with the error reply, the store unchanged. -/
theorem set_px_nonpositive (config_ : Config) (d : Store) (now : Int) (k v : Bytes) (n : Int)
    (hn : n ≤ 0) :
    (-2 ^ 31 ≤ n →
      handleCommand config_ d now [bytes "SET", k, v, bytes "PX", to_string_int n] =
        (bytes "+OK\r\n", Storage.setWithExpiry d now k v n) ∧
      ∀ t, now ≤ t → (Storage.get (Storage.setWithExpiry d now k v n) t k).1 = none) ∧
    (n < -2 ^ 31 →
      handleCommand config_ d now [bytes "SET", k, v, bytes "PX", to_string_int n] =
        (bytes "-ERR invalid expire time in 'set' command\r\n", d)) := by
  constructor
  · intro hlo
    have hs : stoi (to_string_int n) = .ok n := by
      unfold stoi
      rw [strtol_to_string_int]
      have : -2 ^ 31 ≤ n ∧ n < 2 ^ 31 := ⟨hlo, by omega⟩
      simp only [this, and_self, if_true]
    refine ⟨?_, ?_⟩
    · rw [handleCommand_SET_PX _ _ _ _ _ _ _ _ (by decide), hs]
    · intro t ht
      have hx : Storage.expired t ⟨v, now + n, true⟩ := ⟨rfl, by show now + n ≤ t; omega⟩
      have hp : Storage.expiryPoint now n = now + n :=
        Storage.expiryPoint_eq now n (by omega) (by omega)
      rw [Storage.get_fst]
      simp only [Storage.setWithExpiry, hp, Storage.find_assign_same, hx, if_true]
  · intro hlo
    have hs : stoi (to_string_int n) = .error .out_of_range := by
      unfold stoi
      rw [strtol_to_string_int]
      have : ¬ (-2 ^ 31 ≤ n ∧ n < 2 ^ 31) := by omega
      simp only [this, if_false]
    rw [handleCommand_SET_PX _ _ _ _ _ _ _ _ (by decide), hs]

/-- The amended C14 on the ttl text `-5`: accepted, and the key reads as absent. -/
theorem set_px_nonpositive_witness :
    (-5 : Int) ≤ 0 ∧ to_string_int (-5) = bytes "-5" ∧
      handleCommand ⟨[], [], false⟩ [] 100
          [bytes "SET", bytes "k", bytes "v", bytes "PX", to_string_int (-5)] =
        (bytes "+OK\r\n", Storage.setWithExpiry [] 100 (bytes "k") (bytes "v") (-5)) :=
  ⟨by decide, by decide,
    ((set_px_nonpositive ⟨[], [], false⟩ [] 100 (bytes "k") (bytes "v") (-5) (by decide)).1
      (by decide)).1⟩

/-- C15: a request whose name, uppercased, is none of the nine command names is
answered with `-ERR unknown command '<name>'`, the name as it was sent, whatever the
arguments, and the store stays as it is. -/
theorem unknown_command (config_ : Config) (d : Store) (now : Int) (c0 : Bytes)
    (args : List Bytes)
    (h : c0.map toupper ∉ [bytes "PING", bytes "ECHO", bytes "SET", bytes "GET", bytes "CONFIG",
      bytes "KEYS", bytes "INFO", bytes "REPLCONF", bytes "PSYNC"]) :
    handleCommand config_ d now (c0 :: args) =
      (bytes "-ERR unknown command '" ++ c0 ++ bytes "'\r\n", d) := by
  simp only [List.mem_cons, List.mem_singleton, not_or] at h
  obtain ⟨h1, h2, h3, h4, h5, h6, h7, h8, h9, _⟩ := h
  have a : bytes "-ERR unknown command '" = 45 :: bytes "ERR unknown command '" := by decide
  have b : bytes "'\r\n" = bytes "'" ++ [CR, LF] := by decide
  simp only [handleCommand, h1, h2, h3, h4, h5, h6, h7, h8, h9, if_false, encodeError, a, b]
  simp

/-- The request `FOO` of C15. -/
theorem unknown_command_witness :
    handleCommand ⟨[], [], false⟩ [] 0 (bytes "FOO" :: []) =
        (bytes "-ERR unknown command '" ++ bytes "FOO" ++ bytes "'\r\n", []) ∧
      bytes "-ERR unknown command '" ++ bytes "FOO" ++ bytes "'\r\n" =
        bytes "-ERR unknown command 'FOO'\r\n" :=
  ⟨unknown_command ⟨[], [], false⟩ [] 0 (bytes "FOO") [] (by decide), by decide⟩

theorem handleCommand_ECHO (config_ : Config) (d : Store) (now : Int) (c0 : Bytes)
    (args : List Bytes) (h : c0.map toupper = bytes "ECHO") :
    handleCommand config_ d now (c0 :: args) = (handleEcho args, d) := by
  have n1 : bytes "ECHO" ≠ bytes "PING" := by decide
  simp only [handleCommand, h, n1, if_false, if_true]

theorem handleCommand_set (config_ : Config) (d : Store) (now : Int) (c0 : Bytes)
    (args : List Bytes) (h : c0.map toupper = bytes "SET") :
    handleCommand config_ d now (c0 :: args) = handleSet d now args := by
  have n1 : bytes "SET" ≠ bytes "PING" := by decide
  have n2 : bytes "SET" ≠ bytes "ECHO" := by decide
  simp only [handleCommand, h, n1, n2, if_false, if_true]

theorem handleCommand_get (config_ : Config) (d : Store) (now : Int) (c0 : Bytes)
    (args : List Bytes) (h : c0.map toupper = bytes "GET") :
    handleCommand config_ d now (c0 :: args) = handleGet d now args := by
  have n1 : bytes "GET" ≠ bytes "PING" := by decide
  have n2 : bytes "GET" ≠ bytes "ECHO" := by decide
  have n3 : bytes "GET" ≠ bytes "SET" := by decide
  simp only [handleCommand, h, n1, n2, n3, if_false, if_true]

theorem handleCommand_CONFIG (config_ : Config) (d : Store) (now : Int) (c0 : Bytes)
    (args : List Bytes) (h : c0.map toupper = bytes "CONFIG") :
    handleCommand config_ d now (c0 :: args) = (handleConfig config_ args, d) := by
  have n1 : bytes "CONFIG" ≠ bytes "PING" := by decide
  have n2 : bytes "CONFIG" ≠ bytes "ECHO" := by decide
  have n3 : bytes "CONFIG" ≠ bytes "SET" := by decide
  have n4 : bytes "CONFIG" ≠ bytes "GET" := by decide
  simp only [handleCommand, h, n1, n2, n3, n4, if_false, if_true]

theorem handleCommand_KEYS (config_ : Config) (d : Store) (now : Int) (c0 : Bytes)
    (args : List Bytes) (h : c0.map toupper = bytes "KEYS") :
    handleCommand config_ d now (c0 :: args) = handleKeys d now args := by
  have n1 : bytes "KEYS" ≠ bytes "PING" := by decide
  have n2 : bytes "KEYS" ≠ bytes "ECHO" := by decide
  have n3 : bytes "KEYS" ≠ bytes "SET" := by decide
  have n4 : bytes "KEYS" ≠ bytes "GET" := by decide
  have n5 : bytes "KEYS" ≠ bytes "CONFIG" := by decide
  simp only [handleCommand, h, n1, n2, n3, n4, n5, if_false, if_true]

theorem handleCommand_PSYNC (config_ : Config) (d : Store) (now : Int) (c0 : Bytes)
    (args : List Bytes) (h : c0.map toupper = bytes "PSYNC") :
    handleCommand config_ d now (c0 :: args) = (handlePsync args, d) := by
  have n1 : bytes "PSYNC" ≠ bytes "PING" := by decide
  have n2 : bytes "PSYNC" ≠ bytes "ECHO" := by decide
  have n3 : bytes "PSYNC" ≠ bytes "SET" := by decide
  have n4 : bytes "PSYNC" ≠ bytes "GET" := by decide
  have n5 : bytes "PSYNC" ≠ bytes "CONFIG" := by decide
  have n6 : bytes "PSYNC" ≠ bytes "KEYS" := by decide
  have n7 : bytes "PSYNC" ≠ bytes "INFO" := by decide
  have n8 : bytes "PSYNC" ≠ bytes "REPLCONF" := by decide
  simp only [handleCommand, h, n1, n2, n3, n4, n5, n6, n7, n8, if_false, if_true]

/-- C16: `handleCommand` returns a reply and a store for every request (the one
conversion that can throw is caught inside `handleSet`), and the malformed requests get
an error reply with the store as it is: the empty request; `ECHO`, `GET` and `KEYS`
without an argument; `SET` and `CONFIG` with fewer than two arguments; `PSYNC` with a
number of arguments other than two. The names are matched whatever their letter case. -/
theorem malformed_request (config_ : Config) (d : Store) (now : Int) :
    handleCommand config_ d now [] = (bytes "-ERR empty command\r\n", d) ∧
    (∀ c0, c0.map toupper = bytes "ECHO" → handleCommand config_ d now [c0] =
      (bytes "-ERR wrong number of arguments for 'echo' command\r\n", d)) ∧
    (∀ c0, c0.map toupper = bytes "GET" → handleCommand config_ d now [c0] =
      (bytes "-ERR wrong number of arguments for 'get' command\r\n", d)) ∧
    (∀ c0, c0.map toupper = bytes "KEYS" → handleCommand config_ d now [c0] =
      (bytes "-ERR wrong number of arguments for 'keys' command\r\n", d)) ∧
    (∀ c0 args, c0.map toupper = bytes "SET" → args.length < 2 →
      handleCommand config_ d now (c0 :: args) =
        (bytes "-ERR wrong number of arguments for 'set' command\r\n", d)) ∧
    (∀ c0 args, c0.map toupper = bytes "CONFIG" → args.length < 2 →
      handleCommand config_ d now (c0 :: args) =
        (bytes "-ERR wrong number of arguments for 'config' command\r\n", d)) ∧
    (∀ c0 args, c0.map toupper = bytes "PSYNC" → args.length ≠ 2 →
      handleCommand config_ d now (c0 :: args) =
        (bytes "-ERR wrong number of arguments for 'psync' command\r\n", d)) := by
  refine ⟨rfl, ?_, ?_, ?_, ?_, ?_, ?_⟩
  · intro c0 h
    rw [handleCommand_ECHO _ _ _ _ _ h]; rfl
  · intro c0 h
    rw [handleCommand_get _ _ _ _ _ h]; rfl
  · intro c0 h
    rw [handleCommand_KEYS _ _ _ _ _ h]; rfl
  · intro c0 args h hlen
    rw [handleCommand_set _ _ _ _ _ h]
    match args, hlen with
    | [], _ => rfl
    | [_], _ => rfl
    | _ :: _ :: _, hlen => exact absurd hlen (by simp)
  · intro c0 args h hlen
    rw [handleCommand_CONFIG _ _ _ _ _ h]
    match args, hlen with
    | [], _ => rfl
    | [_], _ => rfl
    | _ :: _ :: _, hlen => exact absurd hlen (by simp)
  · intro c0 args h hlen
    rw [handleCommand_PSYNC _ _ _ _ _ h]
    simp only [handlePsync, hlen, ne_eq, not_false_eq_true, if_true]
    rfl

/-- Two requests of C16: `set k` in lower case and `PSYNC` with three arguments. -/
theorem malformed_request_witness :
    handleCommand ⟨[], [], false⟩ [] 0 (bytes "set" :: [bytes "k"]) =
        (bytes "-ERR wrong number of arguments for 'set' command\r\n", []) ∧
      handleCommand ⟨[], [], false⟩ [] 0 (bytes "PSYNC" :: [bytes "?", bytes "-1", bytes "x"]) =
        (bytes "-ERR wrong number of arguments for 'psync' command\r\n", []) :=
  ⟨(malformed_request ⟨[], [], false⟩ [] 0).2.2.2.2.1 (bytes "set") [bytes "k"] (by decide)
      (by decide),
    (malformed_request ⟨[], [], false⟩ [] 0).2.2.2.2.2.2 (bytes "PSYNC")
      [bytes "?", bytes "-1", bytes "x"] (by decide) (by decide)⟩

end CommandHandler

/-! ## The server: start-up -/

namespace RedisServer

/-- C12 (code at the failing input): the snapshot file holds the key `k`, so
`loadRDBFile` would put it into the store, but `run` never calls `loadRDBFile`: the
serving loop starts on the empty store of the constructor and the first request,
`GET k`, is answered with the null reply. -/
theorem run_without_snapshot :
    loadRDBFile 3 (.contents (dump (bytes "REDIS0011") (bytes "k") (bytes "v")
        [1, 2, 3, 4, 5, 6, 7, 8])) [] 1700000000000 0 =
      .ok (true, [(bytes "k", ⟨bytes "v", 0, false⟩)]) ∧
    (run ⟨bytes ".", bytes "dump.rdb", false⟩ 6379
        ⟨true, false, [], [.connection (some 5),
          .readable 5 7 (RESPParser.encodeArray [bytes "GET", bytes "k"])]⟩).serving = true ∧
    (run ⟨bytes ".", bytes "dump.rdb", false⟩ 6379
        ⟨true, false, [], [.connection (some 5),
          .readable 5 7 (RESPParser.encodeArray [bytes "GET", bytes "k"])]⟩).final =
      .ok ⟨[], [5], [(5, bytes "$-1\r\n")]⟩ := by
  decide

end RedisServer

/-! ## The dispatcher: replies of KEYS, CONFIG, PSYNC and letter case -/

namespace CommandHandler

open RESPParser

/-- C21: `KEYS *` replies the array of exactly the keys whose entry has no expiry or an
expiry after `now`, each once, and leaves the swept map; `KEYS p` for any other `p`
replies `-ERR pattern not supported` and leaves the map as it is. -/
theorem keys_reply (config_ : Config) (d : Store) (hwf : Storage.WF d) (now : Int) :
    (∃ keys, handleCommand config_ d now [bytes "KEYS", bytes "*"] =
        (encodeArray keys, (Storage.getAllKeys now d).2) ∧
      keys.Nodup ∧
      (∀ k, k ∈ keys ↔
        ∃ e, Storage.find k d = some e ∧ (e.hasExpiry = false ∨ e.expiryTime > now))) ∧
    (∀ p, p ≠ bytes "*" →
      handleCommand config_ d now [bytes "KEYS", p] =
        (bytes "-ERR pattern not supported\r\n", d)) := by
  constructor
  · refine ⟨(Storage.getAllKeys now d).1, ?_, (Storage.getAllKeys_spec d hwf now).2.1,
      (Storage.getAllKeys_spec d hwf now).1⟩
    rw [handleCommand_KEYS _ _ _ _ _ (by decide)]
    simp only [handleKeys, ne_eq, not_true_eq_false, if_false]
  · intro p hp
    rw [handleCommand_KEYS _ _ _ _ _ (by decide)]
    simp only [handleKeys, ne_eq, hp, not_false_eq_true, if_true]
    rfl

/-- The two requests of C21 on a map with one live and one expired key. -/
theorem keys_reply_witness :
    Storage.WF [(bytes "a", ⟨bytes "1", 15, true⟩), (bytes "b", ⟨bytes "2", 0, false⟩)] ∧
      handleCommand ⟨[], [], false⟩
          [(bytes "a", ⟨bytes "1", 15, true⟩), (bytes "b", ⟨bytes "2", 0, false⟩)] 20
          [bytes "KEYS", bytes "b*"] =
        (bytes "-ERR pattern not supported\r\n",
          [(bytes "a", ⟨bytes "1", 15, true⟩), (bytes "b", ⟨bytes "2", 0, false⟩)]) :=
  ⟨by decide,
    (keys_reply ⟨[], [], false⟩
      [(bytes "a", ⟨bytes "1", 15, true⟩), (bytes "b", ⟨bytes "2", 0, false⟩)] (by decide) 20).2
      (bytes "b*") (by decide)⟩

/-- C22: `CONFIG GET p` replies the two-element array of the lowercased name and the
configured value when `p` lowercased is `dir` or `dbfilename`, and the empty array for
every other `p`; arguments behind `p` are ignored and the store stays as it is. -/
theorem config_get_reply (config_ : Config) (d : Store) (now : Int) (p : Bytes)
    (rest : List Bytes) :
    (p.map tolower = bytes "dir" →
      handleCommand config_ d now (bytes "CONFIG" :: bytes "GET" :: p :: rest) =
        (encodeArray [bytes "dir", config_.getDir], d)) ∧
    (p.map tolower = bytes "dbfilename" →
      handleCommand config_ d now (bytes "CONFIG" :: bytes "GET" :: p :: rest) =
        (encodeArray [bytes "dbfilename", config_.getDbFilename], d)) ∧
    (p.map tolower ≠ bytes "dir" → p.map tolower ≠ bytes "dbfilename" →
      handleCommand config_ d now (bytes "CONFIG" :: bytes "GET" :: p :: rest) =
        (bytes "*0\r\n", d)) := by
  have e : (bytes "GET").map toupper = bytes "GET" := by decide
  refine ⟨?_, ?_, ?_⟩
  · intro h
    rw [handleCommand_CONFIG _ _ _ _ _ (by decide)]
    simp only [handleConfig, e, h, if_true]
  · intro h
    have n : bytes "dbfilename" ≠ bytes "dir" := by decide
    rw [handleCommand_CONFIG _ _ _ _ _ (by decide)]
    simp only [handleConfig, e, h, n, if_true, if_false]
  · intro h1 h2
    rw [handleCommand_CONFIG _ _ _ _ _ (by decide)]
    simp only [handleConfig, e, h1, h2, if_true, if_false]
    rfl

/-- The request `CONFIG GET DIR` of C22 with an argument behind it. -/
theorem config_get_reply_witness :
    handleCommand ⟨bytes "/tmp", bytes "dump.rdb", false⟩ [] 0
        (bytes "CONFIG" :: bytes "GET" :: bytes "DIR" :: [bytes "x"]) =
      (encodeArray [bytes "dir", bytes "/tmp"], []) :=
  (config_get_reply ⟨bytes "/tmp", bytes "dump.rdb", false⟩ [] 0 (bytes "DIR") [bytes "x"]).1
    (by decide)

/-- The hexadecimal digits in either letter case. -/
theorem isHex_replId :
    ∀ c ∈ bytes "8371b4fb1155b71f4a04d3e1bc3e18c4a990aeeb",
      isDigit c = true ∨ (97 ≤ c ∧ c ≤ 102) ∨ (65 ≤ c ∧ c ≤ 70) := by
  decide

/-- C23: `PSYNC a b` replies the simple string `FULLRESYNC <id> 0` whatever `a` and `b`
are, where `<id>` is `8371b4fb1155b71f4a04d3e1bc3e18c4a990aeeb`: 40 characters, all of
them hexadecimal digits, and the id that `INFO replication` of a primary reports behind
`master_replid:`. -/
theorem psync_reply (config_ : Config) (d : Store) (now : Int) (a b : Bytes) :
    handleCommand config_ d now [bytes "PSYNC", a, b] =
      (bytes "+FULLRESYNC " ++ bytes "8371b4fb1155b71f4a04d3e1bc3e18c4a990aeeb" ++ bytes " 0\r\n",
        d) ∧
    (bytes "8371b4fb1155b71f4a04d3e1bc3e18c4a990aeeb").length = 40 ∧
    (∀ c ∈ bytes "8371b4fb1155b71f4a04d3e1bc3e18c4a990aeeb",
      isDigit c = true ∨ (97 ≤ c ∧ c ≤ 102) ∨ (65 ≤ c ∧ c ≤ 70)) ∧
    (config_.isReplica = false →
      handleCommand config_ d now [bytes "INFO", bytes "replication"] =
        (encodeBulkString (bytes "role:master\r\nmaster_replid:" ++
          bytes "8371b4fb1155b71f4a04d3e1bc3e18c4a990aeeb" ++ bytes "\r\nmaster_repl_offset:0"),
          d)) := by
  refine ⟨?_, by decide, isHex_replId, ?_⟩
  · rw [handleCommand_PSYNC _ _ _ _ _ (by decide)]
    rfl
  · intro h
    have e : (bytes "INFO").map toupper = bytes "INFO" := by decide
    have n1 : bytes "INFO" ≠ bytes "PING" := by decide
    have n2 : bytes "INFO" ≠ bytes "ECHO" := by decide
    have n3 : bytes "INFO" ≠ bytes "SET" := by decide
    have n4 : bytes "INFO" ≠ bytes "GET" := by decide
    have n5 : bytes "INFO" ≠ bytes "CONFIG" := by decide
    have n6 : bytes "INFO" ≠ bytes "KEYS" := by decide
    have e2 : (bytes "replication").map tolower = bytes "replication" := by decide
    simp only [handleCommand, e, n1, n2, n3, n4, n5, n6, if_false, if_true, handleInfo, e2, h,
      Bool.not_false, Bool.false_eq_true]
    rfl

/-- The request `PSYNC ? -1` of C23 and the report of a primary. -/
theorem psync_reply_witness :
    handleCommand ⟨[], [], false⟩ [] 0 [bytes "PSYNC", bytes "?", bytes "-1"] =
        (bytes "+FULLRESYNC 8371b4fb1155b71f4a04d3e1bc3e18c4a990aeeb 0\r\n", []) ∧
      handleCommand ⟨[], [], false⟩ [] 0 [bytes "INFO", bytes "replication"] =
        (encodeBulkString (bytes "role:master\r\nmaster_replid:" ++
          bytes "8371b4fb1155b71f4a04d3e1bc3e18c4a990aeeb" ++ bytes "\r\nmaster_repl_offset:0"),
          []) :=
  ⟨(psync_reply ⟨[], [], false⟩ [] 0 (bytes "?") (bytes "-1")).1.trans (by decide),
    (psync_reply ⟨[], [], false⟩ [] 0 (bytes "?") (bytes "-1")).2.2.2 rfl⟩

theorem toupper_toupper (c : Nat) : toupper (toupper c) = toupper c := by
  unfold toupper
  by_cases h : 97 ≤ c ∧ c ≤ 122
  · have h2 : ¬ (97 ≤ c - 32 ∧ c - 32 ≤ 122) := by omega
    simp only [h, and_self, if_true, h2, if_false]
  · simp only [h, if_false]

theorem map_toupper_toupper (s : Bytes) : (s.map toupper).map toupper = s.map toupper := by
  rw [List.map_map]
  apply List.map_congr_left
  intro c _
  exact toupper_toupper c

/-- Two chains of nine tests on the same value that differ in the last alternative
only are equal when one of the tests holds. -/
theorem ite_chain {α : Type} (c n1 n2 n3 n4 n5 n6 n7 n8 n9 : Bytes)
    (a1 a2 a3 a4 a5 a6 a7 a8 a9 e1 e2 : α) (h : c ∈ [n1, n2, n3, n4, n5, n6, n7, n8, n9]) :
    (if c = n1 then a1 else if c = n2 then a2 else if c = n3 then a3 else if c = n4 then a4
      else if c = n5 then a5 else if c = n6 then a6 else if c = n7 then a7
      else if c = n8 then a8 else if c = n9 then a9 else e1) =
    (if c = n1 then a1 else if c = n2 then a2 else if c = n3 then a3 else if c = n4 then a4
      else if c = n5 then a5 else if c = n6 then a6 else if c = n7 then a7
      else if c = n8 then a8 else if c = n9 then a9 else e2) := by
  by_cases h1 : c = n1
  · simp only [h1, if_true]
  by_cases h2 : c = n2
  · simp only [h1, h2, if_true, if_false]
  by_cases h3 : c = n3
  · simp only [h1, h2, h3, if_true, if_false]
  by_cases h4 : c = n4
  · simp only [h1, h2, h3, h4, if_true, if_false]
  by_cases h5 : c = n5
  · simp only [h1, h2, h3, h4, h5, if_true, if_false]
  by_cases h6 : c = n6
  · simp only [h1, h2, h3, h4, h5, h6, if_true, if_false]
  by_cases h7 : c = n7
  · simp only [h1, h2, h3, h4, h5, h6, h7, if_true, if_false]
  by_cases h8 : c = n8
  · simp only [h1, h2, h3, h4, h5, h6, h7, h8, if_true, if_false]
  by_cases h9 : c = n9
  · simp only [h1, h2, h3, h4, h5, h6, h7, h8, h9, if_true, if_false]
  exfalso
  simp only [List.mem_cons, List.mem_singleton, h1, h2, h3, h4, h5, h6, h7, h8, h9, false_or,
    List.not_mem_nil] at h

/-- C24: a request whose name uppercases to one of the nine command names gets the
reply and the store of the request with the uppercased name; the option `PX` of `SET`,
the subcommand `GET` of `CONFIG` and the section `replication` of `INFO` are matched
whatever their letter case. -/
theorem case_insensitive (config_ : Config) (d : Store) (now : Int) :
    (∀ c0 args,
      c0.map toupper ∈ [bytes "PING", bytes "ECHO", bytes "SET", bytes "GET", bytes "CONFIG",
        bytes "KEYS", bytes "INFO", bytes "REPLCONF", bytes "PSYNC"] →
      handleCommand config_ d now (c0 :: args) =
        handleCommand config_ d now (c0.map toupper :: args)) ∧
    (∀ k v option t rest, option.map toupper = bytes "PX" →
      handleCommand config_ d now (bytes "SET" :: k :: v :: option :: t :: rest) =
        handleCommand config_ d now (bytes "SET" :: k :: v :: bytes "PX" :: t :: rest)) ∧
    (∀ subcmd rest, subcmd.map toupper = bytes "GET" →
      handleCommand config_ d now (bytes "CONFIG" :: subcmd :: rest) =
        handleCommand config_ d now (bytes "CONFIG" :: bytes "GET" :: rest)) ∧
    (∀ sect rest, sect.map tolower = bytes "replication" →
      handleCommand config_ d now (bytes "INFO" :: sect :: rest) =
        handleCommand config_ d now (bytes "INFO" :: bytes "replication" :: rest)) := by
  refine ⟨?_, ?_, ?_, ?_⟩
  · intro c0 args h
    simp only [handleCommand, map_toupper_toupper]
    exact ite_chain _ _ _ _ _ _ _ _ _ _ _ _ _ _ _ _ _ _ _ _ _ h
  · intro k v option t rest h
    rw [handleCommand_SET_PX _ _ _ _ _ _ _ _ h, handleCommand_SET_PX _ _ _ _ _ _ _ _ (by decide)]
  · intro subcmd rest h
    have e : (bytes "GET").map toupper = bytes "GET" := by decide
    rw [handleCommand_CONFIG _ _ _ _ _ (by decide), handleCommand_CONFIG _ _ _ _ _ (by decide)]
    cases rest with
    | nil => rfl
    | cons a1 tl => simp only [handleConfig, h, e]
  · intro sect rest h
    have e : (bytes "INFO").map toupper = bytes "INFO" := by decide
    have e2 : (bytes "replication").map tolower = bytes "replication" := by decide
    have n1 : bytes "INFO" ≠ bytes "PING" := by decide
    have n2 : bytes "INFO" ≠ bytes "ECHO" := by decide
    have n3 : bytes "INFO" ≠ bytes "SET" := by decide
    have n4 : bytes "INFO" ≠ bytes "GET" := by decide
    have n5 : bytes "INFO" ≠ bytes "CONFIG" := by decide
    have n6 : bytes "INFO" ≠ bytes "KEYS" := by decide
    simp only [handleCommand, e, n1, n2, n3, n4, n5, n6, if_false, if_true, handleInfo, h, e2]

/-- Requests of C24 in mixed letter case. -/
theorem case_insensitive_witness :
    handleCommand ⟨[], [], false⟩ [] 0 (bytes "eChO" :: [bytes "hi"]) =
        handleCommand ⟨[], [], false⟩ [] 0 ((bytes "eChO").map toupper :: [bytes "hi"]) ∧
      handleCommand ⟨[], [], false⟩ [] 0 (bytes "INFO" :: bytes "RePlIcAtIoN" :: []) =
        handleCommand ⟨[], [], false⟩ [] 0 (bytes "INFO" :: bytes "replication" :: []) :=
  ⟨(case_insensitive ⟨[], [], false⟩ [] 0).1 (bytes "eChO") [bytes "hi"] (by decide),
    (case_insensitive ⟨[], [], false⟩ [] 0).2.2.2 (bytes "RePlIcAtIoN") [] (by decide)⟩

end CommandHandler

/-! ## The codec: declared and actual lengths -/

namespace RESPParser

/-- One pass of the element loop of `parseArray` over a header line that declares the
length `L ≥ 0` and a payload line: the first `L` bytes of the payload line without its
trailing CR are pushed and the loop goes on behind the payload line. -/
theorem parseElements_element (n : Nat) (hdr payload rest : Bytes) (acc : List Bytes)
    (L : Int) (hhead : hdr.head? = some 36) (hhdr : ∀ b ∈ hdr, b ≠ LF)
    (hpl : ∀ b ∈ payload, b ≠ LF) (hL : stoll ((popCR hdr).drop 1) = .ok L) (hpos : 0 ≤ L) :
    parseElements (n + 1) (hdr ++ LF :: (payload ++ LF :: rest)) acc =
        parseElements n rest (acc ++ [(popCR payload).take L.toNat]) := by
  have hne : hdr ≠ [] := by
    intro h; rw [h] at hhead; cases hhead
  have hnl : ¬ L < 0 := not_lt.mpr hpos
  have hfin : (if (popCR payload).length ≠ L.toNat then (popCR payload).take L.toNat
      else popCR payload) = (popCR payload).take L.toNat := by
    by_cases h : (popCR payload).length = L.toNat
    · simp only [h, ne_eq, not_true_eq_false, if_false]
      exact (List.take_of_length_le (le_of_eq h)).symm
    · simp only [ne_eq, h, not_false_eq_true, if_true]
  conv_lhs => unfold parseElements
  rw [getline_line _ _ hhdr]
  simp only [hne, hhead, ne_eq, not_true_eq_false, or_self, if_false, hL, hnl,
    getline_line _ _ hpl, hfin]

/-- The element loop only ever appends to the elements pushed so far. -/
theorem parseElements_prefix (n : Nat) :
    ∀ (iss : Bytes) (acc res : List Bytes), parseElements n iss acc = .ok res → acc <+: res := by
  induction n with
  | zero =>
    intro iss acc res h
    simp only [parseElements, Except.ok.injEq] at h
    rw [h]
  | succ n ih =>
    intro iss acc res h
    unfold parseElements at h
    cases hg : getline iss with
    | none =>
      simp only [hg, Except.ok.injEq] at h
      rw [h]
    | some p =>
      obtain ⟨line, iss1⟩ := p
      simp only [hg] at h
      by_cases hc : line = [] ∨ line.head? ≠ some 36
      · simp only [hc, if_true, Except.ok.injEq] at h
        rw [h]
      · simp only [hc, if_false] at h
        cases hs : stoll ((popCR line).drop 1) with
        | error e => simp only [hs, reduceCtorEq] at h
        | ok L =>
          simp only [hs] at h
          by_cases hneg : L < 0
          · simp only [hneg, if_true, Except.ok.injEq] at h
            rw [h]
          · simp only [hneg, if_false] at h
            cases hg2 : getline iss1 with
            | none =>
              simp only [hg2, Except.ok.injEq] at h
              rw [h]
            | some q =>
              obtain ⟨line2, iss2⟩ := q
              simp only [hg2] at h
              exact (List.prefix_append acc _).trans (ih _ _ _ h)

theorem declaredElement_eq (e : Bytes × Nat × Bytes) :
    declaredElement e = (popCR e.2.2).take e.2.1 := by
  unfold declaredElement
  rcases Nat.le_total e.2.1 (popCR e.2.2).length with h | h
  · rw [Nat.min_eq_left h]
  · rw [Nat.min_eq_right h, List.take_length, List.take_of_length_le h]

/-- The element loop over a run of elements whose header lines declare lengths: the
expected elements are pushed in order and the loop goes on behind them. -/
theorem parseElements_elementLines (els : List (Bytes × Nat × Bytes)) (m : Nat) (rest : Bytes)
    (hels : ∀ e ∈ els, e.1.head? = some 36 ∧ (∀ b ∈ e.1, b ≠ LF) ∧
      stoll ((popCR e.1).drop 1) = .ok (e.2.1 : Int) ∧ ∀ b ∈ e.2.2, b ≠ LF)
    (acc : List Bytes) :
    parseElements (els.length + m) (elementLines els ++ rest) acc =
      parseElements m rest (acc ++ els.map declaredElement) := by
  induction els generalizing acc with
  | nil => simp [elementLines]
  | cons e els ih =>
    obtain ⟨h1, h2, h3, h4⟩ := hels e (by simp)
    have ih2 := ih (fun e he => hels e (by simp [he])) (acc ++ [declaredElement e])
    have hl : (e :: els).length + m = (els.length + m) + 1 := by
      simp only [List.length_cons]; omega
    have hw : elementLines (e :: els) ++ rest =
        e.1 ++ LF :: (e.2.2 ++ LF :: (elementLines els ++ rest)) := by
      simp [elementLines]
    rw [hl, hw, parseElements_element _ _ _ _ _ (e.2.1 : Int) h1 h2 h4 h3 (Int.natCast_nonneg _),
      Int.toNat_ofNat, ← declaredElement_eq, ih2, List.map_cons, List.append_assoc,
      List.singleton_append]

/-- The first line of a request that starts with `*` and is ended by LF. -/
theorem parseArray_line (h0 rest : Bytes) (hhead : h0.head? = some 42)
    (hh0 : ∀ b ∈ h0, b ≠ LF) :
    parseArray (h0 ++ LF :: rest) =
      match stoi ((popCR h0).drop 1) with
      | .error e => .error e
      | .ok numElements => parseElements numElements.toNat rest [] := by
  have hne : h0 ≠ [] := by
    intro h; rw [h] at hhead; cases hhead
  unfold parseArray
  rw [getline_line _ _ hh0]
  simp only [hne, hhead, ne_eq, not_true_eq_false, or_self, if_false]

/-- C26: a request whose first line declares `els.length + m` elements and goes on with
the elements `els`, each with a header line that declares a length `L ≥ 0` and a payload
line of `P` bytes (up to the next LF, one trailing CR removed), followed by any bytes
`rest`. Every one of these elements is decoded to the first `min L P` bytes of its
payload line and decoding goes on with the next header: when `els` are all the declared
elements `parseArray` returns exactly these elements, in order, and whatever follows
them, a list that `parseArray` returns begins with them. A payload longer than declared
is cut to exactly `L` bytes, a payload not longer than declared is returned whole. -/
theorem parseArray_declared (h0 : Bytes) (els : List (Bytes × Nat × Bytes)) (m : Nat)
    (rest : Bytes) (hhead : h0.head? = some 42) (hh0 : ∀ b ∈ h0, b ≠ LF)
    (hcount : stoi ((popCR h0).drop 1) = .ok ((els.length + m : Nat) : Int))
    (hels : ∀ e ∈ els, e.1.head? = some 36 ∧ (∀ b ∈ e.1, b ≠ LF) ∧
      stoll ((popCR e.1).drop 1) = .ok (e.2.1 : Int) ∧ ∀ b ∈ e.2.2, b ≠ LF) :
    (m = 0 → parseArray (h0 ++ LF :: (elementLines els ++ rest)) =
        .ok (els.map declaredElement)) ∧
    (∀ res, parseArray (h0 ++ LF :: (elementLines els ++ rest)) = .ok res →
        els.map declaredElement <+: res) ∧
    (∀ e ∈ els,
      (declaredElement e).length = min e.2.1 (popCR e.2.2).length ∧
      (e.2.1 < (popCR e.2.2).length →
        declaredElement e = (popCR e.2.2).take e.2.1 ∧ (declaredElement e).length = e.2.1) ∧
      ((popCR e.2.2).length ≤ e.2.1 → declaredElement e = popCR e.2.2)) := by
  have hp : parseArray (h0 ++ LF :: (elementLines els ++ rest)) =
      parseElements m rest (els.map declaredElement) := by
    rw [parseArray_line h0 _ hhead hh0, hcount]
    simp only [Int.toNat_ofNat]
    rw [parseElements_elementLines els m rest hels [], List.nil_append]
  refine ⟨?_, ?_, ?_⟩
  · intro hm
    rw [hp, hm]
    rfl
  · intro res hres
    rw [hp] at hres
    exact parseElements_prefix m rest _ res hres
  · intro e _
    refine ⟨?_, ?_, ?_⟩
    · rw [declaredElement_eq, List.length_take]
    · intro hlt
      refine ⟨declaredElement_eq e, ?_⟩
      rw [declaredElement_eq, List.length_take]
      exact Nat.min_eq_left (Nat.le_of_lt hlt)
    · intro hle
      rw [declaredElement_eq]
      exact List.take_of_length_le hle

/-- The two cases of C26 in one request: `$2` before `hello` and `$5` before `ab`. -/
theorem parseArray_declared_witness :
    (bytes "*2\r").head? = some 42 ∧
      bytes "*2\r" ++ LF :: (elementLines [(bytes "$2\r", 2, bytes "hello\r"),
        (bytes "$5\r", 5, bytes "ab\r")] ++ []) = bytes "*2\r\n$2\r\nhello\r\n$5\r\nab\r\n" ∧
      [(bytes "$2\r", 2, bytes "hello\r"), (bytes "$5\r", 5, bytes "ab\r")].map declaredElement
        = [bytes "he", bytes "ab"] ∧
      parseArray (bytes "*2\r\n$2\r\nhello\r\n$5\r\nab\r\n") = .ok [bytes "he", bytes "ab"] ∧
      parseArray (bytes "*2\r" ++ LF :: (elementLines [(bytes "$2\r", 2, bytes "hello\r"),
        (bytes "$5\r", 5, bytes "ab\r")] ++ [])) =
        .ok ([(bytes "$2\r", 2, bytes "hello\r"), (bytes "$5\r", 5, bytes "ab\r")].map
          declaredElement) :=
  ⟨by decide, by decide, by decide, by decide,
    (parseArray_declared (bytes "*2\r")
      [(bytes "$2\r", 2, bytes "hello\r"), (bytes "$5\r", 5, bytes "ab\r")] 0 []
      (by decide) (by decide) (by decide) (by decide)).1 rfl⟩

end RESPParser

/-! ## The server: handshake with the primary -/

namespace RedisServer

open RESPParser

theorem sendRecv_data (r : Bytes) (h : r.length ≤ 256) :
    sendRecv ⟨true, .data r⟩ = if r = [] then some none else some (some r) := by
  simp only [sendRecv, if_true, List.take_of_length_le h]

theorem parseSimpleString_nil (w : Bytes) (hw : w ≠ []) : parseSimpleString [] ≠ w := by
  intro h
  apply hw
  rw [← h]
  rfl

/-- The handshake against a primary given by its replies, each within the 256 bytes of
the receive buffer: what is returned and what was sent. -/
theorem connectToMaster_primary (getPort : Int) (r0 r1 r2 r3 : Bytes) (more : List Bytes)
    (h0 : r0.length ≤ 256) (h1 : r1.length ≤ 256) (h2 : r2.length ≤ 256)
    (h3 : r3.length ≤ 256) :
    connectToMaster getPort true (primary (r0 :: r1 :: r2 :: r3 :: more)) =
      if parseSimpleString r0 ≠ bytes "PONG" then
        (some false, [encodeArray [bytes "PING"]])
      else if parseSimpleString r1 ≠ bytes "OK" then
        (some false, [encodeArray [bytes "PING"],
          encodeArray [bytes "REPLCONF", bytes "listening-port", to_string_int getPort]])
      else if parseSimpleString r2 ≠ bytes "OK" then
        (some false, [encodeArray [bytes "PING"],
          encodeArray [bytes "REPLCONF", bytes "listening-port", to_string_int getPort],
          encodeArray [bytes "REPLCONF", bytes "capa", bytes "psync2"]])
      else
        (some (decide (r3 ≠ [])), [encodeArray [bytes "PING"],
          encodeArray [bytes "REPLCONF", bytes "listening-port", to_string_int getPort],
          encodeArray [bytes "REPLCONF", bytes "capa", bytes "psync2"],
          encodeArray [bytes "PSYNC", bytes "?", bytes "-1"]]) := by
  have p0 := parseSimpleString_nil (bytes "PONG") (by decide)
  have p1 := parseSimpleString_nil (bytes "OK") (by decide)
  simp only [connectToMaster, primary, List.map_cons, List.getD_cons_zero, List.getD_cons_succ,
    if_true, sendRecv_data r0 h0, sendRecv_data r1 h1, sendRecv_data r2 h2, sendRecv_data r3 h3]
  by_cases e0 : r0 = []
  · subst e0
    simp only [if_true, ne_eq, p0, not_false_eq_true]
  · simp only [e0, if_false]
    by_cases a0 : parseSimpleString r0 = bytes "PONG"
    · simp only [a0, ne_eq, not_true_eq_false, if_false]
      by_cases e1 : r1 = []
      · subst e1
        simp only [if_true, ne_eq, p1, not_false_eq_true]
      · simp only [e1, if_false]
        by_cases a1 : parseSimpleString r1 = bytes "OK"
        · simp only [a1, ne_eq, not_true_eq_false, if_false]
          by_cases e2 : r2 = []
          · subst e2
            simp only [if_true, ne_eq, p1, not_false_eq_true]
          · simp only [e2, if_false]
            by_cases a2 : parseSimpleString r2 = bytes "OK"
            · simp only [a2, ne_eq, not_true_eq_false, if_false]
              by_cases e3 : r3 = []
              · subst e3
                simp
              · simp [e3]
            · simp only [ne_eq, a2, not_false_eq_true, if_true]
        · simp only [ne_eq, a1, not_false_eq_true, if_true]
    · simp only [ne_eq, a0, not_false_eq_true, if_true]

theorem run_replica (config_ : Config) (getPort : Int) (w : World)
    (hrep : config_.isReplica = true) (hsock : w.createServerSocket = true) :
    (run config_ getPort w).serving =
        decide ((connectToMaster getPort w.connected w.link).1 = some true) ∧
      (run config_ getPort w).toMaster = (connectToMaster getPort w.connected w.link).2 := by
  unfold run
  simp only [hsock, hrep, if_true]
  rcases hc : connectToMaster getPort w.connected w.link with ⟨res, sent⟩
  cases res with
  | none => simp
  | some b => cases b <;> simp

/-- C25: against a primary given by the replies `r0 r1 r2 r3` it returns (each within the
256 bytes of the receive buffer, the empty reply standing for a failed receive)
`connectToMaster` sends `PING`, `REPLCONF listening-port <port>`, `REPLCONF capa psync2`
and `PSYNC ? -1` in this order, each one only when the reply before it decoded to
`PONG`, `OK`, `OK`, and nothing behind the first reply that does not; it succeeds
exactly when the three replies decode so and `r3` is not empty; and `run` of a replica
enters the serving loop exactly then, having sent the same messages. -/
theorem handshake_spec (config_ : Config) (getPort : Int) (r0 r1 r2 r3 : Bytes)
    (more : List Bytes) (events : List Event) (hrep : config_.isReplica = true)
    (h0 : r0.length ≤ 256) (h1 : r1.length ≤ 256) (h2 : r2.length ≤ 256)
    (h3 : r3.length ≤ 256) :
    connectToMaster getPort true (primary (r0 :: r1 :: r2 :: r3 :: more)) =
      (if parseSimpleString r0 ≠ bytes "PONG" then
        (some false, [encodeArray [bytes "PING"]])
      else if parseSimpleString r1 ≠ bytes "OK" then
        (some false, [encodeArray [bytes "PING"],
          encodeArray [bytes "REPLCONF", bytes "listening-port", to_string_int getPort]])
      else if parseSimpleString r2 ≠ bytes "OK" then
        (some false, [encodeArray [bytes "PING"],
          encodeArray [bytes "REPLCONF", bytes "listening-port", to_string_int getPort],
          encodeArray [bytes "REPLCONF", bytes "capa", bytes "psync2"]])
      else
        (some (decide (r3 ≠ [])), [encodeArray [bytes "PING"],
          encodeArray [bytes "REPLCONF", bytes "listening-port", to_string_int getPort],
          encodeArray [bytes "REPLCONF", bytes "capa", bytes "psync2"],
          encodeArray [bytes "PSYNC", bytes "?", bytes "-1"]])) ∧
    ((connectToMaster getPort true (primary (r0 :: r1 :: r2 :: r3 :: more))).1 = some true ↔
      parseSimpleString r0 = bytes "PONG" ∧ parseSimpleString r1 = bytes "OK" ∧
        parseSimpleString r2 = bytes "OK" ∧ r3 ≠ []) ∧
    ((run config_ getPort ⟨true, true, primary (r0 :: r1 :: r2 :: r3 :: more), events⟩).serving
        = true ↔
      parseSimpleString r0 = bytes "PONG" ∧ parseSimpleString r1 = bytes "OK" ∧
        parseSimpleString r2 = bytes "OK" ∧ r3 ≠ []) ∧
    (run config_ getPort ⟨true, true, primary (r0 :: r1 :: r2 :: r3 :: more), events⟩).toMaster =
      (connectToMaster getPort true (primary (r0 :: r1 :: r2 :: r3 :: more))).2 := by
  have hA := connectToMaster_primary getPort r0 r1 r2 r3 more h0 h1 h2 h3
  have hB : (connectToMaster getPort true (primary (r0 :: r1 :: r2 :: r3 :: more))).1 = some true ↔
      parseSimpleString r0 = bytes "PONG" ∧ parseSimpleString r1 = bytes "OK" ∧
        parseSimpleString r2 = bytes "OK" ∧ r3 ≠ [] := by
    rw [hA]
    by_cases a0 : parseSimpleString r0 = bytes "PONG"
    · by_cases a1 : parseSimpleString r1 = bytes "OK"
      · by_cases a2 : parseSimpleString r2 = bytes "OK"
        · by_cases e3 : r3 = [] <;> simp [a0, a1, a2, e3]
        · simp [a0, a1, a2]
      · simp [a0, a1]
    · simp [a0]
  have hR := run_replica config_ getPort
    ⟨true, true, primary (r0 :: r1 :: r2 :: r3 :: more), events⟩ hrep rfl
  refine ⟨hA, hB, ?_, hR.2⟩
  rw [hR.1, decide_eq_true_iff]
  exact hB

/-- Two primaries of C25: one that answers as expected, one whose second reply is an
error. -/
theorem handshake_spec_witness :
    (connectToMaster 6380 true
        (primary [bytes "+PONG\r\n", bytes "+OK\r\n", bytes "+OK\r\n", bytes "+FULLRESYNC x 0\r\n"])).1
        = some true ∧
      connectToMaster 6380 true
        (primary [bytes "+PONG\r\n", bytes "-ERR\r\n", bytes "+OK\r\n", bytes "+OK\r\n"]) =
        (some false, [encodeArray [bytes "PING"],
          encodeArray [bytes "REPLCONF", bytes "listening-port", bytes "6380"]]) :=
  ⟨(handshake_spec ⟨[], [], true⟩ 6380 (bytes "+PONG\r\n") (bytes "+OK\r\n") (bytes "+OK\r\n")
      (bytes "+FULLRESYNC x 0\r\n") [] [] rfl (by decide) (by decide) (by decide)
      (by decide)).2.1.mpr (by decide),
    (handshake_spec ⟨[], [], true⟩ 6380 (bytes "+PONG\r\n") (bytes "-ERR\r\n") (bytes "+OK\r\n")
      (bytes "+OK\r\n") [] [] rfl (by decide) (by decide) (by decide)
      (by decide)).1.trans (by decide)⟩

end RedisServer

/-! ## The store: lazy eviction against an eager sweep -/

namespace Storage

theorem liveAt_liveAt (t τ : Int) (h : t ≤ τ) (o : Option ValueWithExpiry) :
    liveAt t (liveAt τ o) = liveAt τ o := by
  cases o with
  | none => rfl
  | some e =>
    by_cases hx : expired τ e
    · simp only [liveAt, hx, if_true]
    · have hx2 : ¬ expired t e := fun h2 => hx (expired_mono t τ e h h2)
      simp only [liveAt, hx, if_false, hx2]

theorem liveAt_comm (t τ : Int) (h : t ≤ τ) (o : Option ValueWithExpiry) :
    liveAt τ (liveAt t o) = liveAt τ o := by
  cases o with
  | none => rfl
  | some e =>
    by_cases hx : expired t e
    · have hx2 : expired τ e := expired_mono t τ e h hx
      simp only [liveAt, hx, if_true, hx2]
    · simp only [liveAt, hx, if_false]

theorem liveAt_mono (t τ : Int) (h : t ≤ τ) (a b : Option ValueWithExpiry)
    (hab : liveAt t a = liveAt t b) : liveAt τ a = liveAt τ b := by
  rw [← liveAt_comm t τ h a, ← liveAt_comm t τ h b, hab]

theorem find_getAllKeys_liveAt (now : Int) (k : Bytes) (d : Store) (hwf : WF d) :
    find k (getAllKeys now d).2 = liveAt now (find k d) := by
  rw [find_getAllKeys now k d hwf]
  cases find k d <;> rfl

theorem find_get (d : Store) (hwf : WF d) (now : Int) (key k : Bytes) :
    find k (get d now key).2 = if k = key then liveAt now (find key d) else find k d := by
  unfold get
  cases hf : find key d with
  | none =>
    by_cases hk : k = key
    · subst hk; simp only [hf, if_true, liveAt]
    · simp only [hk, if_false]
  | some e =>
    by_cases hx : e.hasExpiry = true ∧ now ≥ e.expiryTime
    · have hx2 : expired now e := hx
      simp only [hx, and_self, if_true]
      by_cases hk : k = key
      · subst hk
        simp only [find_erase_same k d hwf, if_true, liveAt, hx2]
      · simp only [find_erase_ne _ _ _ hk, hk, if_false]
    · have hx2 : ¬ expired now e := hx
      simp only [hx, if_false]
      by_cases hk : k = key
      · subst hk; simp only [hf, if_true, liveAt, hx2, if_false]
      · simp only [hk, if_false]

theorem get_fst_liveAt (d : Store) (now : Int) (key : Bytes) :
    (get d now key).1 = (liveAt now (find key d)).map (fun e => e.value) := by
  rw [get_fst]
  cases find key d with
  | none => rfl
  | some e =>
    by_cases hx : expired now e
    · simp only [hx, if_true, liveAt, Option.map_none']
    · simp only [hx, if_false, liveAt, Option.map_some']

theorem mem_getAllKeys_liveAt (now : Int) (k : Bytes) (d : Store) (hwf : WF d) :
    k ∈ (getAllKeys now d).1 ↔ liveAt now (find k d) ≠ none := by
  rw [mem_getAllKeys now k d hwf]
  cases find k d with
  | none => simp [liveAt]
  | some e =>
    by_cases hx : expired now e
    · simp [liveAt, hx]
    · simp [liveAt, hx]

theorem find_assign (key k : Bytes) (entry : ValueWithExpiry) (d : Store) :
    find k (assign key entry d) = if k = key then some entry else find k d := by
  by_cases hk : k = key
  · subst hk; simp only [find_assign_same, if_true]
  · simp only [find_assign_ne _ _ _ _ hk, hk, if_false]

/-- One call at a time `τ ≥ t` on two maps that reads from `t` on do not tell apart:
the same result, and again two such maps. -/
theorem Sim_step (t τ : Int) (h : t ≤ τ) (a b : Store) (hs : Sim t a b) (c : Call) :
    Ret.same (step a τ c).1 (step b τ c).1 ∧ Sim t (step a τ c).2 (step b τ c).2 := by
  obtain ⟨hwa, hwb, hfind⟩ := hs
  cases c with
  | set key value =>
    refine ⟨trivial, WF_assign _ _ _ hwa, WF_assign _ _ _ hwb, ?_⟩
    intro k
    simp only [step, set, find_assign]
    by_cases hk : k = key
    · simp only [hk, if_true]
    · simp only [hk, if_false, hfind k]
  | setWithExpiry key value expiryMs =>
    refine ⟨trivial, WF_assign _ _ _ hwa, WF_assign _ _ _ hwb, ?_⟩
    intro k
    simp only [step, setWithExpiry, find_assign]
    by_cases hk : k = key
    · simp only [hk, if_true]
    · simp only [hk, if_false, hfind k]
  | get key =>
    have hkey := liveAt_mono t τ h _ _ (hfind key)
    refine ⟨?_, WF_get a τ key hwa, WF_get b τ key hwb, ?_⟩
    · simp only [step, Ret.same, get_fst_liveAt, hkey]
    · intro k
      simp only [step, find_get a hwa, find_get b hwb]
      by_cases hk : k = key
      · simp only [hk, if_true, liveAt_liveAt t τ h, hkey]
      · simp only [hk, if_false, hfind k]
  | getAllKeys =>
    refine ⟨?_, WF_getAllKeys τ a hwa, WF_getAllKeys τ b hwb, ?_⟩
    · simp only [step, Ret.same]
      intro k
      rw [mem_getAllKeys_liveAt τ k a hwa, mem_getAllKeys_liveAt τ k b hwb,
        liveAt_mono t τ h _ _ (hfind k)]
    · intro k
      simp only [step, find_getAllKeys_liveAt τ k a hwa, find_getAllKeys_liveAt τ k b hwb,
        liveAt_liveAt t τ h, liveAt_mono t τ h _ _ (hfind k)]

theorem Sim_run (t : Int) (calls : List (Int × Call)) :
    ∀ a b : Store, Sim t a b → (∀ tc ∈ calls, t ≤ tc.1) →
      List.Forall₂ Ret.same (run a calls).1 (run b calls).1 := by
  induction calls with
  | nil => intro a b _ _; exact List.Forall₂.nil
  | cons tc rest ih =>
    intro a b hs ht
    obtain ⟨τ, c⟩ := tc
    have hstep := Sim_step t τ (ht (τ, c) (by simp)) a b hs c
    exact List.Forall₂.cons hstep.1 (ih _ _ hstep.2 (fun tc htc => ht tc (by simp [htc])))

theorem sweep_eq (t : Int) (d : Store) : sweep t d = (getAllKeys t d).2 := by
  rw [getAllKeys_snd]
  unfold sweep
  apply List.filter_congr
  intro p _
  unfold expired
  by_cases h1 : p.2.hasExpiry = true
  · by_cases h2 : p.2.expiryTime ≤ t
    · simp [h1, h2]
    · simp [h1, h2]
  · simp [h1]

theorem Sim_sweep (t : Int) (d : Store) (hwf : WF d) : Sim t d (sweep t d) := by
  rw [sweep_eq]
  refine ⟨hwf, WF_getAllKeys t d hwf, ?_⟩
  intro k
  rw [find_getAllKeys_liveAt t k d hwf, liveAt_liveAt t t (le_refl t)]

/-- C27: for every map `S` and time `t`, every sequence of `set` / `setWithExpiry` /
`get` / `getAllKeys` calls at non-decreasing times from `t` on returns the same results,
lists of keys compared as sets, when started from `S` as when started from `S` without
the entries whose expiry is at or before `t`. -/
theorem lazy_eq_eager (S : Store) (hwf : WF S) (t : Int) (calls : List (Int × Call))
    (hmono : (t :: calls.map Prod.fst).Sorted (fun a b => a ≤ b)) :
    List.Forall₂ Ret.same (run S calls).1 (run (sweep t S) calls).1 := by
  apply Sim_run t calls S (sweep t S) (Sim_sweep t S hwf)
  intro tc htc
  have h1 : ∀ b ∈ calls.map Prod.fst, t ≤ b := (List.sorted_cons.mp hmono).1
  exact h1 tc.1 (List.mem_map_of_mem Prod.fst htc)

/-- The runs of C27 on a map with an entry expired at 10, swept at 10: a rewrite of
the expired key, a read of both keys and an enumeration. -/
theorem lazy_eq_eager_witness :
    WF [(bytes "a", ⟨bytes "1", 5, true⟩), (bytes "b", ⟨bytes "2", 30, true⟩)] ∧
      List.Forall₂ Ret.same
        (run [(bytes "a", ⟨bytes "1", 5, true⟩), (bytes "b", ⟨bytes "2", 30, true⟩)]
          [(10, .get (bytes "a")), (12, .set (bytes "a") (bytes "3")), (20, .getAllKeys),
            (30, .get (bytes "b"))]).1
        (run (sweep 10 [(bytes "a", ⟨bytes "1", 5, true⟩), (bytes "b", ⟨bytes "2", 30, true⟩)])
          [(10, .get (bytes "a")), (12, .set (bytes "a") (bytes "3")), (20, .getAllKeys),
            (30, .get (bytes "b"))]).1 :=
  ⟨by decide,
    lazy_eq_eager [(bytes "a", ⟨bytes "1", 5, true⟩), (bytes "b", ⟨bytes "2", 30, true⟩)]
      (by decide) 10
      [(10, .get (bytes "a")), (12, .set (bytes "a") (bytes "3")), (20, .getAllKeys),
        (30, .get (bytes "b"))] (by decide)⟩

end Storage

/-! ## The snapshot loader: termination -/

namespace RDBParser

theorem AdvG.adv {f f' : IfStream} (h : AdvG f f') : Adv f f' := by
  obtain ⟨h1, h2, h3, _, _, h6, h7⟩ := h
  exact ⟨h1, h2, by omega, h3, h6⟩

theorem AdvG.trans {f f1 f2 : IfStream} (h : AdvG f f1) (h' : AdvG f1 f2) : AdvG f f2 := by
  obtain ⟨h1, h2, h3, _, _, h6, _⟩ := h
  obtain ⟨_, _, k3, k4, k5, k6, k7⟩ := h'
  exact ⟨h1, h2, k3.trans h3, k4, k5, by omega, by rw [h3] at k7; exact k7⟩

theorem AdvG.trans_adv {f f1 f2 : IfStream} (h : AdvG f f1) (h' : Adv f1 f2) : Adv f f2 := by
  obtain ⟨h1, h2, h3, _, _, h6, h7⟩ := h
  obtain ⟨_, _, _, k4, k5⟩ := h'
  exact ⟨h1, h2, by omega, k4.trans h3, by omega⟩

theorem Adv.budget_lt {f f' : IfStream} (h : Adv f f') : budget f' < budget f := by
  obtain ⟨h1, h2, h3, h4, h5⟩ := h
  unfold budget
  simp only [h1, h2, and_self, if_true]
  split
  · rw [h4]; omega
  · omega

theorem read_inv (f : IfStream) (n : Nat) (hn : 0 < n) (h : (f.read n).1.length = n) :
    AdvG f (f.read n).2 ∧ (f.read n).2.pos = f.pos + n := by
  obtain ⟨data, pos, eof, fail⟩ := f
  cases eof <;> cases fail <;>
    simp only [IfStream.read, IfStream.good, Bool.not_true, Bool.not_false, Bool.and_self,
      Bool.and_false, Bool.false_and, Bool.false_eq_true, if_false, if_true,
      List.length_nil] at h ⊢
  · by_cases hl : ((data.drop pos).take n).length < n
    · simp only [hl, if_true] at h
      omega
    · simp only [hl, if_false] at h ⊢
      have h2 : n ≤ data.length - pos := by
        have := List.length_take n (data.drop pos)
        rw [List.length_drop] at this
        omega
      refine ⟨⟨rfl, rfl, rfl, rfl, rfl, ?_, ?_⟩, trivial⟩
      · show pos < pos + n
        omega
      · show pos + n ≤ data.length
        omega
  · omega
  · omega
  · omega

theorem readExact_inv (f f' : IfStream) (n : Nat) (bs : Bytes) (hn : 0 < n)
    (h : readExact f n = .ok (bs, f')) : AdvG f f' := by
  unfold readExact at h
  by_cases hl : (f.read n).1.length = n
  · simp only [hl, if_true, Except.ok.injEq] at h
    have h2 := (read_inv f n hn hl).1
    rw [h] at h2
    exact h2
  · simp only [hl, if_false, reduceCtorEq] at h

theorem readByte_inv (f f' : IfStream) (b : Nat) (h : readByte f = .ok (b, f')) :
    AdvG f f' := by
  unfold readByte at h
  have key : (f.read 1).1.length = 1 ∧ (f.read 1).2 = f' := by
    rcases hr : f.read 1 with ⟨got, g⟩
    rw [hr] at h
    match got, h with
    | [b0], h =>
      simp only [Except.ok.injEq, Prod.mk.injEq] at h
      exact ⟨rfl, h.2⟩
  have h2 := (read_inv f 1 (by decide) key.1).1
  rw [key.2] at h2
  exact h2

theorem readByte_eq (f f' : IfStream) (b : Nat) (h : readByte f = .ok (b, f')) :
    f = ⟨f.data, f.pos, false, false⟩ ∧ f.pos < f.data.length ∧
      f' = ⟨f.data, f.pos + 1, false, false⟩ := by
  obtain ⟨h1, h2, h3, h4, h5, h6, h7⟩ := readByte_inv f f' b h
  have hpos : f'.pos = f.pos + 1 := by
    unfold readByte at h
    rcases hr : f.read 1 with ⟨got, g⟩
    rw [hr] at h
    match got, h with
    | [b0], h =>
      simp only [Except.ok.injEq, Prod.mk.injEq] at h
      have hlen : (f.read 1).1.length = 1 := by rw [hr]; rfl
      have := (read_inv f 1 (by decide) hlen).2
      rw [hr] at this
      rw [← h.2]
      exact this
  refine ⟨?_, by omega, ?_⟩
  · obtain ⟨data, pos, eof, fail⟩ := f
    simp only at h1 h2
    rw [h1, h2]
  · obtain ⟨data', pos', eof', fail'⟩ := f'
    simp only at h3 h4 h5 hpos
    rw [h3, h4, h5, hpos]

theorem readSizeBE_inv (n : Nat) : ∀ (size : Nat) (f f' : IfStream) (v : Nat), 0 < n →
    readSizeBE n size f = .ok (v, f') → AdvG f f' := by
  induction n with
  | zero => intro _ _ _ _ hn; omega
  | succ n ih =>
    intro size f f' v _ h
    unfold readSizeBE at h
    cases hb : readByte f with
    | error e => rw [hb] at h; cases h
    | ok r =>
      obtain ⟨b, f1⟩ := r
      rw [hb] at h
      simp only at h
      have a1 := readByte_inv f f1 b hb
      cases n with
      | zero =>
        simp only [readSizeBE, Except.ok.injEq, Prod.mk.injEq] at h
        rw [← h.2]; exact a1
      | succ m => exact a1.trans (ih _ f1 f' v (by omega) h)

theorem readLength_inv (f f' : IfStream) (v : Nat) (h : readLength f = .ok (v, f')) :
    AdvG f f' := by
  unfold readLength at h
  cases hb : readByte f with
  | error e => rw [hb] at h; cases h
  | ok r =>
    obtain ⟨firstByte, f1⟩ := r
    rw [hb] at h
    simp only at h
    have a1 := readByte_inv f f1 firstByte hb
    split at h
    · simp only [Except.ok.injEq, Prod.mk.injEq] at h
      rw [← h.2]; exact a1
    · split at h
      · cases hb2 : readByte f1 with
        | error e => rw [hb2] at h; cases h
        | ok r2 =>
          obtain ⟨b2, f2⟩ := r2
          rw [hb2] at h
          simp only [Except.ok.injEq, Prod.mk.injEq] at h
          rw [← h.2]; exact a1.trans (readByte_inv f1 f2 b2 hb2)
      · split at h
        · exact a1.trans (readSizeBE_inv 4 0 f1 f' v (by decide) h)
        · split at h
          · exact a1.trans (readByte_inv f1 f' v h)
          · split at h
            · cases he : readExact f1 2 with
              | error e => rw [he] at h; cases h
              | ok r2 =>
                obtain ⟨bs, f2⟩ := r2
                rw [he] at h
                simp only [Except.ok.injEq, Prod.mk.injEq] at h
                rw [← h.2]; exact a1.trans (readExact_inv f1 f2 2 bs (by decide) he)
            · split at h
              · cases he : readExact f1 4 with
                | error e => rw [he] at h; cases h
                | ok r2 =>
                  obtain ⟨bs, f2⟩ := r2
                  rw [he] at h
                  simp only [Except.ok.injEq, Prod.mk.injEq] at h
                  rw [← h.2]; exact a1.trans (readExact_inv f1 f2 4 bs (by decide) he)
              · simp only [Except.ok.injEq, Prod.mk.injEq] at h
                rw [← h.2]; exact a1

theorem read_data_pos (f : IfStream) (n : Nat) :
    (f.read n).2.data = f.data ∧ f.pos ≤ (f.read n).2.pos := by
  unfold IfStream.read
  dsimp only
  split_ifs
  · exact ⟨rfl, Nat.le_add_right _ _⟩
  · exact ⟨rfl, Nat.le_add_right _ _⟩
  · exact ⟨rfl, le_refl _⟩

theorem readRegular_inv (f f' : IfStream) (s : Bytes) (h : readRegular f = .ok (s, f')) :
    Adv f f' := by
  unfold readRegular at h
  cases hl : readLength f with
  | error e => rw [hl] at h; cases h
  | ok r =>
    obtain ⟨length, f1⟩ := r
    rw [hl] at h
    simp only [Except.ok.injEq, Prod.mk.injEq] at h
    obtain ⟨h1, h2, h3, _, _, h6, h7⟩ := readLength_inv f f1 length hl
    obtain ⟨k1, k2⟩ := read_data_pos f1 length
    rw [h.2] at k1 k2
    exact ⟨h1, h2, by omega, k1.trans h3, by omega⟩

theorem readString_inv (f f' : IfStream) (s : Bytes) (h : readString f = .ok (s, f')) :
    Adv f f' := by
  unfold readString at h
  cases hb : readByte f with
  | error e => rw [hb] at h; cases h
  | ok r =>
    obtain ⟨firstByte, f1⟩ := r
    rw [hb] at h
    obtain ⟨hf, _, hf1⟩ := readByte_eq f f1 firstByte hb
    simp only [hf1, seekg_back] at h
    rw [← hf] at h
    split at h
    · cases hb2 : readByte f with
      | error e => rw [hb2] at h; cases h
      | ok r2 =>
        obtain ⟨b2, f2⟩ := r2
        rw [hb2] at h
        simp only at h
        have a1 := readByte_inv f f2 b2 hb2
        split at h
        · cases hb3 : readByte f2 with
          | error e => rw [hb3] at h; cases h
          | ok r3 =>
            obtain ⟨v, f3⟩ := r3
            rw [hb3] at h
            simp only [Except.ok.injEq, Prod.mk.injEq] at h
            rw [← h.2]; exact (a1.trans (readByte_inv f2 f3 v hb3)).adv
        · split at h
          · cases he : readExact f2 2 with
            | error e => rw [he] at h; cases h
            | ok r3 =>
              obtain ⟨bs, f3⟩ := r3
              rw [he] at h
              simp only [Except.ok.injEq, Prod.mk.injEq] at h
              rw [← h.2]; exact (a1.trans (readExact_inv f2 f3 2 bs (by decide) he)).adv
          · split at h
            · cases he : readExact f2 4 with
              | error e => rw [he] at h; cases h
              | ok r3 =>
                obtain ⟨bs, f3⟩ := r3
                rw [he] at h
                simp only [Except.ok.injEq, Prod.mk.injEq] at h
                rw [← h.2]; exact (a1.trans (readExact_inv f2 f3 4 bs (by decide) he)).adv
            · exact a1.trans_adv (readRegular_inv f2 f' s h)
    · exact readRegular_inv f f' s h

/-! ### A failed read never shows as an exhausted budget -/

theorem readByte_noFuel (f : IfStream) : readByte f ≠ .error .fuel := by
  unfold readByte
  split <;> simp

theorem readExact_noFuel (f : IfStream) (n : Nat) : readExact f n ≠ .error .fuel := by
  unfold readExact
  split <;> simp

theorem readUInt32LE_noFuel (f : IfStream) : readUInt32LE f ≠ .error .fuel := by
  unfold readUInt32LE
  have h1 := readExact_noFuel f 4
  split <;> simp_all

theorem readUInt64LE_noFuel (f : IfStream) : readUInt64LE f ≠ .error .fuel := by
  unfold readUInt64LE
  have h1 := readExact_noFuel f 8
  split <;> simp_all

theorem readSizeBE_noFuel (n : Nat) : ∀ (size : Nat) (f : IfStream),
    readSizeBE n size f ≠ .error .fuel := by
  induction n with
  | zero => intro size f; simp [readSizeBE]
  | succ n ih =>
    intro size f
    unfold readSizeBE
    have h1 := readByte_noFuel f
    split
    · exact ih _ _
    · simp_all

theorem readLength_noFuel (f : IfStream) : readLength f ≠ .error .fuel := by
  unfold readLength
  have h1 := readByte_noFuel f
  split
  · simp_all
  · rename_i firstByte f1 _
    have h2 := readByte_noFuel f1
    have h3 := readSizeBE_noFuel 4 0 f1
    have h4 := readExact_noFuel f1 2
    have h5 := readExact_noFuel f1 4
    dsimp only
    split_ifs
    · simp
    · split <;> simp_all
    · exact h3
    · exact h2
    · split <;> simp_all
    · split <;> simp_all
    · simp

theorem readRegular_noFuel (f : IfStream) : readRegular f ≠ .error .fuel := by
  unfold readRegular
  have h1 := readLength_noFuel f
  split <;> simp_all

theorem readString_noFuel (f : IfStream) : readString f ≠ .error .fuel := by
  unfold readString
  have h1 := readByte_noFuel f
  split
  · simp_all
  · rename_i firstByte f1 _
    have h2 := readByte_noFuel (f1.seekg (-1))
    dsimp only
    split_ifs
    · split
      · simp_all
      · rename_i b2 f2 _
        have h3 := readByte_noFuel f2
        split <;> simp_all
    · split
      · simp_all
      · rename_i b2 f2 _
        have h4 := readExact_noFuel f2 2
        split <;> simp_all
    · split
      · simp_all
      · rename_i b2 f2 _
        have h5 := readExact_noFuel f2 4
        split <;> simp_all
    · split
      · simp_all
      · exact readRegular_noFuel _
    · exact readRegular_noFuel _

theorem readExpiry_noFuel (marker : Nat) (f : IfStream) :
    readExpiry marker f ≠ .error .fuel := by
  unfold readExpiry
  split_ifs
  · have h1 := readUInt32LE_noFuel f
    split
    · simp_all
    · rename_i seconds f1 _
      have h2 := readByte_noFuel f1
      split <;> simp_all
  · have h1 := readUInt64LE_noFuel f
    split
    · simp_all
    · rename_i millis f1 _
      have h2 := readByte_noFuel f1
      split <;> simp_all
  · simp

/-! ### Every pass of a loop uses up bytes -/

theorem isEOF_false_inv (f f0 : IfStream) (h : isEOF f = (false, f0)) :
    f0 = f ∧ f.pos < f.data.length := by
  obtain ⟨data, pos, eof, fail⟩ := f
  cases eof <;> cases fail <;>
    simp only [isEOF, IfStream.peek, IfStream.good, Bool.not_true, Bool.not_false,
      Bool.and_self, Bool.and_false, Bool.false_and, Bool.false_eq_true, if_false, if_true,
      Prod.mk.injEq, Bool.true_eq_false, false_and] at h
  cases hd : data.drop pos with
  | nil => rw [hd] at h; simp at h
  | cons c rest =>
    rw [hd] at h
    simp only [Prod.mk.injEq, true_and] at h
    refine ⟨h.symm, ?_⟩
    by_contra hlt
    have : data.drop pos = [] := List.drop_eq_nil_of_le (by simp only at hlt; omega)
    rw [this] at hd
    cases hd

theorem isEOF_true_inv (f f0 : IfStream) (h : isEOF f = (true, f0)) :
    budget f0 ≤ budget f := by
  obtain ⟨data, pos, eof, fail⟩ := f
  cases eof <;> cases fail <;>
    simp only [isEOF, IfStream.peek, IfStream.good, Bool.not_true, Bool.not_false,
      Bool.and_self, Bool.and_false, Bool.false_and, Bool.false_eq_true, if_false, if_true,
      Prod.mk.injEq, true_and] at h
  · cases hd : data.drop pos with
    | nil =>
      rw [hd] at h
      simp only [Prod.mk.injEq, true_and] at h
      rw [← h]
      simp [budget]
    | cons c rest => rw [hd] at h; simp at h
  · rw [← h]
  · rw [← h]
  · rw [← h]

theorem readByte_budget (f f' : IfStream) (b : Nat) (h : readByte f = .ok (b, f')) :
    budget f' < budget f ∧ f'.seekg (-1) = f := by
  refine ⟨(readByte_inv f f' b h).adv.budget_lt, ?_⟩
  obtain ⟨hf, _, hf'⟩ := readByte_eq f f' b h
  rw [hf', seekg_back, ← hf]

theorem readString_budget (f f' : IfStream) (s : Bytes) (h : readString f = .ok (s, f')) :
    budget f' < budget f :=
  (readString_inv f f' s h).budget_lt

theorem readLength_budget (f f' : IfStream) (v : Nat) (h : readLength f = .ok (v, f')) :
    budget f' < budget f :=
  (readLength_inv f f' v h).adv.budget_lt

theorem readExpiry_budget (marker : Nat) (f f' : IfStream) (r : Bool × Nat × Nat)
    (h : readExpiry marker f = .ok (r, f')) : budget f' ≤ budget f := by
  unfold readExpiry at h
  split_ifs at h
  · cases h1 : readUInt32LE f with
    | error e => rw [h1] at h; cases h
    | ok r1 =>
      obtain ⟨seconds, f1⟩ := r1
      rw [h1] at h
      simp only at h
      have a1 : AdvG f f1 := by
        unfold readUInt32LE at h1
        cases he : readExact f 4 with
        | error e => rw [he] at h1; cases h1
        | ok r2 =>
          obtain ⟨bs, f2⟩ := r2
          rw [he] at h1
          simp only [Except.ok.injEq, Prod.mk.injEq] at h1
          rw [← h1.2]; exact readExact_inv f f2 4 bs (by decide) he
      cases h2 : readByte f1 with
      | error e => rw [h2] at h; cases h
      | ok r2 =>
        obtain ⟨m, f2⟩ := r2
        rw [h2] at h
        simp only [Except.ok.injEq, Prod.mk.injEq] at h
        rw [← h.2]
        exact le_of_lt (a1.trans (readByte_inv f1 f2 m h2)).adv.budget_lt
  · cases h1 : readUInt64LE f with
    | error e => rw [h1] at h; cases h
    | ok r1 =>
      obtain ⟨millis, f1⟩ := r1
      rw [h1] at h
      simp only at h
      have a1 : AdvG f f1 := by
        unfold readUInt64LE at h1
        cases he : readExact f 8 with
        | error e => rw [he] at h1; cases h1
        | ok r2 =>
          obtain ⟨bs, f2⟩ := r2
          rw [he] at h1
          simp only [Except.ok.injEq, Prod.mk.injEq] at h1
          rw [← h1.2]; exact readExact_inv f f2 8 bs (by decide) he
      cases h2 : readByte f1 with
      | error e => rw [h2] at h; cases h
      | ok r2 =>
        obtain ⟨m, f2⟩ := r2
        rw [h2] at h
        simp only [Except.ok.injEq, Prod.mk.injEq] at h
        rw [← h.2]
        exact le_of_lt (a1.trans (readByte_inv f1 f2 m h2)).adv.budget_lt
  · simp only [Except.ok.injEq, Prod.mk.injEq] at h
    rw [← h.2]

theorem error_ne_fuel {α β : Type} (r : Except Fault α) (e : Fault) (hr : r ≠ .error .fuel)
    (h : r = .error e) : (Except.error e : Except Fault β) ≠ .error .fuel := by
  intro hc
  simp only [Except.error.injEq] at hc
  subst hc
  exact hr h

/-- The metadata loop with a budget above the bytes left does not run out of budget, and
it leaves no more bytes than it found. -/
theorem skipMetadata_terminates (fuel : Nat) : ∀ f : IfStream, budget f < fuel →
    skipMetadata fuel f ≠ .error .fuel ∧
      ∀ b f', skipMetadata fuel f = .ok (b, f') → budget f' ≤ budget f := by
  induction fuel with
  | zero => intro f h; omega
  | succ fuel ih =>
    intro f hb
    unfold skipMetadata
    rcases hE : isEOF f with ⟨e, f0⟩
    cases e with
    | true =>
      refine ⟨by simp, ?_⟩
      intro b f' h
      simp only [Except.ok.injEq, Prod.mk.injEq] at h
      rw [← h.2]; exact isEOF_true_inv f f0 hE
    | false =>
      obtain ⟨hf0, _⟩ := isEOF_false_inv f f0 hE
      subst hf0
      simp only
      cases hB : readByte f0 with
      | error e =>
        exact ⟨error_ne_fuel _ e (readByte_noFuel f0) hB, fun b f' h => by cases h⟩
      | ok r =>
        obtain ⟨type, f1⟩ := r
        obtain ⟨hlt1, hback⟩ := readByte_budget f0 f1 type hB
        simp only
        by_cases hFA : type = 0xFA
        · simp only [hFA, if_true]
          cases hS1 : readString f1 with
          | error e =>
            exact ⟨error_ne_fuel _ e (readString_noFuel f1) hS1, fun b f' h => by cases h⟩
          | ok r1 =>
            obtain ⟨s1, f2⟩ := r1
            have hlt2 := readString_budget f1 f2 s1 hS1
            simp only
            cases hS2 : readString f2 with
            | error e =>
              exact ⟨error_ne_fuel _ e (readString_noFuel f2) hS2, fun b f' h => by cases h⟩
            | ok r2 =>
              obtain ⟨s2, f3⟩ := r2
              have hlt3 := readString_budget f2 f3 s2 hS2
              simp only
              obtain ⟨i1, i2⟩ := ih f3 (by omega)
              exact ⟨i1, fun b f' h => le_trans (i2 b f' h) (by omega)⟩
        · simp only [hFA, if_false]
          by_cases hM : type = 0xFE ∨ type = 0xFF
          · simp only [hM, if_true, hback]
            refine ⟨by simp, ?_⟩
            intro b f' h
            simp only [Except.ok.injEq, Prod.mk.injEq] at h
            rw [← h.2]
          · simp only [hM, if_false]
            refine ⟨by simp, ?_⟩
            intro b f' h
            simp only [Except.ok.injEq, Prod.mk.injEq] at h
            rw [← h.2]; omega

/-- The key-value loop with a budget above the bytes left does not run out of budget,
and it leaves no more bytes than it found. -/
theorem readKeyValues_terminates (nowMs now : Int) (fuel : Nat) :
    ∀ (f : IfStream) (storage : Store), budget f < fuel →
      readKeyValues nowMs now fuel f storage ≠ .error .fuel ∧
        ∀ x f' s', readKeyValues nowMs now fuel f storage = .ok (x, f', s') →
          budget f' ≤ budget f := by
  induction fuel with
  | zero => intro f _ h; omega
  | succ fuel ih =>
    intro f storage hb
    unfold readKeyValues
    rcases hE : isEOF f with ⟨e, f0⟩
    cases e with
    | true =>
      refine ⟨by simp, ?_⟩
      intro x f' s' h
      simp only [Except.ok.injEq, Prod.mk.injEq] at h
      rw [← h.2.1]; exact isEOF_true_inv f f0 hE
    | false =>
      obtain ⟨hf0, _⟩ := isEOF_false_inv f f0 hE
      subst hf0
      simp only
      cases hB : readByte f0 with
      | error e =>
        exact ⟨error_ne_fuel _ e (readByte_noFuel f0) hB, fun x f' s' h => by cases h⟩
      | ok r =>
        obtain ⟨marker, f1⟩ := r
        obtain ⟨hlt1, hback⟩ := readByte_budget f0 f1 marker hB
        simp only
        by_cases hM : marker = 0xFE ∨ marker = 0xFF
        · simp only [hM, if_true, hback]
          refine ⟨by simp, ?_⟩
          intro x f' s' h
          simp only [Except.ok.injEq, Prod.mk.injEq] at h
          rw [← h.2.1]
        · simp only [hM, if_false]
          cases hX : readExpiry marker f1 with
          | error e =>
            exact ⟨error_ne_fuel _ e (readExpiry_noFuel marker f1) hX,
              fun x f' s' h => by cases h⟩
          | ok rx =>
            obtain ⟨⟨hasExpiry, expiryTime, marker2⟩, f2⟩ := rx
            have hle2 := readExpiry_budget marker f1 f2 _ hX
            simp only
            by_cases h0 : marker2 = 0x00
            · simp only [h0, ne_eq, not_true_eq_false, if_false]
              cases hS1 : readString f2 with
              | error e =>
                exact ⟨error_ne_fuel _ e (readString_noFuel f2) hS1,
                  fun x f' s' h => by cases h⟩
              | ok r1 =>
                obtain ⟨key, f3⟩ := r1
                have hlt3 := readString_budget f2 f3 key hS1
                simp only
                cases hS2 : readString f3 with
                | error e =>
                  exact ⟨error_ne_fuel _ e (readString_noFuel f3) hS2,
                    fun x f' s' h => by cases h⟩
                | ok r2 =>
                  obtain ⟨value, f4⟩ := r2
                  have hlt4 := readString_budget f3 f4 value hS2
                  simp only
                  obtain ⟨i1, i2⟩ := ih f4
                    (store storage nowMs now hasExpiry expiryTime key value) (by omega)
                  exact ⟨i1, fun x f' s' h => le_trans (i2 x f' s' h) (by omega)⟩
            · simp only [ne_eq, h0, not_false_eq_true, if_true]
              refine ⟨by simp, ?_⟩
              intro x f' s' h
              simp only [Except.ok.injEq, Prod.mk.injEq] at h
              rw [← h.2.1]; omega

/-- The database loop with a budget above the bytes left does not run out of budget. -/
theorem readDatabase_terminates (nowMs now : Int) (fuel : Nat) :
    ∀ (f : IfStream) (storage : Store), budget f < fuel →
      readDatabase nowMs now fuel f storage ≠ .error .fuel := by
  induction fuel with
  | zero => intro f _ h; omega
  | succ fuel ih =>
    intro f storage hb
    have inner : ∀ fS : IfStream, budget fS < fuel →
        (match readKeyValues nowMs now fuel fS storage with
          | .error e => .error e
          | .ok (some b, f, storage) => .ok (b, f, storage)
          | .ok (none, f, storage) => readDatabase nowMs now fuel f storage) ≠
          (.error .fuel : Except Fault (Bool × IfStream × Store)) := by
      intro fS hS
      obtain ⟨k1, k2⟩ := readKeyValues_terminates nowMs now fuel fS storage hS
      cases hK : readKeyValues nowMs now fuel fS storage with
      | error e => exact error_ne_fuel _ e k1 hK
      | ok rk =>
        obtain ⟨x, f5, s5⟩ := rk
        have hle := k2 x f5 s5 hK
        cases x with
        | some b => simp
        | none => exact ih f5 s5 (by omega)
    unfold readDatabase
    rcases hE : isEOF f with ⟨e, f0⟩
    cases e with
    | true => simp
    | false =>
      obtain ⟨hf0, _⟩ := isEOF_false_inv f f0 hE
      subst hf0
      simp only
      cases hB : readByte f0 with
      | error e => exact error_ne_fuel _ e (readByte_noFuel f0) hB
      | ok r =>
        obtain ⟨type, f1⟩ := r
        obtain ⟨hlt1, _⟩ := readByte_budget f0 f1 type hB
        simp only
        by_cases hFE : type = 0xFE
        · simp only [hFE, if_true]
          cases hB2 : readByte f1 with
          | error e => exact error_ne_fuel _ e (readByte_noFuel f1) hB2
          | ok r2 =>
            obtain ⟨nextByte, f2⟩ := r2
            obtain ⟨hlt2, hback⟩ := readByte_budget f1 f2 nextByte hB2
            simp only
            by_cases hFB : nextByte = 0xFB
            · simp only [hFB, if_true]
              cases hL1 : readLength f2 with
              | error e => exact error_ne_fuel _ e (readLength_noFuel f2) hL1
              | ok l1 =>
                obtain ⟨v1, f3⟩ := l1
                have hlt3 := readLength_budget f2 f3 v1 hL1
                simp only
                cases hL2 : readLength f3 with
                | error e => exact error_ne_fuel _ e (readLength_noFuel f3) hL2
                | ok l2 =>
                  obtain ⟨v2, f4⟩ := l2
                  have hlt4 := readLength_budget f3 f4 v2 hL2
                  simp only
                  exact inner f4 (by omega)
            · simp only [hFB, if_false, hback]
              exact inner f1 (by omega)
        · simp only [hFE, if_false]
          split_ifs <;> simp

theorem budget_le_length (f : IfStream) : budget f ≤ f.data.length := by
  unfold budget
  split_ifs <;> omega

theorem readHeader_budget (data : Bytes) (b : Bool) (f : IfStream)
    (h : readHeader ⟨data, 0, false, false⟩ = (b, f)) : budget f ≤ data.length := by
  have hd : f.data = data := by
    unfold readHeader at h
    split_ifs at h
    · simp only [Prod.mk.injEq] at h
      rw [← h.2]; exact (read_data_pos _ 9).1
    · simp only [Prod.mk.injEq] at h
      rw [← h.2]; exact (read_data_pos _ 9).1
  have := budget_le_length f
  rw [hd] at this
  exact this

/-- C28: `parseFile` on any file contents comes to an end. With a loop budget above the
number of bytes of the file the model never runs out of budget: the run ends with the
returned flag or at the first use of a variable that a failed read left uninitialised.
The same holds for each loop started on a stream with fewer unread bytes than the
budget, because a pass that does not leave the loop consumes at least one byte, the
seeks back by one byte included. -/
theorem parseFile_terminates (nowMs now : Int) (fuel : Nat) :
    (∀ (data : Bytes) (storage : Store), data.length < fuel →
      parseFile fuel (.contents data) storage nowMs now ≠ .error .fuel) ∧
    (∀ f : IfStream, budget f < fuel → skipMetadata fuel f ≠ .error .fuel) ∧
    (∀ (f : IfStream) (storage : Store), budget f < fuel →
      readKeyValues nowMs now fuel f storage ≠ .error .fuel) ∧
    (∀ (f : IfStream) (storage : Store), budget f < fuel →
      readDatabase nowMs now fuel f storage ≠ .error .fuel) := by
  refine ⟨?_, fun f h => (skipMetadata_terminates fuel f h).1,
    fun f storage h => (readKeyValues_terminates nowMs now fuel f storage h).1,
    readDatabase_terminates nowMs now fuel⟩
  intro data storage hlen
  unfold parseFile
  simp only
  rcases hH : readHeader ⟨data, 0, false, false⟩ with ⟨b, f⟩
  have hbf := readHeader_budget data b f hH
  cases b with
  | false => simp
  | true =>
    simp only
    obtain ⟨k1, k2⟩ := skipMetadata_terminates fuel f (by omega)
    cases hS : skipMetadata fuel f with
    | error e => exact error_ne_fuel _ e k1 hS
    | ok r =>
      obtain ⟨b2, f2⟩ := r
      have hle := k2 b2 f2 hS
      cases b2 with
      | false => simp
      | true =>
        simp only
        have k3 := readDatabase_terminates nowMs now fuel f2 storage (by omega)
        cases hD : readDatabase nowMs now fuel f2 storage with
        | error e => exact error_ne_fuel _ e k3 hD
        | ok rd => simp

/-- Runs of C28 with the budget of the length plus one: on a file cut off inside a
record, on a file that ends behind a database opcode and on a file of opcodes only. -/
theorem parseFile_terminates_witness :
    (bytes "REDIS0011" ++ [0xFE, 0x00, 5, 107]).length < 14 ∧
      parseFile 14 (.contents (bytes "REDIS0011" ++ [0xFE, 0x00, 5, 107])) [] 0 0 ≠
        .error .fuel ∧
      parseFile 14 (.contents (bytes "REDIS0011" ++ [0xFE, 0xFE, 0xFE, 0xFE])) [] 0 0 =
        .error .indeterminate ∧
      parseFile 14 (.contents (bytes "REDIS0011" ++ [0xFE, 0xFE, 0xFE, 0xFF])) [] 0 0 =
        .ok (true, []) :=
  ⟨by decide,
    (parseFile_terminates 0 0 14).1 (bytes "REDIS0011" ++ [0xFE, 0x00, 5, 107]) [] (by decide),
    by decide, by decide⟩

end RDBParser

end Redis
